import Mathlib

/-!
Verification of the template-merge engine of the sf-api document generator
(src/main.py) against its natural-language specification.

The development shallowly embeds the relevant Python code:

* worksheets (`Sheet`) are grids of cells (value plus opaque style id),
  per-row heights and a list of merged ranges, mirroring the openpyxl
  object model as used by the source;
* Python strings are handled as `List Char` with faithful embeddings of
  `str.replace`, the regular expressions used by the source
  (`\x7b\x7b.*?\x7d\x7d`, the `#if` conditional pattern and the
  `\x7b\x7bkey\\#(.*?)\x7d\x7d` format pattern, all without DOTALL, so a
  `.` never matches a newline), and `float()` parsing;
* Python scalars are `PyVal`: `None`, `str`, `int`, and floats restricted
  to exactly-representable decimal values `m / 10^e` (the idealisation of
  binary floats on the decimal literals that actually occur; `str` of such
  a float is its shortest decimal form, `"\x7b:,.2f\x7d".format` is
  round-half-even to cents with thousands grouping).

Each claim of the specification is settled by one theorem near the end of
the file.
-/

/-! ### Generic list access with defaults

`getAt l i d` is `l[i]` with default `d`; `setAt l i d a` writes index `i`,
padding with `d` first (openpyxl creates missing cells on access).  -/

def getAt {α : Type} : List α → Nat → α → α
  | [], _, d => d
  | a :: _, 0, _ => a
  | _ :: t, i + 1, d => getAt t i d

def setAt {α : Type} : List α → Nat → α → α → List α
  | [], 0, _, a => [a]
  | [], i + 1, d, a => d :: setAt [] i d a
  | _ :: t, 0, _, a => a :: t
  | b :: t, i + 1, d, a => b :: setAt t i d a

theorem getAt_setAt_self {α : Type} (l : List α) (i : Nat) (d a : α) :
    getAt (setAt l i d a) i d = a := by
  induction i generalizing l with
  | zero => cases l <;> rfl
  | succ i ih => cases l <;> simp [setAt, getAt, ih]

theorem getAt_setAt_other {α : Type} (l : List α) (i j : Nat) (d a : α)
    (h : i ≠ j) : getAt (setAt l i d a) j d = getAt l j d := by
  induction i generalizing l j with
  | zero =>
    cases j with
    | zero => exact absurd rfl h
    | succ j => cases l <;> simp [setAt, getAt] <;> cases j <;> simp [getAt]
  | succ i ih =>
    cases l with
    | nil =>
      cases j with
      | zero => rfl
      | succ j => simpa [setAt, getAt] using ih [] j (by omega)
    | cons b t =>
      cases j with
      | zero => rfl
      | succ j => simpa [setAt, getAt] using ih t j (by omega)

theorem length_setAt {α : Type} (l : List α) (i : Nat) (d a : α) :
    (setAt l i d a).length = max l.length (i + 1) := by
  induction i generalizing l with
  | zero => cases l <;> simp [setAt]
  | succ i ih => cases l <;> simp [setAt, ih] <;> omega

theorem getAt_append {α : Type} (a b : List α) (i : Nat) (d : α) :
    getAt (a ++ b) i d = if i < a.length then getAt a i d else getAt b (i - a.length) d := by
  induction a generalizing i with
  | nil => simp [getAt]
  | cons x t ih =>
    cases i with
    | zero => simp [getAt]
    | succ i => simpa [getAt, Nat.succ_lt_succ_iff] using ih i

theorem getAt_replicate {α : Type} (k i : Nat) (x d : α) :
    getAt (List.replicate k x) i d = if i < k then x else d := by
  induction k generalizing i with
  | zero => simp [getAt]
  | succ k ih =>
    cases i with
    | zero => simp [List.replicate, getAt]
    | succ i => simpa [List.replicate, getAt, Nat.succ_lt_succ_iff] using ih i

theorem getAt_take {α : Type} (l : List α) (n i : Nat) (d : α) (h : i < n) :
    getAt (List.take n l) i d = getAt l i d := by
  induction l generalizing n i with
  | nil => simp [getAt]
  | cons x t ih =>
    cases n with
    | zero => omega
    | succ n =>
      cases i with
      | zero => simp [getAt]
      | succ i => simpa [getAt] using ih n i (by omega)

theorem getAt_drop {α : Type} (l : List α) (n i : Nat) (d : α) :
    getAt (List.drop n l) i d = getAt l (n + i) d := by
  induction l generalizing n with
  | nil => simp [getAt]
  | cons x t ih =>
    cases n with
    | zero => simp [getAt]
    | succ n =>
      have harith : n + 1 + i = (n + i) + 1 := by omega
      rw [harith]
      simpa [getAt] using ih n

/-! ### Embedded Python string primitives (on `List Char`) -/

/-- Prefix test, the building block for substring search and `str.replace`. -/
def hasPrefixL : List Char → List Char → Bool
  | [], _ => true
  | _ :: _, [] => false
  | p :: ps, c :: cs => p = c && hasPrefixL ps cs

/-- Substring occurrence test (`pat in s` for Python strings). -/
def hasSubL (pat : List Char) : List Char → Bool
  | [] => hasPrefixL pat []
  | c :: t => hasPrefixL pat (c :: t) || hasSubL pat t

/-- One step of Python `str.replace`: non-overlapping, left to right.
Fuel makes the recursion structural; `listReplace` supplies enough fuel. -/
def replaceF (old new : List Char) : Nat → List Char → List Char
  | 0, s => s
  | _ + 1, [] => []
  | fuel + 1, c :: t =>
    if hasPrefixL old (c :: t) then
      new ++ replaceF old new fuel (List.drop (old.length - 1) t)
    else
      c :: replaceF old new fuel t

/-- Python `s.replace(old, new)` (all non-overlapping occurrences, left to
right; the source never calls it with an empty `old`). -/
def listReplace (s old new : List Char) : List Char :=
  replaceF old new (s.length + 1) s

theorem hasPrefixL_refl (l : List Char) : hasPrefixL l l = true := by
  induction l with
  | nil => rfl
  | cons c t ih => simp [hasPrefixL, ih]

theorem replaceF_fuel (old new : List Char) (f g : Nat) (s : List Char)
    (hf : s.length < f) (hg : s.length < g) :
    replaceF old new f s = replaceF old new g s := by
  induction f generalizing g s with
  | zero => omega
  | succ f ih =>
    cases g with
    | zero => omega
    | succ g =>
      cases s with
      | nil => rfl
      | cons c t =>
        by_cases h : hasPrefixL old (c :: t)
        · simp only [replaceF, h, if_pos]
          have hlen : (List.drop (old.length - 1) t).length ≤ t.length := by
            simp [List.length_drop]
          have := ih g (List.drop (old.length - 1) t)
            (by simp at hf; omega) (by simp at hg; omega)
          rw [this]
        · simp only [replaceF, h, if_neg, Bool.false_eq_true, not_false_iff]
          have := ih g t (by simp at hf; omega) (by simp at hg; omega)
          rw [this]

theorem replaceF_not_contains (old new : List Char) (f : Nat) (s : List Char)
    (hf : s.length < f) (h : hasSubL old s = false) :
    replaceF old new f s = s := by
  induction f generalizing s with
  | zero => omega
  | succ f ih =>
    cases s with
    | nil => rfl
    | cons c t =>
      simp only [hasSubL, Bool.or_eq_false_iff] at h
      simp only [replaceF, h.1, Bool.false_eq_true, if_neg, not_false_iff]
      rw [ih t (by simp at hf; omega) h.2]

/-- `str.replace` is the identity when the pattern does not occur. -/
theorem listReplace_not_contains (s old new : List Char)
    (h : hasSubL old s = false) : listReplace s old new = s :=
  replaceF_not_contains old new (s.length + 1) s (by omega) h

/-- Replacing the whole string by `new` when the string is the pattern. -/
theorem listReplace_self (s new : List Char) (hs : s ≠ []) :
    listReplace s s new = new := by
  cases s with
  | nil => exact absurd rfl hs
  | cons c t =>
    simp only [listReplace, replaceF, hasPrefixL_refl, if_pos]
    have hdrop : List.drop ((c :: t).length - 1) t = [] := by
      simp
    rw [hdrop]
    cases t <;> simp [replaceF]

/-! ### Python scalar values

`PyVal` models the scalars the source moves between Salesforce records and
worksheet cells: `None`, `str`, `int`, and floats.  Floats are restricted
to exactly-representable decimal values `vDec m e` standing for
`m / 10 ^ e` (every numeric literal the claims exercise is of this form);
`str` of such a float is its trailing-zero-free decimal form with at least
one fractional digit, matching Python's shortest-round-trip `repr` on this
domain. -/

inductive PyVal where
  | vNone : PyVal
  | vStr : String → PyVal
  | vInt : Int → PyVal
  | vDec : Int → Nat → PyVal
deriving DecidableEq, Repr

/-- Decimal digit character. -/
def digitChar (d : Nat) : Char := Char.ofNat (48 + d)

/-- Decimal digits of a natural number, most significant first. -/
def natDigitsAux : Nat → Nat → List Char → List Char
  | 0, _, acc => acc
  | f + 1, n, acc =>
    if n < 10 then digitChar n :: acc
    else natDigitsAux f (n / 10) (digitChar (n % 10) :: acc)

def natDigits (n : Nat) : List Char := natDigitsAux (n + 1) n []

/-- Strip factors of ten from `m / 10 ^ e` (canonical form of a float that
is an exact decimal). -/
def stripZeros : Int → Nat → Int × Nat
  | m, 0 => (m, 0)
  | m, e + 1 => if m % 10 = 0 then stripZeros (m / 10) e else (m, e + 1)

/-- Fraction digits of `fr`, left-padded with zeros to width `e`. -/
def padFrac (e : Nat) (fr : Nat) : List Char :=
  List.replicate (e - (natDigits fr).length) (digitChar 0) ++ natDigits fr

/-- Python `str` of a float that is exactly `m / 10 ^ e`: canonicalise,
then render `-?digits.digits` keeping at least one fractional digit
(`str(1234.0)` is `"1234.0"`, `str(1234.50)` is `"1234.5"`). -/
def decRepr (m : Int) (e : Nat) : String :=
  let n := stripZeros m e
  if n.2 = 0 then toString n.1 ++ ".0"
  else
    (if n.1 < 0 then "-" else "") ++
      String.mk (natDigits (n.1.natAbs / 10 ^ n.2)) ++ "." ++
      String.mk (padFrac n.2 (n.1.natAbs % 10 ^ n.2))

/-- Python `str` of a `PyVal`. -/
def pyStr : PyVal → String
  | PyVal.vNone => "None"
  | PyVal.vStr s => s
  | PyVal.vInt n => toString n
  | PyVal.vDec m e => decRepr m e

/-- Python truthiness of a `PyVal` (used by `x or default` and `if x`). -/
def pyTruthy : PyVal → Bool
  | PyVal.vNone => false
  | PyVal.vStr s => !s.isEmpty
  | PyVal.vInt n => n != 0
  | PyVal.vDec m _ => m != 0

/-- First-match association lookup (Python `dict` access on the
insertion-ordered pair list we use to model dicts). -/
def lookupPV : List (String × PyVal) → String → Option PyVal
  | [], _ => none
  | kv :: t, k => if kv.1 = k then some kv.2 else lookupPV t k

/-- `d.get(k, default)` for our dict model. -/
def pyGet (d : List (String × PyVal)) (k : String) (dflt : PyVal) : PyVal :=
  (lookupPV d k).getD dflt

/-- `d.get(k) or default`: `dict.get` (defaulting to `None`) followed by
Python's `or`, which keeps the value only when truthy. -/
def pyGetOr (d : List (String × PyVal)) (k : String) (dflt : PyVal) : PyVal :=
  let v := pyGet d k PyVal.vNone
  if pyTruthy v then v else dflt

/-- Round `m / 10 ^ e` to an integer number of cents, ties to even: the
rounding performed by Python's `"\x7b:,.2f\x7d".format` on an exactly
representable value. -/
def roundHalfEvenCents (m : Int) (e : Nat) : Int :=
  let den : Int := (10 : Int) ^ e
  let num : Int := m * 100
  let q : Int := Int.fdiv num den
  let r : Int := num - q * den
  if 2 * r < den then q
  else if den < 2 * r then q + 1
  else if q % 2 = 0 then q else q + 1

/-- Insert thousands separators: digits arrive least significant first and
a comma is placed after every third digit. -/
def commaGroupRev : List Char → List Char
  | a :: b :: c :: d :: rest => a :: b :: c :: ',' :: commaGroupRev (d :: rest)
  | l => l

def groupDigits (ds : List Char) : List Char :=
  (commaGroupRev ds.reverse).reverse

/-- Render an integer number of cents as `-?d,ddd.dd`. -/
def fmtCents (c : Int) : String :=
  (if c < 0 then "-" else "") ++
    String.mk (groupDigits (natDigits (c.natAbs / 100))) ++ "." ++
    String.mk [digitChar (c.natAbs % 100 / 10), digitChar (c.natAbs % 10)]

/-- Python `"\x7b:,.2f\x7d".format(value)` for a numeric `PyVal`:
two decimal places (round half to even) and thousands separators. -/
def formatComma2 : PyVal → String
  | PyVal.vInt n => fmtCents (n * 100)
  | PyVal.vDec m e => fmtCents (roundHalfEvenCents m e)
  | v => pyStr v

/-- Python whitespace stripped by `float()` (space, tab, newline, vertical
tab, form feed, carriage return). -/
def isPyWs (c : Char) : Bool :=
  c = ' ' || c.toNat = 9 || c.toNat = 10 || c.toNat = 11 || c.toNat = 12 || c.toNat = 13

def trimWs (l : List Char) : List Char :=
  ((l.dropWhile isPyWs).reverse.dropWhile isPyWs).reverse

def digitsToNat (ds : List Char) : Nat :=
  ds.foldl (fun acc c => acc * 10 + (c.toNat - 48)) 0

/-- Parse the exponent-free part state and an optional exponent, shared by
`parseFloatChars`.  Returns the decimal value as `(mantissa, scale)` with
value `mantissa / 10 ^ scale`. -/
def applyExp (m : Int) (e0 : Nat) (k : Int) : Int × Nat :=
  let net : Int := k - (e0 : Int)
  if 0 ≤ net then (m * (10 : Int) ^ net.toNat, 0) else (m, (-net).toNat)

/-- Embedding of Python `float(s)` on finite decimal literals: optional
surrounding whitespace, optional sign, digits with an optional single
point (at least one digit overall), optional `e`/`E` exponent.  Returns
the exact value `m / 10 ^ e`.  (`inf`, `nan` and underscore separators are
not modelled; no such literal reaches this code.) -/
def parseFloatChars (l : List Char) : Option (Int × Nat) :=
  let l := trimWs l
  let sgn : Int := match l with
    | c :: _ => if c = '-' then -1 else 1
    | [] => 1
  let l := match l with
    | c :: t => if c = '-' || c = '+' then t else c :: t
    | [] => []
  let d1 := l.takeWhile Char.isDigit
  let l1 := l.dropWhile Char.isDigit
  let frac : Option (List Char × List Char) := match l1 with
    | c :: t => if c = '.' then some (t.takeWhile Char.isDigit, t.dropWhile Char.isDigit) else some ([], l1)
    | [] => some ([], [])
  match frac with
  | none => none
  | some (d2, l2) =>
    if d1.isEmpty && d2.isEmpty then none
    else
      let m : Int := sgn * (digitsToNat (d1 ++ d2) : Int)
      let e0 : Nat := d2.length
      match l2 with
      | [] => some (m, e0)
      | c :: t =>
        if c = 'e' || c = 'E' then
          let esgn : Int := match t with
            | c2 :: _ => if c2 = '-' then -1 else 1
            | [] => 1
          let t := match t with
            | c2 :: t2 => if c2 = '-' || c2 = '+' then t2 else c2 :: t2
            | [] => []
          let d3 := t.takeWhile Char.isDigit
          let t3 := t.dropWhile Char.isDigit
          if d3.isEmpty || !t3.isEmpty then none
          else some (applyExp m e0 (esgn * (digitsToNat d3 : Int)))
        else none

/-- The numeric-coercion step applied to every resolved table cell
(src/main.py lines 1475-1488): strip commas, try `float()`; a parse
failure or a leading zero (length above one, leading `0`, not a `0.`
prefix) leaves the string; an integral value becomes `int`, any other
value stays a float. -/
def coerceCellVal (v : PyVal) : PyVal :=
  match v with
  | PyVal.vStr s =>
    let clean := listReplace s.data [','] []
    match parseFloatChars clean with
    | none => PyVal.vStr s
    | some me =>
      let isLZ := decide (1 < clean.length) &&
        (match clean with
         | c :: _ => c = '0'
         | [] => false) &&
        !hasPrefixL ['0', '.'] clean
      if isLZ then PyVal.vStr s
      else
        let n := stripZeros me.1 me.2
        if n.2 = 0 then PyVal.vInt n.1 else PyVal.vDec n.1 n.2
  | v => v

/-! ### The regular-expression scanners used by the source

All three regexes are compiled without DOTALL, so `.` matches anything but
a newline.  The brace characters are written via `Char.ofNat` throughout. -/

def braceO : Char := Char.ofNat 123

def braceC : Char := Char.ofNat 125

def apos : Char := Char.ofNat 39

def bslash : Char := Char.ofNat 92

def nlChar : Char := Char.ofNat 10

def obrace2 : List Char := [braceO, braceO]

def cbrace2 : List Char := [braceC, braceC]

/-- Non-greedy scan `(.*?)marker`: the gap up to the first occurrence of
`marker` together with the rest after it, failing on a newline in the gap
(no DOTALL) or when the marker never occurs. -/
def seekStop (marker : List Char) : List Char → Option (List Char × List Char)
  | [] => none
  | c :: rest =>
    if hasPrefixL marker (c :: rest) then
      some ([], List.drop (marker.length - 1) rest)
    else if c = nlChar then none
    else
      match seekStop marker rest with
      | some g => some (c :: g.1, g.2)
      | none => none

theorem seekStop_len (marker l : List Char) (g : List Char × List Char)
    (h : seekStop marker l = some g) : g.2.length ≤ l.length := by
  induction l generalizing g with
  | nil => simp [seekStop] at h
  | cons c rest ih =>
    by_cases hp : hasPrefixL marker (c :: rest)
    · simp only [seekStop, hp, if_pos] at h
      cases h
      simp [List.length_drop]
      omega
    · simp only [seekStop, hp, Bool.false_eq_true, if_neg, not_false_iff] at h
      by_cases hnl : c = nlChar
      · simp [hnl] at h
      · simp only [hnl, if_neg, not_false_iff] at h
        cases hrec : seekStop marker rest with
        | none => rw [hrec] at h; cases h
        | some g0 =>
          rw [hrec] at h
          cases h
          have := ih g0 hrec
          simp
          omega

theorem hasPrefixL_append (p r : List Char) : hasPrefixL p (p ++ r) = true := by
  induction p with
  | nil => rfl
  | cons c t ih => simp [hasPrefixL, ih]

/-- If the gap `a` contains neither the marker's first character nor a
newline, the scan stops exactly at the appended marker. -/
theorem seekStop_concat (h0 : Char) (mrest a r : List Char)
    (ha : ∀ c ∈ a, c ≠ h0 ∧ c ≠ nlChar) :
    seekStop (h0 :: mrest) (a ++ (h0 :: mrest) ++ r) = some (a, r) := by
  induction a with
  | nil =>
    have hpre : hasPrefixL (h0 :: mrest) (h0 :: (mrest ++ r)) = true := by
      simpa using hasPrefixL_append (h0 :: mrest) r
    have hgoal : seekStop (h0 :: mrest) (h0 :: (mrest ++ r)) = some ([], r) := by
      simp only [seekStop, hpre, if_pos, List.length_cons, Nat.add_sub_cancel,
        List.drop_left]
    simpa using hgoal
  | cons c a ih =>
    have hc := ha c (by simp)
    have hne : (h0 = c) = False := by
      simp only [eq_iff_iff, iff_false]
      exact fun h => hc.1 h.symm
    have hp : hasPrefixL (h0 :: mrest) (c :: (a ++ (h0 :: mrest) ++ r)) = false := by
      simp [hasPrefixL, hne]
    have hrec := ih (fun x hx => ha x (by simp [hx]))
    show seekStop (h0 :: mrest) (c :: (a ++ (h0 :: mrest) ++ r)) = some (c :: a, r)
    simp only [seekStop]
    rw [hp]
    simp only [Bool.false_eq_true, if_false]
    rw [if_neg hc.2, hrec]

/-- Scanner for `re.sub(r"\\\x7b\\\x7b.*?\\\x7d\\\x7d", "", s)` (used to
blank leftover placeholder tokens): at each position try to match
an opening double brace and the nearest newline-free closing double brace;
on a match emit nothing and continue after it, otherwise emit one
character and move on. -/
def subTokensF : Nat → List Char → List Char
  | 0, s => s
  | _ + 1, [] => []
  | fuel + 1, c :: t =>
    if hasPrefixL obrace2 (c :: t) then
      match seekStop cbrace2 (List.drop 1 t) with
      | some g => subTokensF fuel g.2
      | none => c :: subTokensF fuel t
    else c :: subTokensF fuel t

def pySubTokens (s : List Char) : List Char := subTokensF (s.length + 1) s

/-- `re.findall` for the per-key format pattern
`\x7b\x7bkey\\#(.*?)\x7d\x7d`: `pref` is the literal part up to and
including `\#`; captured groups are returned in order, scanning resumes
after each match, and a failed capture at a matching prefix advances one
character (as the regex engine does). -/
def findFmtsF (pref : List Char) : Nat → List Char → List (List Char)
  | 0, _ => []
  | _ + 1, [] => []
  | fuel + 1, c :: t =>
    if hasPrefixL pref (c :: t) then
      match seekStop cbrace2 (List.drop (pref.length - 1) t) with
      | some g => g.1 :: findFmtsF pref fuel g.2
      | none => findFmtsF pref fuel t
    else findFmtsF pref fuel t

def fmtPrefix (key : String) : List Char := obrace2 ++ key.data ++ [bslash, '#']

def findFmts (key : String) (s : List Char) : List (List Char) :=
  findFmtsF (fmtPrefix key) (s.length + 1) s

/-! ### The conditional-block regex (src/main.py line 1578)

`\\\x7b\\\x7b#if\s+([\w\.]+)\s+'=='\s+'([^']+)'\\\x7d\\\x7d(.*?)`
`\\\x7b\\\x7belse\\\x7d\\\x7d(.*?)\\\x7b\\\x7b/if\\\x7d\\\x7d` — note the
operator is the four characters apostrophe-equals-equals-apostrophe. -/

def isWordDot (c : Char) : Bool := c.isAlphanum || c = '_' || c = '.'

def ifOpenTok : List Char := obrace2 ++ ['#', 'i', 'f']

def eqTok : List Char := [apos, '=', '=', apos]

def litCloseTok : List Char := apos :: cbrace2

def elseTok : List Char := obrace2 ++ ['e', 'l', 's', 'e'] ++ cbrace2

def endifTok : List Char := obrace2 ++ ['/', 'i', 'f'] ++ cbrace2

structure IfMatch where
  key : List Char
  lit : List Char
  tTrue : List Char
  tFalse : List Char
deriving DecidableEq, Repr

def dropExpect (pat l : List Char) : Option (List Char) :=
  if hasPrefixL pat l then some (List.drop pat.length l) else none

def takeWs1 (l : List Char) : Option (List Char) :=
  if (l.takeWhile isPyWs).isEmpty then none else some (l.dropWhile isPyWs)

/-- Try to match the conditional pattern at the start of `l`; on success
return the four capture groups and the rest of the input after the match.
The greedy character classes never need backtracking because each is
delimited by a character outside the class. -/
def matchIfAt (l : List Char) : Option (IfMatch × List Char) :=
  Option.bind (dropExpect ifOpenTok l) (fun l1 =>
  Option.bind (takeWs1 l1) (fun l2 =>
  if (l2.takeWhile isWordDot).isEmpty then none else
  Option.bind (takeWs1 (l2.dropWhile isWordDot)) (fun l3 =>
  Option.bind (dropExpect eqTok l3) (fun l4 =>
  Option.bind (takeWs1 l4) (fun l5 =>
  Option.bind (dropExpect [apos] l5) (fun l6 =>
  if (l6.takeWhile (fun c => c ≠ apos)).isEmpty then none else
  Option.bind (dropExpect litCloseTok (l6.dropWhile (fun c => c ≠ apos))) (fun l7 =>
  Option.bind (seekStop elseTok l7) (fun g3 =>
  Option.bind (seekStop endifTok g3.2) (fun g4 =>
  some (IfMatch.mk (l2.takeWhile isWordDot) (l6.takeWhile (fun c => c ≠ apos)) g3.1 g4.1,
    g4.2))))))))))

theorem hasPrefixL_length (p l : List Char) (h : hasPrefixL p l = true) :
    p.length ≤ l.length := by
  induction p generalizing l with
  | nil => simp
  | cons x xs ih =>
    cases l with
    | nil => simp [hasPrefixL] at h
    | cons y ys =>
      simp only [hasPrefixL, Bool.and_eq_true, decide_eq_true_eq] at h
      have := ih ys h.2
      simp
      omega

theorem dropExpect_len (pat l r : List Char) (h : dropExpect pat l = some r) :
    r.length + pat.length = l.length := by
  by_cases hp : hasPrefixL pat l
  · simp only [dropExpect, hp, if_pos] at h
    cases h
    have := hasPrefixL_length pat l hp
    simp [List.length_drop]
    omega
  · simp [dropExpect, hp] at h

theorem dropWhile_len {α : Type} (p : α → Bool) (l : List α) :
    (l.dropWhile p).length ≤ l.length := by
  induction l with
  | nil => simp
  | cons x t ih =>
    by_cases hx : p x
    · simp only [List.dropWhile, hx]
      simp
      omega
    · simp only [List.dropWhile, hx]
      simp

theorem takeWs1_len (l r : List Char) (h : takeWs1 l = some r) :
    r.length ≤ l.length := by
  by_cases he : (l.takeWhile isPyWs).isEmpty
  · simp [takeWs1, he] at h
  · simp only [takeWs1, he, Bool.false_eq_true, if_neg, not_false_iff] at h
    cases h
    exact dropWhile_len isPyWs l

theorem matchIfAt_len (l : List Char) (g : IfMatch × List Char)
    (h : matchIfAt l = some g) : g.2.length < l.length := by
  simp only [matchIfAt] at h
  obtain ⟨l1, h1, h⟩ := Option.bind_eq_some.mp h
  obtain ⟨l2, h2, h⟩ := Option.bind_eq_some.mp h
  by_cases hk : (l2.takeWhile isWordDot).isEmpty = true
  · rw [if_pos hk] at h
    cases h
  · rw [if_neg hk] at h
    obtain ⟨l3, h3, h⟩ := Option.bind_eq_some.mp h
    obtain ⟨l4, h4, h⟩ := Option.bind_eq_some.mp h
    obtain ⟨l5, h5, h⟩ := Option.bind_eq_some.mp h
    obtain ⟨l6, h6, h⟩ := Option.bind_eq_some.mp h
    by_cases hl : (l6.takeWhile (fun c => c ≠ apos)).isEmpty = true
    · rw [if_pos hl] at h
      cases h
    · rw [if_neg hl] at h
      obtain ⟨l7, h7, h⟩ := Option.bind_eq_some.mp h
      obtain ⟨g3, h8, h⟩ := Option.bind_eq_some.mp h
      obtain ⟨g4, h9, h⟩ := Option.bind_eq_some.mp h
      cases h
      show g4.2.length < l.length
      have e1 := dropExpect_len _ _ _ h1
      have e2 := takeWs1_len _ _ h2
      have e3 := takeWs1_len _ _ h3
      have e4 := dropExpect_len _ _ _ h4
      have e5 := takeWs1_len _ _ h5
      have e6 := dropExpect_len _ _ _ h6
      have e7 := dropExpect_len _ _ _ h7
      have e8 := seekStop_len _ _ _ h8
      have e9 := seekStop_len _ _ _ h9
      have ed1 := dropWhile_len isWordDot l2
      have ed2 := dropWhile_len (fun c => c ≠ apos) l6
      have hifo : ifOpenTok.length = 5 := by rfl
      simp only [List.length_cons, List.length_nil] at e4 e6 e7
      omega

/-- All matches of the conditional pattern, left to right, resuming after
each match (`re.findall`). -/
def findIfMatchesF : Nat → List Char → List IfMatch
  | 0, _ => []
  | _ + 1, [] => []
  | fuel + 1, c :: t =>
    match matchIfAt (c :: t) with
    | some (g, rest) => g :: findIfMatchesF fuel rest
    | none => findIfMatchesF fuel t

def findIfMatches (s : List Char) : List IfMatch :=
  findIfMatchesF (s.length + 1) s

/-- Reconstruction of the matched block performed by the source
(`full_match_str`), with single spaces: `\x7b\x7b#if key '==' 'lit'\x7d\x7d`
`tTrue\x7b\x7belse\x7d\x7dtFalse\x7b\x7b/if\x7d\x7d`. -/
def buildIfBlock (g : IfMatch) : List Char :=
  ifOpenTok ++ [' '] ++ g.key ++ [' '] ++ eqTok ++ [' '] ++ [apos] ++ g.lit ++
    litCloseTok ++ g.tTrue ++ elseTok ++ g.tFalse ++ endifTok

/-- The conditional-resolution pass of `generate_pi_no_discount_file`
(src/main.py lines 1576-1587): find all matches, then for each one replace
the reconstructed block by the true or false text according to a
case-insensitive comparison of `str(full_data.get(key, ""))` with the
literal. -/
def resolveConditionals (fullData : List (String × PyVal)) (s : List Char) : List Char :=
  (findIfMatches s).foldl (fun v g =>
    let actual := pyStr (pyGet fullData (String.mk g.key) (PyVal.vStr ""))
    let chosen := if actual.data.map Char.toLower = g.lit.map Char.toLower
      then g.tTrue else g.tFalse
    listReplace v (buildIfBlock g) chosen) s

/-! ### The worksheet model

A `Sheet` is the slice of the openpyxl worksheet state the source
manipulates: a row-major cell grid (cell value plus an opaque style id —
`style_copy` of an immutable style is value copying, so ids suffice),
per-row heights (`row_dimensions[r].height`, `none` when unset) and the
list of merged ranges.  Rows and columns are 1-based as in openpyxl;
absent cells read as blank and are created on write.  `insert_rows` moves
the cells below the insertion point but, as in openpyxl, touches neither
row dimensions nor merged ranges — which is exactly why the source
re-merges and re-sets heights by hand.  `merge_cells` blanks every cell of
the range except the top-left one, as openpyxl does. -/

structure Cell where
  v : PyVal
  st : Option Nat
deriving DecidableEq, Repr

def blankCell : Cell := Cell.mk PyVal.vNone none

structure MRange where
  minRow : Nat
  maxRow : Nat
  minCol : Nat
  maxCol : Nat
deriving DecidableEq, Repr

structure Sheet where
  cells : List (List Cell)
  heights : List (Option ℚ)
  merges : List MRange
deriving DecidableEq, Repr

def getCell (s : Sheet) (r c : Nat) : Cell :=
  getAt (getAt s.cells (r - 1) []) (c - 1) blankCell

def modifyCell (s : Sheet) (r c : Nat) (f : Cell → Cell) : Sheet :=
  Sheet.mk
    (setAt s.cells (r - 1) []
      (setAt (getAt s.cells (r - 1) []) (c - 1) blankCell
        (f (getAt (getAt s.cells (r - 1) []) (c - 1) blankCell))))
    s.heights s.merges

/-- `cell.value = v` (style untouched). -/
def setCellV (s : Sheet) (r c : Nat) (v : PyVal) : Sheet :=
  modifyCell s r c (fun cl => Cell.mk v cl.st)

/-- `cell._style = style_copy st` (value untouched). -/
def setCellSt (s : Sheet) (r c : Nat) (st : Option Nat) : Sheet :=
  modifyCell s r c (fun cl => Cell.mk cl.v st)

def rowCount (s : Sheet) : Nat := s.cells.length

/-- `ws.max_column`: the widest row of the grid. -/
def maxColS (s : Sheet) : Nat :=
  s.cells.foldr (fun row acc => max row.length acc) 0

def getHeightS (s : Sheet) (r : Nat) : Option ℚ :=
  getAt s.heights (r - 1) none

def setHeightS (s : Sheet) (r : Nat) (h : Option ℚ) : Sheet :=
  Sheet.mk s.cells (setAt s.heights (r - 1) none h) s.merges

/-- `ws.insert_rows(idx, amount=k)`: rows from `idx` on shift down by `k`,
the `k` new rows are empty; heights and merges are not adjusted. -/
def insertRowsAt (s : Sheet) (idx k : Nat) : Sheet :=
  Sheet.mk
    (List.take (idx - 1) s.cells ++ List.replicate k [] ++ List.drop (idx - 1) s.cells)
    s.heights s.merges

/-- `ws.unmerge_cells` of an existing range (the range-string round trip
through `get_column_letter` preserves the coordinates, so ranges are
passed directly). -/
def unmergeCellsM (m : MRange) (s : Sheet) : Sheet :=
  Sheet.mk s.cells s.heights (s.merges.erase m)

def shiftRange (m : MRange) (k : Nat) : MRange :=
  MRange.mk (m.minRow + k) (m.maxRow + k) m.minCol m.maxCol

def rangeList (a b : Nat) : List Nat :=
  (List.range (b + 1 - a)).map (fun i => a + i)

/-- openpyxl `merge_cells` removes (blanks) every cell of the range except
the top-left one. -/
def blankRegion (m : MRange) (s : Sheet) : Sheet :=
  (rangeList m.minRow m.maxRow).foldl (fun s1 r =>
    (rangeList m.minCol m.maxCol).foldl (fun s2 c =>
      if r = m.minRow ∧ c = m.minCol then s2 else setCellV s2 r c PyVal.vNone) s1) s

/-- `ws.merge_cells`: blank the non-top-left cells and record the range. -/
def mergeCellsM (m : MRange) (s : Sheet) : Sheet :=
  let s1 := blankRegion m s
  Sheet.mk s1.cells s1.heights (s1.merges ++ [m])

theorem getCell_modifyCell_self (s : Sheet) (r c : Nat) (f : Cell → Cell)
    (hr : 1 ≤ r) (hc : 1 ≤ c) :
    getCell (modifyCell s r c f) r c = f (getCell s r c) := by
  simp only [getCell, modifyCell, getAt_setAt_self]

theorem getCell_modifyCell_other (s : Sheet) (r c r' c' : Nat) (f : Cell → Cell)
    (hr : 1 ≤ r) (hc : 1 ≤ c) (hr' : 1 ≤ r') (hc' : 1 ≤ c')
    (hne : r ≠ r' ∨ c ≠ c') :
    getCell (modifyCell s r c f) r' c' = getCell s r' c' := by
  rcases hne with hne | hne
  · simp only [getCell, modifyCell]
    rw [getAt_setAt_other _ _ _ _ _ (by omega)]
  · by_cases hrr : r = r'
    · subst hrr
      simp only [getCell, modifyCell, getAt_setAt_self]
      rw [getAt_setAt_other _ _ _ _ _ (by omega)]
    · simp only [getCell, modifyCell]
      rw [getAt_setAt_other _ _ _ _ _ (by omega)]

theorem heights_modifyCell (s : Sheet) (r c : Nat) (f : Cell → Cell) :
    (modifyCell s r c f).heights = s.heights := rfl

theorem merges_modifyCell (s : Sheet) (r c : Nat) (f : Cell → Cell) :
    (modifyCell s r c f).merges = s.merges := rfl

theorem rowCount_modifyCell (s : Sheet) (r c : Nat) (f : Cell → Cell)
    (hr : 1 ≤ r) (hle : r ≤ rowCount s) :
    rowCount (modifyCell s r c f) = rowCount s := by
  simp only [rowCount] at hle
  simp only [rowCount, modifyCell, length_setAt]
  omega

theorem getCell_setCellV_self (s : Sheet) (r c : Nat) (v : PyVal)
    (hr : 1 ≤ r) (hc : 1 ≤ c) :
    getCell (setCellV s r c v) r c = Cell.mk v (getCell s r c).st :=
  getCell_modifyCell_self s r c _ hr hc

theorem getCell_setCellV_other (s : Sheet) (r c r' c' : Nat) (v : PyVal)
    (hr : 1 ≤ r) (hc : 1 ≤ c) (hr' : 1 ≤ r') (hc' : 1 ≤ c')
    (hne : r ≠ r' ∨ c ≠ c') :
    getCell (setCellV s r c v) r' c' = getCell s r' c' :=
  getCell_modifyCell_other s r c r' c' _ hr hc hr' hc' hne

/-- Writing the value a cell already holds does not change any observation. -/
theorem getCell_setCellV_noop (s : Sheet) (r c r' c' : Nat) (v : PyVal)
    (hr : 1 ≤ r) (hc : 1 ≤ c) (hr' : 1 ≤ r') (hc' : 1 ≤ c')
    (hv : (getCell s r c).v = v) :
    getCell (setCellV s r c v) r' c' = getCell s r' c' := by
  by_cases h : r = r' ∧ c = c'
  · obtain ⟨rfl, rfl⟩ := h
    rw [getCell_setCellV_self s r c v hr hc, ← hv]
  · push_neg at h
    apply getCell_setCellV_other s r c r' c' v hr hc hr' hc'
    by_cases hrr : r = r'
    · exact Or.inr (h hrr)
    · exact Or.inl hrr

theorem getHeightS_setHeightS_self (s : Sheet) (r : Nat) (h : Option ℚ)
    (hr : 1 ≤ r) : getHeightS (setHeightS s r h) r = h := by
  simp only [getHeightS, setHeightS, getAt_setAt_self]

theorem getHeightS_setHeightS_other (s : Sheet) (r r' : Nat) (h : Option ℚ)
    (hr : 1 ≤ r) (hr' : 1 ≤ r') (hne : r ≠ r') :
    getHeightS (setHeightS s r h) r' = getHeightS s r' := by
  simp only [getHeightS, setHeightS]
  exact getAt_setAt_other _ _ _ _ _ (by omega)

theorem cells_setHeightS (s : Sheet) (r : Nat) (h : Option ℚ) :
    (setHeightS s r h).cells = s.cells := rfl

theorem merges_setHeightS (s : Sheet) (r : Nat) (h : Option ℚ) :
    (setHeightS s r h).merges = s.merges := rfl

theorem getCell_insertRowsAt_above (s : Sheet) (idx k r c : Nat)
    (hr : 1 ≤ r) (hlt : r < idx) (hb : idx - 1 ≤ rowCount s) :
    getCell (insertRowsAt s idx k) r c = getCell s r c := by
  have hlen : (List.take (idx - 1) s.cells).length = idx - 1 := by
    simp only [rowCount] at hb
    simp
    omega
  simp only [getCell, insertRowsAt]
  rw [List.append_assoc, getAt_append, hlen, if_pos (by omega),
    getAt_take _ _ _ _ (by omega)]

theorem getCell_insertRowsAt_new (s : Sheet) (idx k r c : Nat)
    (hr : idx ≤ r) (hlt : r < idx + k) (hb : idx - 1 ≤ rowCount s) (hi : 1 ≤ idx) :
    getCell (insertRowsAt s idx k) r c = blankCell := by
  have hlen : (List.take (idx - 1) s.cells).length = idx - 1 := by
    simp only [rowCount] at hb
    simp
    omega
  simp only [getCell, insertRowsAt]
  rw [List.append_assoc, getAt_append, hlen, if_neg (by omega), getAt_append,
    List.length_replicate, if_pos (by omega), getAt_replicate, if_pos (by omega)]
  rfl

theorem getCell_insertRowsAt_below (s : Sheet) (idx k r c : Nat)
    (hr : idx ≤ r) (hb : idx - 1 ≤ rowCount s) (hi : 1 ≤ idx) :
    getCell (insertRowsAt s idx k) (r + k) c = getCell s r c := by
  have hlen : (List.take (idx - 1) s.cells).length = idx - 1 := by
    simp only [rowCount] at hb
    simp
    omega
  simp only [getCell, insertRowsAt]
  rw [List.append_assoc, getAt_append, hlen, if_neg (by omega), getAt_append,
    List.length_replicate, if_neg (by omega), getAt_drop]
  have harith : idx - 1 + (r + k - 1 - (idx - 1) - k) = r - 1 := by omega
  rw [harith]

theorem rowCount_insertRowsAt (s : Sheet) (idx k : Nat)
    (hb : idx - 1 ≤ rowCount s) :
    rowCount (insertRowsAt s idx k) = rowCount s + k := by
  simp only [rowCount] at hb ⊢
  simp only [insertRowsAt, List.length_append, List.length_take,
    List.length_replicate, List.length_drop]
  omega

theorem heights_insertRowsAt (s : Sheet) (idx k : Nat) :
    (insertRowsAt s idx k).heights = s.heights := rfl

theorem merges_insertRowsAt (s : Sheet) (idx k : Nat) :
    (insertRowsAt s idx k).merges = s.merges := rfl

theorem mem_rangeList {x a b : Nat} (h : x ∈ rangeList a b) : a ≤ x ∧ x ≤ b := by
  simp only [rangeList, List.mem_map, List.mem_range] at h
  obtain ⟨i, hi, rfl⟩ := h
  omega

theorem rangeList_mem {x a b : Nat} (h1 : a ≤ x) (h2 : x ≤ b) : x ∈ rangeList a b := by
  simp only [rangeList, List.mem_map, List.mem_range]
  exact ⟨x - a, by omega, by omega⟩

theorem merges_blankCols (r minR minC : Nat) (cols : List Nat) (s : Sheet) :
    (cols.foldl (fun s2 c => if r = minR ∧ c = minC then s2 else setCellV s2 r c PyVal.vNone) s).merges
      = s.merges := by
  induction cols generalizing s with
  | nil => rfl
  | cons c cols ih =>
    simp only [List.foldl_cons]
    by_cases h : r = minR ∧ c = minC
    · rw [if_pos h]
      exact ih s
    · rw [if_neg h]
      rw [ih]
      rfl

theorem merges_blankRegion (m : MRange) (s : Sheet) :
    (blankRegion m s).merges = s.merges := by
  simp only [blankRegion]
  generalize rangeList m.minRow m.maxRow = rows
  induction rows generalizing s with
  | nil => rfl
  | cons r rows ih =>
    simp only [List.foldl_cons]
    rw [ih, merges_blankCols]

theorem heights_blankCols (r minR minC : Nat) (cols : List Nat) (s : Sheet) :
    (cols.foldl (fun s2 c => if r = minR ∧ c = minC then s2 else setCellV s2 r c PyVal.vNone) s).heights
      = s.heights := by
  induction cols generalizing s with
  | nil => rfl
  | cons c cols ih =>
    simp only [List.foldl_cons]
    by_cases h : r = minR ∧ c = minC
    · rw [if_pos h]
      exact ih s
    · rw [if_neg h]
      rw [ih]
      rfl

theorem heights_blankRegion (m : MRange) (s : Sheet) :
    (blankRegion m s).heights = s.heights := by
  simp only [blankRegion]
  generalize rangeList m.minRow m.maxRow = rows
  induction rows generalizing s with
  | nil => rfl
  | cons r rows ih =>
    simp only [List.foldl_cons]
    rw [ih, heights_blankCols]

theorem merges_mergeCellsM (m : MRange) (s : Sheet) :
    (mergeCellsM m s).merges = s.merges ++ [m] := by
  simp only [mergeCellsM, merges_blankRegion]

theorem heights_mergeCellsM (m : MRange) (s : Sheet) :
    (mergeCellsM m s).heights = s.heights := by
  simp only [mergeCellsM, heights_blankRegion]

/-- Blanking the cells of a range whose non-top-left cells are already
blank (`None`) changes no observation of the sheet. -/
theorem blankCols_obs (r minR minC : Nat) (cols : List Nat) (s0 s : Sheet)
    (hr : 1 ≤ r) (hrb : r ≤ rowCount s0)
    (hsame : ∀ r' c', 1 ≤ r' → 1 ≤ c' → getCell s r' c' = getCell s0 r' c')
    (hrc : rowCount s = rowCount s0)
    (hcols : ∀ c ∈ cols, 1 ≤ c ∧ (¬(r = minR ∧ c = minC) → (getCell s0 r c).v = PyVal.vNone)) :
    (∀ r' c', 1 ≤ r' → 1 ≤ c' →
      getCell (cols.foldl (fun s2 c => if r = minR ∧ c = minC then s2 else setCellV s2 r c PyVal.vNone) s) r' c'
        = getCell s0 r' c') ∧
    rowCount (cols.foldl (fun s2 c => if r = minR ∧ c = minC then s2 else setCellV s2 r c PyVal.vNone) s)
      = rowCount s0 := by
  induction cols generalizing s with
  | nil => exact ⟨hsame, hrc⟩
  | cons c cols ih =>
    simp only [List.foldl_cons]
    obtain ⟨hc1, hcblank⟩ := hcols c (by simp)
    by_cases h : r = minR ∧ c = minC
    · rw [if_pos h]
      exact ih s hsame hrc (fun x hx => hcols x (by simp [hx]))
    · rw [if_neg h]
      have hv : (getCell s r c).v = PyVal.vNone := by
        rw [hsame r c hr hc1]
        exact hcblank h
      apply ih
      · intro r' c' hr' hc'
        rw [getCell_setCellV_noop s r c r' c' PyVal.vNone hr hc1 hr' hc' hv]
        exact hsame r' c' hr' hc'
      · simp only [setCellV]
        rw [rowCount_modifyCell _ _ _ _ hr (by rw [hrc]; omega)]
        exact hrc
      · exact fun x hx => hcols x (by simp [hx])

theorem blankRows_obs (minR minC : Nat) (ccols : List Nat) (s0 : Sheet)
    (hccols : ∀ c ∈ ccols, 1 ≤ c) :
    ∀ (rows : List Nat) (s : Sheet),
      (∀ r ∈ rows, 1 ≤ r ∧ r ≤ rowCount s0 ∧
        ∀ c ∈ ccols, ¬(r = minR ∧ c = minC) → (getCell s0 r c).v = PyVal.vNone) →
      (∀ r' c', 1 ≤ r' → 1 ≤ c' → getCell s r' c' = getCell s0 r' c') →
      rowCount s = rowCount s0 →
      (∀ r' c', 1 ≤ r' → 1 ≤ c' →
        getCell (rows.foldl (fun s1 r =>
          ccols.foldl (fun s2 c => if r = minR ∧ c = minC then s2 else setCellV s2 r c PyVal.vNone) s1) s)
          r' c' = getCell s0 r' c') ∧
      rowCount (rows.foldl (fun s1 r =>
          ccols.foldl (fun s2 c => if r = minR ∧ c = minC then s2 else setCellV s2 r c PyVal.vNone) s1) s)
        = rowCount s0 := by
  intro rows
  induction rows with
  | nil => exact fun s _ hsame hrc => ⟨hsame, hrc⟩
  | cons r rows ih =>
    intro s hrows hsame hrc
    simp only [List.foldl_cons]
    obtain ⟨hra, hrb, hrblank⟩ := hrows r (by simp)
    have step := blankCols_obs r minR minC ccols s0 s hra hrb hsame hrc
      (fun c hc => ⟨hccols c hc, hrblank c hc⟩)
    exact ih _ (fun x hx => hrows x (by simp [hx])) step.1 step.2

theorem blankRegion_obs (m : MRange) (s0 s : Sheet)
    (hsame : ∀ r' c', 1 ≤ r' → 1 ≤ c' → getCell s r' c' = getCell s0 r' c')
    (hrc : rowCount s = rowCount s0)
    (hm1 : 1 ≤ m.minRow) (hm2 : 1 ≤ m.minCol) (hm3 : m.maxRow ≤ rowCount s0)
    (hblank : ∀ r c, m.minRow ≤ r → r ≤ m.maxRow → m.minCol ≤ c → c ≤ m.maxCol →
      ¬(r = m.minRow ∧ c = m.minCol) → (getCell s0 r c).v = PyVal.vNone) :
    (∀ r' c', 1 ≤ r' → 1 ≤ c' → getCell (blankRegion m s) r' c' = getCell s0 r' c') ∧
    rowCount (blankRegion m s) = rowCount s0 := by
  have := blankRows_obs m.minRow m.minCol (rangeList m.minCol m.maxCol) s0
    (fun c hc => by have := mem_rangeList hc; omega)
    (rangeList m.minRow m.maxRow) s
    (fun r hr => by
      have hrr := mem_rangeList hr
      refine ⟨by omega, by omega, fun c hc hne => ?_⟩
      have hcc := mem_rangeList hc
      exact hblank r c hrr.1 hrr.2 hcc.1 hcc.2 hne)
    hsame hrc
  exact this

/-- Folding `unmerge_cells` over a list of ranges erases them from the
merge list and touches nothing else. -/
theorem foldl_unmerge (toShift : List MRange) (s : Sheet) :
    (toShift.foldl (fun s1 m => unmergeCellsM m s1) s).cells = s.cells ∧
    (toShift.foldl (fun s1 m => unmergeCellsM m s1) s).heights = s.heights ∧
    (toShift.foldl (fun s1 m => unmergeCellsM m s1) s).merges
      = toShift.foldl (fun l m => l.erase m) s.merges := by
  induction toShift generalizing s with
  | nil => exact ⟨rfl, rfl, rfl⟩
  | cons m toShift ih =>
    simp only [List.foldl_cons]
    exact ih (unmergeCellsM m s)

theorem foldl_erase_cons {α : Type} [DecidableEq α] (L : List α) (a : α) (tl : List α)
    (h : ∀ x ∈ L, x ≠ a) :
    L.foldl (fun l m => l.erase m) (a :: tl) = a :: L.foldl (fun l m => l.erase m) tl := by
  induction L generalizing tl with
  | nil => rfl
  | cons x L ih =>
    simp only [List.foldl_cons]
    have hxa : x ≠ a := h x (by simp)
    rw [List.erase_cons_tail]
    · exact ih (tl.erase x) (fun y hy => h y (by simp [hy]))
    · simp only [beq_iff_eq]
      exact fun hh => hxa hh.symm

/-- Erasing exactly the ranges selected by `p` leaves exactly the ranges
rejected by `p`, in order. -/
theorem foldl_erase_filter {α : Type} [DecidableEq α] (p : α → Bool) (ms : List α) :
    (ms.filter p).foldl (fun l m => l.erase m) ms = ms.filter (fun m => !(p m)) := by
  induction ms with
  | nil => rfl
  | cons a tl ih =>
    by_cases hp : p a
    · simp only [List.filter_cons, hp, if_pos]
      simp only [List.foldl_cons, List.erase_cons_head]
      rw [ih]
      simp [hp]
    · simp only [List.filter_cons, hp]
      simp only [Bool.false_eq_true, if_neg, not_false_iff]
      rw [foldl_erase_cons _ _ _ (fun x hx => by
        intro hxa
        subst hxa
        exact hp (List.of_mem_filter hx))]
      rw [ih]
      simp [hp]

/-- Folding `merge_cells` over a list of already-blank, in-bounds ranges
appends them to the merge list and changes no other observation. -/
theorem foldl_merge_obs (shifts : List MRange) (s0 s : Sheet)
    (hsame : ∀ r' c', 1 ≤ r' → 1 ≤ c' → getCell s r' c' = getCell s0 r' c')
    (hh : s.heights = s0.heights)
    (hrc : rowCount s = rowCount s0)
    (hok : ∀ m ∈ shifts, 1 ≤ m.minRow ∧ 1 ≤ m.minCol ∧ m.maxRow ≤ rowCount s0 ∧
      (∀ r c, m.minRow ≤ r → r ≤ m.maxRow → m.minCol ≤ c → c ≤ m.maxCol →
        ¬(r = m.minRow ∧ c = m.minCol) → (getCell s0 r c).v = PyVal.vNone)) :
    (∀ r' c', 1 ≤ r' → 1 ≤ c' →
      getCell (shifts.foldl (fun s1 m => mergeCellsM m s1) s) r' c' = getCell s0 r' c') ∧
    (shifts.foldl (fun s1 m => mergeCellsM m s1) s).heights = s0.heights ∧
    rowCount (shifts.foldl (fun s1 m => mergeCellsM m s1) s) = rowCount s0 ∧
    (shifts.foldl (fun s1 m => mergeCellsM m s1) s).merges = s.merges ++ shifts := by
  induction shifts generalizing s with
  | nil => exact ⟨hsame, hh, hrc, by simp⟩
  | cons m shifts ih =>
    simp only [List.foldl_cons]
    obtain ⟨h1, h2, h3, h4⟩ := hok m (by simp)
    have hobs := blankRegion_obs m s0 s hsame hrc h1 h2 h3 h4
    have step := ih (mergeCellsM m s)
      (by
        intro r' c' hr' hc'
        show getCell (Sheet.mk (blankRegion m s).cells (blankRegion m s).heights _) r' c' = _
        simp only [getCell]
        exact hobs.1 r' c' hr' hc')
      (by rw [heights_mergeCellsM]; exact hh)
      (by
        show rowCount (Sheet.mk (blankRegion m s).cells _ _) = rowCount s0
        simp only [rowCount]
        exact hobs.2)
      (fun x hx => hok x (by simp [hx]))
    refine ⟨step.1, step.2.1, step.2.2.1, ?_⟩
    rw [step.2.2.2, merges_mergeCellsM]
    simp

/-! ### Placeholder resolution inside table rows

Embedding of the fill loop of `expand_table_by_tag`
(src/main.py lines 1443-1488). -/

/-- `str(value) if value is not None else ""`. -/
def pySubstVal (v : PyVal) : List Char :=
  if v = PyVal.vNone then [] else (pyStr v).data

def fmtMarker : List Char := ['#', ',', '#', '#', '0', '.', '#', '#']

/-- Replacement text for one `\x7b\x7bkey\\#fmt\x7d\x7d` occurrence
(src/main.py lines 1457-1471): a numeric value is rendered with
`"\x7b:,.2f\x7d".format` when the format contains `#,##0.##` and with
`str` otherwise; a non-numeric value renders as `str(value)`; `None`
renders as the empty string.  (The `except` arm is unreachable: the body
only formats values already checked to be `int`/`float`.) -/
def fmtReplacement (v : PyVal) (fmt : List Char) : List Char :=
  match v with
  | PyVal.vNone => []
  | PyVal.vInt n =>
    if hasSubL fmtMarker fmt then (formatComma2 (PyVal.vInt n)).data
    else (pyStr (PyVal.vInt n)).data
  | PyVal.vDec m e =>
    if hasSubL fmtMarker fmt then (formatComma2 (PyVal.vDec m e)).data
    else (pyStr (PyVal.vDec m e)).data
  | PyVal.vStr t => t.data

/-- Substitution of one record key into a cell text: the plain
`\x7b\x7bkey\x7d\x7d` replacement followed by all formatted
`\x7b\x7bkey\\#fmt\x7d\x7d` occurrences found by `re.findall`. -/
def substKeyVal (key : String) (v : PyVal) (s : List Char) : List Char :=
  let ph := obrace2 ++ key.data ++ cbrace2
  let s := if hasSubL ph s then listReplace s ph (pySubstVal v) else s
  (findFmts key s).foldl
    (fun acc fmt => listReplace acc (fmtPrefix key ++ fmt ++ cbrace2) (fmtReplacement v fmt)) s

/-- One table cell's text after tag stripping and record substitution
(src/main.py lines 1448-1471). -/
def resolveRecordCell (tagS tagE : List Char) (record : List (String × PyVal))
    (s : List Char) : List Char :=
  record.foldl (fun acc kv => substKeyVal kv.1 kv.2 acc)
    (listReplace (listReplace s tagS []) tagE [])

/-- The per-cell body of the fill loop: non-empty string cells are
resolved and then numerically coerced; everything else is skipped. -/
def fillCellStep (tagS tagE : List Char) (record : List (String × PyVal))
    (ws : Sheet) (r c : Nat) : Sheet :=
  match (getCell ws r c).v with
  | PyVal.vStr s0 =>
    if s0.isEmpty then ws
    else setCellV ws r c
      (coerceCellVal (PyVal.vStr (String.mk (resolveRecordCell tagS tagE record s0.data))))
  | _ => ws

/-- The fill loop itself: row `t + i` is populated from record `i`. -/
def fillDataRows (ws : Sheet) (t : Nat) (tagS tagE : List Char)
    (data : List (List (String × PyVal))) : Sheet :=
  let mc := maxColS ws
  data.enum.foldl (fun ws1 p =>
    (rangeList 1 mc).foldl (fun ws2 c => fillCellStep tagS tagE p.2 ws2 (t + p.1) c) ws1) ws

/-! ### Locating marker rows -/

/-- `cell.value and isinstance(cell.value, str) and tag in cell.value`. -/
def cellHasTagStr (cl : Cell) (tag : List Char) : Bool :=
  match cl.v with
  | PyVal.vStr s => (!s.isEmpty) && hasSubL tag s.data
  | _ => false

def findTagRowAux (tag : List Char) : Nat → List (List Cell) → Option Nat
  | _, [] => none
  | r, row :: rest =>
    if row.any (fun cl => cellHasTagStr cl tag) then some r
    else findTagRowAux tag (r + 1) rest

/-- The marker search at the top of `expand_table_by_tag`
(src/main.py lines 1366-1374): the row of the first cell whose string
value contains the start tag. -/
def findTagRow (ws : Sheet) (tag : List Char) : Option Nat :=
  findTagRowAux tag 1 ws.cells

/-! ### The three table expanders -/

/-- Per-column styles captured from the template row
(`style_copy(cell._style) if cell.has_style else None`). -/
def captureRowStyles (ws : Sheet) (t mc : Nat) : List (Option Nat) :=
  (rangeList 1 mc).map (fun c => (getCell ws t c).st)

/-- Merged ranges whose top row lies strictly below the template row. -/
def mergesToShift (ws : Sheet) (t : Nat) : List MRange :=
  ws.merges.filter (fun m => t < m.minRow)

def unmergeAll (ms : List MRange) (ws : Sheet) : Sheet :=
  ms.foldl (fun s m => unmergeCellsM m s) ws

def remergeShifted (ms : List MRange) (k : Nat) (ws : Sheet) : Sheet :=
  ms.foldl (fun s m => mergeCellsM (shiftRange m k) s) ws

/-- Copy the captured per-column style onto the cell when the template
column had one (`if st is not None: dst._style = style_copy(st)`). -/
def styleWriteCell (r c : Nat) (rowStyle : List (Option Nat)) (s : Sheet) : Sheet :=
  match getAt rowStyle (c - 1) none with
  | some stv => setCellSt s r c (some stv)
  | none => s

/-- One column of an inserted row in the items-table expanders:
`dst.value = None` then the style copy. -/
def blankCellStep (r : Nat) (rowStyle : List (Option Nat)) (s : Sheet) (c : Nat) : Sheet :=
  styleWriteCell r c rowStyle (setCellV s r c PyVal.vNone)

/-- One inserted row of `expand_items_table`/`expand_invoice_items_table`:
values blanked, template styles copied per column, then the template row
height (src/main.py lines 51-60 and 488-497). -/
def blankCopyRow (ws : Sheet) (r mc : Nat) (rowStyle : List (Option Nat))
    (rh : Option ℚ) : Sheet :=
  let ws1 := (rangeList 1 mc).foldl (blankCellStep r rowStyle) ws
  match rh with
  | some h => setHeightS ws1 r (some h)
  | none => ws1

def insertAndBlankRows (ws : Sheet) (t k mc : Nat) (rowStyle : List (Option Nat))
    (rh : Option ℚ) : Sheet :=
  if 0 < k then
    (rangeList 1 k).foldl (fun s off => blankCopyRow s (t + off) mc rowStyle rh)
      (insertRowsAt ws (t + 1) k)
  else ws

/-- One column of an inserted row in `expand_table_by_tag`:
`dst.value = src_val` (the template row's value, read from the live
sheet) then the style copy. -/
def copyCellStep (t r : Nat) (rowStyle : List (Option Nat)) (s : Sheet) (c : Nat) : Sheet :=
  styleWriteCell r c rowStyle (setCellV s r c (getCell s t c).v)

/-- One inserted row of `expand_table_by_tag`: height first, then per
column the template row's value (to preserve placeholders) and style
(src/main.py lines 1418-1433). -/
def copyTemplateRow (ws : Sheet) (t r mc : Nat) (rowStyle : List (Option Nat))
    (rh : Option ℚ) : Sheet :=
  let ws1 := match rh with
    | some h => setHeightS ws r (some h)
    | none => ws
  (rangeList 1 mc).foldl (copyCellStep t r rowStyle) ws1

def insertAndCopyRows (ws : Sheet) (t k mc : Nat) (rowStyle : List (Option Nat))
    (rh : Option ℚ) : Sheet :=
  if 0 < k then
    (rangeList 1 k).foldl (fun s off => copyTemplateRow s t (t + off) mc rowStyle rh)
      (insertRowsAt ws (t + 1) k)
  else ws

/-- The `Total` anchor search of `expand_items_table`
(src/main.py lines 70-74): first row below the template row whose first
column holds exactly `"Total"`. -/
def findTotalRow (ws : Sheet) (t : Nat) : Option Nat :=
  (rangeList (t + 1) (rowCount ws)).find?
    (fun r => (getCell ws r 1).v == PyVal.vStr "Total")

def sumFormula (colL : String) (a b : Nat) : String :=
  "=SUM(" ++ colL ++ toString a ++ ":" ++ colL ++ toString b ++ ")"

def countFormula (colL : String) (a b : Nat) : String :=
  "=COUNTA(" ++ colL ++ toString a ++ ":" ++ colL ++ toString b ++ ")"

/-- `expand_items_table(ws, template_row, n)` (src/main.py lines 28-83):
capture template styles and height, unmerge the ranges below, insert
`max(0, n-1)` blank styled rows, re-merge the ranges shifted by the
insertion count, then locate the `Total` row (a `ValueError` when absent)
and rewrite its three aggregate formulas over the new data-row bounds. -/
def expandItemsTable (ws : Sheet) (templateRow n : Nat) : Except String Sheet :=
  let mc := maxColS ws
  let rowStyle := captureRowStyles ws templateRow mc
  let rh := getHeightS ws templateRow
  let addRows := n - 1
  let toShift := mergesToShift ws templateRow
  let ws1 := unmergeAll toShift ws
  let ws2 := insertAndBlankRows ws1 templateRow addRows mc rowStyle rh
  let ws3 := remergeShifted toShift addRows ws2
  match findTotalRow ws3 templateRow with
  | none => Except.error "Total row not found"
  | some totalRow =>
    let firstData := templateRow
    let lastData := templateRow + n - 1
    let ws4 := setCellV ws3 totalRow 8 (PyVal.vStr (sumFormula "H" firstData lastData))
    let ws5 := setCellV ws4 totalRow 10 (PyVal.vStr (sumFormula "J" firstData lastData))
    Except.ok (setCellV ws5 totalRow 11 (PyVal.vStr (countFormula "K" firstData lastData)))

/-- `expand_invoice_items_table(ws, template_row, n)` (src/main.py lines
468-503): identical row expansion without the `Total` formula rewrite. -/
def expandInvoiceItemsTable (ws : Sheet) (templateRow n : Nat) : Sheet :=
  let mc := maxColS ws
  let rowStyle := captureRowStyles ws templateRow mc
  let rh := getHeightS ws templateRow
  let addRows := n - 1
  let toShift := mergesToShift ws templateRow
  let ws1 := unmergeAll toShift ws
  let ws2 := insertAndBlankRows ws1 templateRow addRows mc rowStyle rh
  remergeShifted toShift addRows ws2

/-- The empty-record-set branch of `expand_table_by_tag`
(src/main.py lines 1380-1390): strip both tags and any leftover
`\x7b\x7b...\x7d\x7d` tokens from the template row's string cells. -/
def stripTagsCellText (tagS tagE : List Char) (s : List Char) : List Char :=
  pySubTokens (listReplace (listReplace s tagS []) tagE [])

def stripTableRow (ws : Sheet) (t : Nat) (tagS tagE : List Char) : Sheet :=
  (rangeList 1 (maxColS ws)).foldl (fun ws1 c =>
    match (getCell ws1 t c).v with
    | PyVal.vStr s0 =>
      if s0.isEmpty then ws1
      else setCellV ws1 t c (PyVal.vStr (String.mk (stripTagsCellText tagS tagE s0.data)))
    | _ => ws1) ws

/-- `expand_table_by_tag(ws, start_tag, end_tag, data)` (src/main.py lines
1361-1490).  A missing start tag prints a warning and returns `None`
with the sheet untouched; an empty record set collapses the template row
in place; otherwise rows are inserted, styled, re-merged and filled. -/
def expandTableByTag (ws : Sheet) (tagS tagE : List Char)
    (data : List (List (String × PyVal))) : Option Nat × Sheet :=
  match findTagRow ws tagS with
  | none => (none, ws)
  | some t =>
    if data.isEmpty then (some t, stripTableRow ws t tagS tagE)
    else
      let n := data.length
      let addRows := n - 1
      let mc := maxColS ws
      let rowStyle := captureRowStyles ws t mc
      let rh := getHeightS ws t
      let toShift := mergesToShift ws t
      let ws1 := unmergeAll toShift ws
      let ws2 := insertAndCopyRows ws1 t addRows mc rowStyle rh
      let ws3 := remergeShifted toShift addRows ws2
      (some t, fillDataRows ws3 t tagS tagE data)

/-! ### Marker searches of the packing-list and invoice generators -/

def containerItemsTag : List Char := "\x7b\x7bTableStart:ContainerItems\x7d\x7d".data

/-- `cell.value and '...' in str(cell.value)` (note the `str()`: the
packing-list search stringifies non-string values). -/
def cellHasTagPacking (cl : Cell) (tag : List Char) : Bool :=
  pyTruthy cl.v && hasSubL tag (pyStr cl.v).data

def findPackingAux (tag : List Char) : Nat → List (List Cell) → Option Nat
  | _, [] => none
  | r, row :: rest =>
    if (row.take 13).any (fun cl => cellHasTagPacking cl tag) then some r
    else findPackingAux tag (r + 1) rest

/-- The `\x7b\x7bTableStart:ContainerItems\x7d\x7d` search of
`generate_packing_list` (src/main.py lines 312-323, columns 1-13), a
`ValueError` when the marker is absent. -/
def findPackingTableStart (ws : Sheet) : Except String Nat :=
  match findPackingAux containerItemsTag 1 ws.cells with
  | some r => Except.ok r
  | none => Except.error "No table start marker found in template"

/-- `isinstance(cell.value, str) and tag in cell.value` (the invoice
search does not stringify and does not test truthiness). -/
def cellHasTagStrict (cl : Cell) (tag : List Char) : Bool :=
  match cl.v with
  | PyVal.vStr s => hasSubL tag s.data
  | _ => false

def findInvoiceAux (tag : List Char) : Nat → List (List Cell) → Option Nat
  | _, [] => none
  | r, row :: rest =>
    if row.any (fun cl => cellHasTagStrict cl tag) then some r
    else findInvoiceAux tag (r + 1) rest

/-- The marker search of `generate_invoice` (src/main.py lines 690-700),
a `ValueError` when the marker is absent. -/
def findInvoiceTableStart (ws : Sheet) : Except String Nat :=
  match findInvoiceAux containerItemsTag 1 ws.cells with
  | some r => Except.ok r
  | none => Except.error "No ContainerItems table start marker found in template"

/-- Decidable statement that no cell of the sheet would match the
`expand_table_by_tag` search for `tag`. -/
def noCellHasTag (ws : Sheet) (tag : List Char) : Bool :=
  ws.cells.all (fun row => row.all (fun cl => !cellHasTagStr cl tag))

/-- Decidable statement that no cell (columns 1-13) would match the
packing-list marker search. -/
def noCellHasTagPacking (ws : Sheet) : Bool :=
  ws.cells.all (fun row => (row.take 13).all (fun cl => !cellHasTagPacking cl containerItemsTag))

def noCellHasTagStrict (ws : Sheet) (tag : List Char) : Bool :=
  ws.cells.all (fun row => row.all (fun cl => !cellHasTagStrict cl tag))

/-! ### The quote generator's sheet pipeline

`generate_quote_no_discount_file` (src/main.py lines 1933-2016) after the
Salesforce fetches: a simple whole-sheet replacement pass over the
flattened quote data, then `expand_table_by_tag` for the line items, then
save/upload (external).  No statement in this region raises, which the
`Except` codomain makes explicit. -/

def quoteStartTag : List Char := "\x7b\x7bTableStart:GetQuoteLine\x7d\x7d".data

def quoteEndTag : List Char := "\x7b\x7bTableEnd:GetQuoteLine\x7d\x7d".data

/-- The main-data fill of the quote generator (src/main.py lines
1979-1988): every non-empty string cell has each
`\x7b\x7bkey\x7d\x7d` placeholder replaced by `str(value)`
(empty for `None`). -/
def quoteMainFill (ws : Sheet) (fullData : List (String × PyVal)) : Sheet :=
  Sheet.mk
    (ws.cells.map (fun row => row.map (fun cl =>
      match cl.v with
      | PyVal.vStr s =>
        if s.isEmpty then cl
        else Cell.mk (PyVal.vStr (String.mk (fullData.foldl (fun acc kv =>
          let ph := obrace2 ++ kv.1.data ++ cbrace2
          if hasSubL ph acc then listReplace acc ph (pySubstVal kv.2) else acc) s.data)))
          cl.st
      | _ => cl)))
    ws.heights ws.merges

def quoteGenerateDoc (template : Sheet) (fullData : List (String × PyVal))
    (quoteItems : List (List (String × PyVal))) : Except String Sheet :=
  let ws := quoteMainFill template fullData
  Except.ok (expandTableByTag ws quoteStartTag quoteEndTag quoteItems).2

/-! ### The invoice header pass (src/main.py lines 624-663)

The replacement table maps each placeholder literal to
`record.get(field) or default`; the sheet pass replaces each placeholder
by `str(value)` in every string cell, and a second pass deletes `"None"`
substrings. -/

def strGetOr (d : List (String × PyVal)) (k : String) : PyVal :=
  pyGetOr d k (PyVal.vStr "")

def numGetOr (d : List (String × PyVal)) (k : String) : PyVal :=
  pyGetOr d k (PyVal.vInt 0)

def invoiceReplacements (shipment account : List (String × PyVal)) :
    List (String × PyVal) :=
  [ ("\x7b\x7bShipment__c.Consignee__r.Name\x7d\x7d", strGetOr account "Name"),
    ("\x7b\x7bShipment__c.Consignee__r.BillingStreet\x7d\x7d", strGetOr account "BillingStreet"),
    ("\x7b\x7bShipment__c.Consignee__r.BillingCity\x7d\x7d", strGetOr account "BillingCity"),
    ("\x7b\x7bShipment__c.Consignee__r.BillingPostalCode\x7d\x7d", strGetOr account "BillingPostalCode"),
    ("\x7b\x7bShipment__c.Consignee__r.BillingCountry\x7d\x7d", strGetOr account "BillingCountry"),
    ("\x7b\x7bShipment__c.Consignee__r.Phone\x7d\x7d", strGetOr account "Phone"),
    ("\x7b\x7bShipment__c.Consignee__r.Fax__c\x7d\x7d", strGetOr account "Fax__c"),
    ("\x7b\x7bShipment__c.Consignee__r.VAT__c\x7d\x7d", strGetOr account "VAT__c"),
    ("\x7b\x7bShipment__c.Invoice_Packing_list_no__c\x7d\x7d", strGetOr shipment "Invoice_Packing_list_no__c"),
    ("\x7b\x7bShipment__c.Issued_date__c\x7d\x7d", strGetOr shipment "Issued_date__c"),
    ("\x7b\x7bShipment__c.Port_of_Origin__c\x7d\x7d",
      PyVal.vStr ((pyStr (strGetOr shipment "Port_of_Origin__c")).toUpper)),
    ("\x7b\x7bShipment__c.Final_Destination__c\x7d\x7d", strGetOr shipment "Final_Destination__c"),
    ("\x7b\x7bShipment__c.Stockyard__c\x7d\x7d", strGetOr shipment "Stockyard__c"),
    ("\x7b\x7bShipment__c.Ocean_Vessel__c\x7d\x7d", strGetOr shipment "Ocean_Vessel__c"),
    ("\x7b\x7bShipment__c.B_L_No__c\x7d\x7d", strGetOr shipment "B_L_No__c"),
    ("\x7b\x7bShipment__c.Departure_Date_ETD__c\x7d\x7d", strGetOr shipment "Departure_Date_ETD__c"),
    ("\x7b\x7bShipment__c.Arrival_Schedule_ETA__c\x7d\x7d", strGetOr shipment "Arrival_Schedule_ETA__c"),
    ("\x7b\x7bShipment__c.Remark_number_on_documents__c\x7d\x7d",
      strGetOr shipment "Remark_number_on_documents__c"),
    ("\x7b\x7bShipment__c.Subtotal_USD__c\\# #,##0.##\x7d\x7d", numGetOr shipment "Subtotal_USD__c"),
    ("\x7b\x7bShipment__c.Fumigation__c\x7d\x7d", strGetOr shipment "Fumigation__c"),
    ("\x7b\x7bShipment__c.Total_Price_USD__c\\# #,##0.##\x7d\x7d", numGetOr shipment "Total_Price_USD__c"),
    ("\x7b\x7bShipment__c.In_words__c\x7d\x7d", strGetOr shipment "In_words__c"),
    ("\x7b\x7bShipment__c.Discount_Percentage__c\x7d\x7d", strGetOr shipment "Discount_Percentage__c"),
    ("\x7b\x7bShipment__c.Discount_Amount__c\\# #,##0.##\x7d\x7d", numGetOr shipment "Discount_Amount__c") ]

/-- The subtotal placeholder literal (its substitution carries the
`\# #,##0.##` format directive). -/
def subtotalPlaceholder : String := "\x7b\x7bShipment__c.Subtotal_USD__c\\# #,##0.##\x7d\x7d"

/-- The first invoice sheet pass on one cell text: fold
`cell.value.replace(placeholder, str(value))` over the replacement
table in order (src/main.py lines 653-657). -/
def applyReplacements (reps : List (String × PyVal)) (s : List Char) : List Char :=
  reps.foldl (fun acc pv => listReplace acc pv.1.data (pyStr pv.2).data) s

def noneTok : List Char := ['N', 'o', 'n', 'e']

/-- The `"None"` cleanup applied to one cell text (src/main.py lines
660-663 and 274-277): a single `str.replace("None", "")`. -/
def noneCleanup (s : List Char) : List Char :=
  if hasSubL noneTok s then listReplace s noneTok [] else s

def invoiceHeaderPassCell (reps : List (String × PyVal)) (v : PyVal) : PyVal :=
  match v with
  | PyVal.vStr s => PyVal.vStr (String.mk (applyReplacements reps s.data))
  | v => v

def invoiceCleanupCell (v : PyVal) : PyVal :=
  match v with
  | PyVal.vStr s => PyVal.vStr (String.mk (noneCleanup s.data))
  | v => v

/-- Both invoice header passes on one cell (substitution, then `"None"`
cleanup); the passes visit cells independently, so the per-cell
composition is the whole-sheet behaviour. -/
def invoiceResolveCell (reps : List (String × PyVal)) (v : PyVal) : PyVal :=
  invoiceCleanupCell (invoiceHeaderPassCell reps v)

/-! ### Endpoint error mapping (src/main.py, the FastAPI handlers)

Only the control flow that classifies exceptions is modelled: the
generator bodies are abstracted as an `Except` outcome whose not-found
guard is taken verbatim from the source. -/

inductive PyErr where
  | valueError : String → PyErr
  | httpExc : Nat → String → PyErr
  | otherExc : String → PyErr
deriving DecidableEq, Repr

/-- `str(e)` as used in the handlers' `detail` fields. -/
def pyErrStr : PyErr → String
  | PyErr.valueError m => m
  | PyErr.httpExc _ d => d
  | PyErr.otherExc m => m

inductive HttpOutcome where
  | success : HttpOutcome
  | httpError : Nat → String → HttpOutcome
  | unhandled : PyErr → HttpOutcome
deriving DecidableEq, Repr

/-- `generate_packing_list`'s not-found guard (src/main.py lines 198-201):
an empty shipment query result raises `ValueError`; otherwise generation
continues with outcome `rest`. -/
def packingListGuard (shipmentId : String) (records : List (List (String × PyVal)))
    (rest : Except PyErr Unit) : Except PyErr Unit :=
  if records.isEmpty then
    Except.error (PyErr.valueError ("No Shipment found with ID: " ++ shipmentId))
  else rest

/-- `generate_invoice`'s not-found guard (src/main.py lines 532-534). -/
def invoiceGuard (shipmentId : String) (records : List (List (String × PyVal)))
    (rest : Except PyErr Unit) : Except PyErr Unit :=
  if records.isEmpty then
    Except.error (PyErr.valueError ("No Shipment found with ID: " ++ shipmentId))
  else rest

/-- `generate_pi_no_discount_file`'s not-found guard (src/main.py lines
1519-1520). -/
def piGuard (contractId : String) (records : List (List (String × PyVal)))
    (rest : Except PyErr Unit) : Except PyErr Unit :=
  if records.isEmpty then
    Except.error (PyErr.valueError ("No contract found with ID: " ++ contractId))
  else rest

/-- `generate_production_order_file`'s not-found guard (src/main.py lines
1735-1736). -/
def poGuard (contractId : String) (records : List (List (String × PyVal)))
    (rest : Except PyErr Unit) : Except PyErr Unit :=
  if records.isEmpty then
    Except.error (PyErr.valueError ("Contract not found: " ++ contractId))
  else rest

/-- `generate_quote_no_discount_file`'s not-found guard (src/main.py lines
1948-1951): only reached when the line-item query is empty too. -/
def quoteGuard (records : List (List (String × PyVal)))
    (rest : Except PyErr Unit) : Except PyErr Unit :=
  if records.isEmpty then Except.error (PyErr.valueError "Quote not found")
  else rest

/-- The GET packing-list endpoint (src/main.py lines 408-436): inside the
`try`, a missing template raises `HTTPException(404)`; `except ValueError`
maps to HTTP 404 and `except Exception` (which also catches that
`HTTPException`) maps to HTTP 500. -/
def packingListGetEndpoint (templateExists : Bool) (body : Except PyErr Unit) : HttpOutcome :=
  let attempt : Except PyErr Unit :=
    if templateExists then body
    else Except.error (PyErr.httpExc 404 "Template file not found")
  match attempt with
  | Except.ok _ => HttpOutcome.success
  | Except.error (PyErr.valueError m) => HttpOutcome.httpError 404 m
  | Except.error e =>
    HttpOutcome.httpError 500 ("Error generating packing list: " ++ pyErrStr e)

/-- The POST packing-list endpoint (src/main.py lines 438-466), same
handler structure. -/
def packingListPostEndpoint (templateExists : Bool) (body : Except PyErr Unit) : HttpOutcome :=
  packingListGetEndpoint templateExists body

/-- The invoice endpoint (src/main.py lines 505-835) has no `try`/`except`
around the generation: any exception propagates unhandled out of the
handler (FastAPI's generic server-error path), and is never converted to
an `HTTPException 404`. -/
def invoiceEndpoint (body : Except PyErr Unit) : HttpOutcome :=
  match body with
  | Except.ok _ => HttpOutcome.success
  | Except.error e => HttpOutcome.unhandled e

/-- The combined-export endpoint (src/main.py lines 837-882) raises
`HTTPException(404)` directly for a missing shipment. -/
def combinedExportGuard (shipmentId : String) (records : List (List (String × PyVal)))
    (rest : Except PyErr Unit) : Except PyErr Unit :=
  if records.isEmpty then
    Except.error (PyErr.httpExc 404 ("No Shipment found with ID: " ++ shipmentId))
  else rest

def combinedExportEndpoint (body : Except PyErr Unit) : HttpOutcome :=
  match body with
  | Except.ok _ => HttpOutcome.success
  | Except.error (PyErr.httpExc s d) => HttpOutcome.httpError s d
  | Except.error e => HttpOutcome.unhandled e

/-- The PI endpoint (src/main.py lines 1705-1719): `except Exception as e:
raise HTTPException(status_code=500, detail=str(e))` — every exception,
including the `ValueError` for a missing contract and even the
`HTTPException(404)` for a missing template, becomes HTTP 500. -/
def piEndpoint (templateExists : Bool) (body : Except PyErr Unit) : HttpOutcome :=
  let attempt : Except PyErr Unit :=
    if templateExists then body
    else Except.error (PyErr.httpExc 404 "Template not found")
  match attempt with
  | Except.ok _ => HttpOutcome.success
  | Except.error e => HttpOutcome.httpError 500 (pyErrStr e)

/-- The production-order endpoint (src/main.py lines 1916-1929), same
handler structure as the PI endpoint. -/
def poEndpoint (templateExists : Bool) (body : Except PyErr Unit) : HttpOutcome :=
  piEndpoint templateExists body

/-- The quote endpoint (src/main.py lines 2018-2031), same handler
structure as the PI endpoint. -/
def quoteEndpoint (templateExists : Bool) (body : Except PyErr Unit) : HttpOutcome :=
  piEndpoint templateExists body

/-! ### Characterisation of the row-copy loops -/

/-- The style an inserted cell ends with: the captured template style when
present, otherwise whatever the cell already had. -/
def styRes (rowStyle : List (Option Nat)) (c : Nat) (old : Option Nat) : Option Nat :=
  match getAt rowStyle (c - 1) none with
  | some x => some x
  | none => old

theorem rangeList_nodup (a b : Nat) : (rangeList a b).Nodup := by
  refine List.Nodup.map ?_ (List.nodup_range _)
  intro x y hxy
  simp only at hxy
  omega

theorem getCell_styleWriteCell_other (r c r' c' : Nat) (sty : List (Option Nat)) (s : Sheet)
    (hr : 1 ≤ r) (hc : 1 ≤ c) (hr' : 1 ≤ r') (hc' : 1 ≤ c') (hne : r ≠ r' ∨ c ≠ c') :
    getCell (styleWriteCell r c sty s) r' c' = getCell s r' c' := by
  simp only [styleWriteCell]
  cases getAt sty (c - 1) none with
  | none => rfl
  | some stv => exact getCell_modifyCell_other s r c r' c' _ hr hc hr' hc' hne

theorem getCell_styleWriteCell_self (r c : Nat) (sty : List (Option Nat)) (s : Sheet)
    (hr : 1 ≤ r) (hc : 1 ≤ c) :
    getCell (styleWriteCell r c sty s) r c
      = Cell.mk (getCell s r c).v (styRes sty c (getCell s r c).st) := by
  simp only [styleWriteCell, styRes]
  cases getAt sty (c - 1) none with
  | none => rfl
  | some stv => exact getCell_modifyCell_self s r c _ hr hc

theorem heights_styleWriteCell (r c : Nat) (sty : List (Option Nat)) (s : Sheet) :
    (styleWriteCell r c sty s).heights = s.heights := by
  simp only [styleWriteCell]
  cases getAt sty (c - 1) none <;> rfl

theorem merges_styleWriteCell (r c : Nat) (sty : List (Option Nat)) (s : Sheet) :
    (styleWriteCell r c sty s).merges = s.merges := by
  simp only [styleWriteCell]
  cases getAt sty (c - 1) none <;> rfl

theorem rowCount_styleWriteCell (r c : Nat) (sty : List (Option Nat)) (s : Sheet)
    (hr : 1 ≤ r) (hle : r ≤ rowCount s) :
    rowCount (styleWriteCell r c sty s) = rowCount s := by
  simp only [styleWriteCell]
  cases getAt sty (c - 1) none with
  | none => rfl
  | some stv => exact rowCount_modifyCell s r c _ hr hle

theorem getCell_blankCellStep_other (r c r' c' : Nat) (sty : List (Option Nat)) (s : Sheet)
    (hr : 1 ≤ r) (hc : 1 ≤ c) (hr' : 1 ≤ r') (hc' : 1 ≤ c') (hne : r ≠ r' ∨ c ≠ c') :
    getCell (blankCellStep r sty s c) r' c' = getCell s r' c' := by
  simp only [blankCellStep]
  rw [getCell_styleWriteCell_other r c r' c' sty _ hr hc hr' hc' hne]
  exact getCell_setCellV_other s r c r' c' _ hr hc hr' hc' hne

theorem getCell_blankCellStep_self (r c : Nat) (sty : List (Option Nat)) (s : Sheet)
    (hr : 1 ≤ r) (hc : 1 ≤ c) :
    getCell (blankCellStep r sty s c) r c
      = Cell.mk PyVal.vNone (styRes sty c (getCell s r c).st) := by
  simp only [blankCellStep]
  rw [getCell_styleWriteCell_self r c sty _ hr hc,
    getCell_setCellV_self s r c _ hr hc]

theorem heights_blankCellStep (r c : Nat) (sty : List (Option Nat)) (s : Sheet) :
    (blankCellStep r sty s c).heights = s.heights := by
  simp only [blankCellStep]
  rw [heights_styleWriteCell]
  rfl

theorem merges_blankCellStep (r c : Nat) (sty : List (Option Nat)) (s : Sheet) :
    (blankCellStep r sty s c).merges = s.merges := by
  simp only [blankCellStep]
  rw [merges_styleWriteCell]
  rfl

theorem rowCount_blankCellStep (r c : Nat) (sty : List (Option Nat)) (s : Sheet)
    (hr : 1 ≤ r) (hle : r ≤ rowCount s) :
    rowCount (blankCellStep r sty s c) = rowCount s := by
  simp only [blankCellStep]
  rw [rowCount_styleWriteCell r c sty _ hr]
  · simp only [setCellV]
    exact rowCount_modifyCell s r c _ hr hle
  · simp only [setCellV]
    rw [rowCount_modifyCell s r c _ hr hle]
    exact hle

theorem getCell_copyCellStep_other (t r c r' c' : Nat) (sty : List (Option Nat)) (s : Sheet)
    (hr : 1 ≤ r) (hc : 1 ≤ c) (hr' : 1 ≤ r') (hc' : 1 ≤ c') (hne : r ≠ r' ∨ c ≠ c') :
    getCell (copyCellStep t r sty s c) r' c' = getCell s r' c' := by
  simp only [copyCellStep]
  rw [getCell_styleWriteCell_other r c r' c' sty _ hr hc hr' hc' hne]
  exact getCell_setCellV_other s r c r' c' _ hr hc hr' hc' hne

theorem getCell_copyCellStep_self (t r c : Nat) (sty : List (Option Nat)) (s : Sheet)
    (hr : 1 ≤ r) (hc : 1 ≤ c) :
    getCell (copyCellStep t r sty s c) r c
      = Cell.mk (getCell s t c).v (styRes sty c (getCell s r c).st) := by
  simp only [copyCellStep]
  rw [getCell_styleWriteCell_self r c sty _ hr hc,
    getCell_setCellV_self s r c _ hr hc]

theorem heights_copyCellStep (t r c : Nat) (sty : List (Option Nat)) (s : Sheet) :
    (copyCellStep t r sty s c).heights = s.heights := by
  simp only [copyCellStep]
  rw [heights_styleWriteCell]
  rfl

theorem merges_copyCellStep (t r c : Nat) (sty : List (Option Nat)) (s : Sheet) :
    (copyCellStep t r sty s c).merges = s.merges := by
  simp only [copyCellStep]
  rw [merges_styleWriteCell]
  rfl

theorem rowCount_copyCellStep (t r c : Nat) (sty : List (Option Nat)) (s : Sheet)
    (hr : 1 ≤ r) (hle : r ≤ rowCount s) :
    rowCount (copyCellStep t r sty s c) = rowCount s := by
  simp only [copyCellStep]
  rw [rowCount_styleWriteCell r c sty _ hr]
  · simp only [setCellV]
    exact rowCount_modifyCell s r c _ hr hle
  · simp only [setCellV]
    rw [rowCount_modifyCell s r c _ hr hle]
    exact hle

theorem foldCols_blank (r : Nat) (sty : List (Option Nat)) :
    ∀ (cols : List Nat) (s : Sheet), (∀ c ∈ cols, 1 ≤ c) → cols.Nodup → 1 ≤ r →
    (∀ r' c', 1 ≤ r' → 1 ≤ c' → (r' ≠ r ∨ c' ∉ cols) →
      getCell (cols.foldl (blankCellStep r sty) s) r' c' = getCell s r' c') ∧
    (∀ c ∈ cols, getCell (cols.foldl (blankCellStep r sty) s) r c
      = Cell.mk PyVal.vNone (styRes sty c (getCell s r c).st)) ∧
    (cols.foldl (blankCellStep r sty) s).heights = s.heights ∧
    (cols.foldl (blankCellStep r sty) s).merges = s.merges ∧
    (r ≤ rowCount s → rowCount (cols.foldl (blankCellStep r sty) s) = rowCount s) := by
  intro cols
  induction cols with
  | nil =>
    intro s _ _ hr
    exact ⟨fun _ _ _ _ _ => rfl, fun c hc => absurd hc (List.not_mem_nil c), rfl, rfl,
      fun _ => rfl⟩
  | cons c cols ih =>
    intro s hcols hnd hr
    have hc1 : 1 ≤ c := hcols c (by simp)
    have hnd' : cols.Nodup := (List.nodup_cons.mp hnd).2
    have hcmem : c ∉ cols := (List.nodup_cons.mp hnd).1
    simp only [List.foldl_cons]
    obtain ⟨ihU, ihT, ihH, ihM, ihR⟩ :=
      ih (blankCellStep r sty s c) (fun x hx => hcols x (by simp [hx])) hnd' hr
    refine ⟨?_, ?_, ?_, ?_, ?_⟩
    · intro r' c' hr' hc' hcase
      rcases hcase with h | h
      · rw [ihU r' c' hr' hc' (Or.inl h)]
        exact getCell_blankCellStep_other r c r' c' sty s hr hc1 hr' hc'
          (Or.inl (fun hh => h hh.symm))
      · have h1 : c' ∉ cols := fun hm => h (by simp [hm])
        have h2 : c' ≠ c := fun hm => h (by simp [hm])
        rw [ihU r' c' hr' hc' (Or.inr h1)]
        exact getCell_blankCellStep_other r c r' c' sty s hr hc1 hr' hc'
          (Or.inr (fun hh => h2 hh.symm))
    · intro c0 hc0
      rcases List.mem_cons.mp hc0 with rfl | hc0mem
      · rw [ihU r c0 hr hc1 (Or.inr hcmem)]
        exact getCell_blankCellStep_self r c0 sty s hr hc1
      · have hc01 : 1 ≤ c0 := hcols c0 (by simp [hc0mem])
        have hcc0 : c ≠ c0 := fun hh => hcmem (hh ▸ hc0mem)
        rw [ihT c0 hc0mem,
          getCell_blankCellStep_other r c r c0 sty s hr hc1 hr hc01 (Or.inr hcc0)]
    · rw [ihH, heights_blankCellStep]
    · rw [ihM, merges_blankCellStep]
    · intro hle
      rw [ihR (by rw [rowCount_blankCellStep r c sty s hr hle]; exact hle)]
      exact rowCount_blankCellStep r c sty s hr hle

theorem foldCols_copy (t r : Nat) (sty : List (Option Nat)) (ht : 1 ≤ t) (htr : t ≠ r) :
    ∀ (cols : List Nat) (s : Sheet), (∀ c ∈ cols, 1 ≤ c) → cols.Nodup → 1 ≤ r →
    (∀ r' c', 1 ≤ r' → 1 ≤ c' → (r' ≠ r ∨ c' ∉ cols) →
      getCell (cols.foldl (copyCellStep t r sty) s) r' c' = getCell s r' c') ∧
    (∀ c ∈ cols, getCell (cols.foldl (copyCellStep t r sty) s) r c
      = Cell.mk (getCell s t c).v (styRes sty c (getCell s r c).st)) ∧
    (cols.foldl (copyCellStep t r sty) s).heights = s.heights ∧
    (cols.foldl (copyCellStep t r sty) s).merges = s.merges ∧
    (r ≤ rowCount s → rowCount (cols.foldl (copyCellStep t r sty) s) = rowCount s) := by
  intro cols
  induction cols with
  | nil =>
    intro s _ _ hr
    exact ⟨fun _ _ _ _ _ => rfl, fun c hc => absurd hc (List.not_mem_nil c), rfl, rfl,
      fun _ => rfl⟩
  | cons c cols ih =>
    intro s hcols hnd hr
    have hc1 : 1 ≤ c := hcols c (by simp)
    have hnd' : cols.Nodup := (List.nodup_cons.mp hnd).2
    have hcmem : c ∉ cols := (List.nodup_cons.mp hnd).1
    simp only [List.foldl_cons]
    obtain ⟨ihU, ihT, ihH, ihM, ihR⟩ :=
      ih (copyCellStep t r sty s c) (fun x hx => hcols x (by simp [hx])) hnd' hr
    refine ⟨?_, ?_, ?_, ?_, ?_⟩
    · intro r' c' hr' hc' hcase
      rcases hcase with h | h
      · rw [ihU r' c' hr' hc' (Or.inl h)]
        exact getCell_copyCellStep_other t r c r' c' sty s hr hc1 hr' hc'
          (Or.inl (fun hh => h hh.symm))
      · have h1 : c' ∉ cols := fun hm => h (by simp [hm])
        have h2 : c' ≠ c := fun hm => h (by simp [hm])
        rw [ihU r' c' hr' hc' (Or.inr h1)]
        exact getCell_copyCellStep_other t r c r' c' sty s hr hc1 hr' hc'
          (Or.inr (fun hh => h2 hh.symm))
    · intro c0 hc0
      rcases List.mem_cons.mp hc0 with rfl | hc0mem
      · rw [ihU r c0 hr hc1 (Or.inr hcmem)]
        exact getCell_copyCellStep_self t r c0 sty s hr hc1
      · have hc01 : 1 ≤ c0 := hcols c0 (by simp [hc0mem])
        have hcc0 : c ≠ c0 := fun hh => hcmem (hh ▸ hc0mem)
        rw [ihT c0 hc0mem,
          getCell_copyCellStep_other t r c r c0 sty s hr hc1 hr hc01 (Or.inr hcc0),
          getCell_copyCellStep_other t r c t c0 sty s hr hc1 ht hc01
            (Or.inl (fun hh => htr hh.symm))]
    · rw [ihH, heights_copyCellStep]
    · rw [ihM, merges_copyCellStep]
    · intro hle
      rw [ihR (by rw [rowCount_copyCellStep t r c sty s hr hle]; exact hle)]
      exact rowCount_copyCellStep t r c sty s hr hle

theorem blankCopyRow_props (ws : Sheet) (r mc : Nat) (sty : List (Option Nat))
    (rh : Option ℚ) (hr : 1 ≤ r) :
    (∀ r' c', 1 ≤ r' → 1 ≤ c' → r' ≠ r →
      getCell (blankCopyRow ws r mc sty rh) r' c' = getCell ws r' c') ∧
    (∀ c, 1 ≤ c → c ≤ mc → getCell (blankCopyRow ws r mc sty rh) r c
      = Cell.mk PyVal.vNone (styRes sty c (getCell ws r c).st)) ∧
    (∀ r', 1 ≤ r' → r' ≠ r →
      getHeightS (blankCopyRow ws r mc sty rh) r' = getHeightS ws r') ∧
    (getHeightS (blankCopyRow ws r mc sty rh) r
      = match rh with
        | some h => some h
        | none => getHeightS ws r) ∧
    (blankCopyRow ws r mc sty rh).merges = ws.merges ∧
    (r ≤ rowCount ws → rowCount (blankCopyRow ws r mc sty rh) = rowCount ws) := by
  obtain ⟨fU, fT, fH, fM, fR⟩ := foldCols_blank r sty (rangeList 1 mc) ws
    (fun c hc => (mem_rangeList hc).1) (rangeList_nodup 1 mc) hr
  simp only [blankCopyRow]
  cases rh with
  | none =>
    exact ⟨fun r' c' hr' hc' hne => fU r' c' hr' hc' (Or.inl hne),
      fun c hc1 hc2 => fT c (rangeList_mem hc1 hc2),
      fun r' _ _ => by simp only [getHeightS, fH],
      by simp only [getHeightS, fH], fM, fR⟩
  | some h =>
    refine ⟨?_, ?_, ?_, ?_, ?_, ?_⟩
    · intro r' c' hr' hc' hne
      show getCell (setHeightS _ r (some h)) r' c' = _
      simp only [getCell, cells_setHeightS]
      exact fU r' c' hr' hc' (Or.inl hne)
    · intro c hc1 hc2
      show getCell (setHeightS _ r (some h)) r c = _
      simp only [getCell, cells_setHeightS]
      exact fT c (rangeList_mem hc1 hc2)
    · intro r' hr' hne
      rw [getHeightS_setHeightS_other _ r r' _ hr hr' (fun hh => hne hh.symm)]
      simp only [getHeightS, fH]
    · exact getHeightS_setHeightS_self _ r _ hr
    · rw [merges_setHeightS, fM]
    · intro hle
      show rowCount (setHeightS _ r (some h)) = rowCount ws
      simp only [rowCount, cells_setHeightS]
      exact fR hle

theorem copyTemplateRow_props (ws : Sheet) (t r mc : Nat) (sty : List (Option Nat))
    (rh : Option ℚ) (hr : 1 ≤ r) (ht : 1 ≤ t) (htr : t ≠ r) :
    (∀ r' c', 1 ≤ r' → 1 ≤ c' → r' ≠ r →
      getCell (copyTemplateRow ws t r mc sty rh) r' c' = getCell ws r' c') ∧
    (∀ c, 1 ≤ c → c ≤ mc → getCell (copyTemplateRow ws t r mc sty rh) r c
      = Cell.mk (getCell ws t c).v (styRes sty c (getCell ws r c).st)) ∧
    (∀ r', 1 ≤ r' → r' ≠ r →
      getHeightS (copyTemplateRow ws t r mc sty rh) r' = getHeightS ws r') ∧
    (getHeightS (copyTemplateRow ws t r mc sty rh) r
      = match rh with
        | some h => some h
        | none => getHeightS ws r) ∧
    (copyTemplateRow ws t r mc sty rh).merges = ws.merges ∧
    (r ≤ rowCount ws → rowCount (copyTemplateRow ws t r mc sty rh) = rowCount ws) := by
  simp only [copyTemplateRow]
  cases rh with
  | none =>
    obtain ⟨fU, fT, fH, fM, fR⟩ := foldCols_copy t r sty ht htr (rangeList 1 mc) ws
      (fun c hc => (mem_rangeList hc).1) (rangeList_nodup 1 mc) hr
    exact ⟨fun r' c' hr' hc' hne => fU r' c' hr' hc' (Or.inl hne),
      fun c hc1 hc2 => fT c (rangeList_mem hc1 hc2),
      fun r' _ _ => by simp only [getHeightS, fH],
      by simp only [getHeightS, fH], fM, fR⟩
  | some h =>
    obtain ⟨fU, fT, fH, fM, fR⟩ := foldCols_copy t r sty ht htr (rangeList 1 mc)
      (setHeightS ws r (some h))
      (fun c hc => (mem_rangeList hc).1) (rangeList_nodup 1 mc) hr
    refine ⟨?_, ?_, ?_, ?_, ?_, ?_⟩
    · intro r' c' hr' hc' hne
      rw [fU r' c' hr' hc' (Or.inl hne)]
      simp only [getCell, cells_setHeightS]
    · intro c hc1 hc2
      rw [fT c (rangeList_mem hc1 hc2)]
      simp only [getCell, cells_setHeightS]
    · intro r' hr' hne
      have : getHeightS ((rangeList 1 mc).foldl (copyCellStep t r sty) (setHeightS ws r (some h))) r'
          = getHeightS (setHeightS ws r (some h)) r' := by
        simp only [getHeightS, fH]
      rw [this, getHeightS_setHeightS_other _ r r' _ hr hr' (fun hh => hne hh.symm)]
    · have : getHeightS ((rangeList 1 mc).foldl (copyCellStep t r sty) (setHeightS ws r (some h))) r
          = getHeightS (setHeightS ws r (some h)) r := by
        simp only [getHeightS, fH]
      rw [this, getHeightS_setHeightS_self _ r _ hr]
    · rw [fM, merges_setHeightS]
    · intro hle
      rw [fR (by simp only [rowCount, cells_setHeightS]; exact hle)]
      simp only [rowCount, cells_setHeightS]

theorem foldOffs_blank (t mc : Nat) (sty : List (Option Nat)) (rh : Option ℚ) :
    ∀ (offs : List Nat) (s : Sheet), (∀ o ∈ offs, 1 ≤ o) → offs.Nodup →
    (∀ r' c', 1 ≤ r' → 1 ≤ c' → (∀ o ∈ offs, r' ≠ t + o) →
      getCell (offs.foldl (fun s1 off => blankCopyRow s1 (t + off) mc sty rh) s) r' c'
        = getCell s r' c') ∧
    (∀ o ∈ offs, ∀ c, 1 ≤ c → c ≤ mc →
      getCell (offs.foldl (fun s1 off => blankCopyRow s1 (t + off) mc sty rh) s) (t + o) c
        = Cell.mk PyVal.vNone (styRes sty c (getCell s (t + o) c).st)) ∧
    (∀ r', 1 ≤ r' → (∀ o ∈ offs, r' ≠ t + o) →
      getHeightS (offs.foldl (fun s1 off => blankCopyRow s1 (t + off) mc sty rh) s) r'
        = getHeightS s r') ∧
    (∀ o ∈ offs,
      getHeightS (offs.foldl (fun s1 off => blankCopyRow s1 (t + off) mc sty rh) s) (t + o)
        = match rh with
          | some h => some h
          | none => getHeightS s (t + o)) ∧
    (offs.foldl (fun s1 off => blankCopyRow s1 (t + off) mc sty rh) s).merges = s.merges ∧
    ((∀ o ∈ offs, t + o ≤ rowCount s) →
      rowCount (offs.foldl (fun s1 off => blankCopyRow s1 (t + off) mc sty rh) s)
        = rowCount s) := by
  intro offs
  induction offs with
  | nil =>
    intro s _ _
    exact ⟨fun _ _ _ _ _ => rfl, fun o ho => absurd ho (List.not_mem_nil o),
      fun _ _ _ => rfl, fun o ho => absurd ho (List.not_mem_nil o), rfl, fun _ => rfl⟩
  | cons o offs ih =>
    intro s hoffs hnd
    have ho1 : 1 ≤ o := hoffs o (by simp)
    have hnd' : offs.Nodup := (List.nodup_cons.mp hnd).2
    have homem : o ∉ offs := (List.nodup_cons.mp hnd).1
    have hro : 1 ≤ t + o := by omega
    obtain ⟨rU, rT, rH, rHs, rM, rR⟩ := blankCopyRow_props s (t + o) mc sty rh hro
    simp only [List.foldl_cons]
    obtain ⟨ihU, ihT, ihH, ihHs, ihM, ihR⟩ :=
      ih (blankCopyRow s (t + o) mc sty rh) (fun x hx => hoffs x (by simp [hx])) hnd'
    refine ⟨?_, ?_, ?_, ?_, ?_, ?_⟩
    · intro r' c' hr' hc' hall
      rw [ihU r' c' hr' hc' (fun x hx => hall x (by simp [hx]))]
      exact rU r' c' hr' hc' (hall o (by simp))
    · intro o0 ho0 c hc1 hc2
      rcases List.mem_cons.mp ho0 with rfl | ho0mem
      · have hnotrow : ∀ x ∈ offs, t + o0 ≠ t + x := by
          intro x hx hh
          have hxo : x = o0 := by omega
          rw [hxo] at hx
          exact homem hx
        rw [ihU (t + o0) c hro hc1 hnotrow]
        exact rT c hc1 hc2
      · have ho01 : 1 ≤ o0 := hoffs o0 (by simp [ho0mem])
        have hne : t + o0 ≠ t + o := by
          have : o0 ≠ o := fun hh => homem (hh ▸ ho0mem)
          omega
        rw [ihT o0 ho0mem c hc1 hc2]
        have := rU (t + o0) c (by omega) hc1 hne
        rw [this]
    · intro r' hr' hall
      rw [ihH r' hr' (fun x hx => hall x (by simp [hx]))]
      exact rH r' hr' (hall o (by simp))
    · intro o0 ho0
      rcases List.mem_cons.mp ho0 with rfl | ho0mem
      · have hnotrow : ∀ x ∈ offs, t + o0 ≠ t + x := by
          intro x hx hh
          have hxo : x = o0 := by omega
          rw [hxo] at hx
          exact homem hx
        rw [ihH (t + o0) hro hnotrow]
        exact rHs
      · have ho01 : 1 ≤ o0 := hoffs o0 (by simp [ho0mem])
        have hne : t + o0 ≠ t + o := by
          have : o0 ≠ o := fun hh => homem (hh ▸ ho0mem)
          omega
        rw [ihHs o0 ho0mem]
        cases rh with
        | some h => rfl
        | none => exact rH (t + o0) (by omega) hne
    · rw [ihM, rM]
    · intro hall
      have hle : t + o ≤ rowCount s := hall o (by simp)
      rw [ihR (fun x hx => by rw [rR hle]; exact hall x (by simp [hx]))]
      exact rR hle

theorem foldOffs_copy (t mc : Nat) (sty : List (Option Nat)) (rh : Option ℚ) (ht : 1 ≤ t) :
    ∀ (offs : List Nat) (s : Sheet), (∀ o ∈ offs, 1 ≤ o) → offs.Nodup →
    (∀ r' c', 1 ≤ r' → 1 ≤ c' → (∀ o ∈ offs, r' ≠ t + o) →
      getCell (offs.foldl (fun s1 off => copyTemplateRow s1 t (t + off) mc sty rh) s) r' c'
        = getCell s r' c') ∧
    (∀ o ∈ offs, ∀ c, 1 ≤ c → c ≤ mc →
      getCell (offs.foldl (fun s1 off => copyTemplateRow s1 t (t + off) mc sty rh) s) (t + o) c
        = Cell.mk (getCell s t c).v (styRes sty c (getCell s (t + o) c).st)) ∧
    (∀ r', 1 ≤ r' → (∀ o ∈ offs, r' ≠ t + o) →
      getHeightS (offs.foldl (fun s1 off => copyTemplateRow s1 t (t + off) mc sty rh) s) r'
        = getHeightS s r') ∧
    (∀ o ∈ offs,
      getHeightS (offs.foldl (fun s1 off => copyTemplateRow s1 t (t + off) mc sty rh) s) (t + o)
        = match rh with
          | some h => some h
          | none => getHeightS s (t + o)) ∧
    (offs.foldl (fun s1 off => copyTemplateRow s1 t (t + off) mc sty rh) s).merges = s.merges ∧
    ((∀ o ∈ offs, t + o ≤ rowCount s) →
      rowCount (offs.foldl (fun s1 off => copyTemplateRow s1 t (t + off) mc sty rh) s)
        = rowCount s) := by
  intro offs
  induction offs with
  | nil =>
    intro s _ _
    exact ⟨fun _ _ _ _ _ => rfl, fun o ho => absurd ho (List.not_mem_nil o),
      fun _ _ _ => rfl, fun o ho => absurd ho (List.not_mem_nil o), rfl, fun _ => rfl⟩
  | cons o offs ih =>
    intro s hoffs hnd
    have ho1 : 1 ≤ o := hoffs o (by simp)
    have hnd' : offs.Nodup := (List.nodup_cons.mp hnd).2
    have homem : o ∉ offs := (List.nodup_cons.mp hnd).1
    have hro : 1 ≤ t + o := by omega
    have htro : t ≠ t + o := by omega
    obtain ⟨rU, rT, rH, rHs, rM, rR⟩ := copyTemplateRow_props s t (t + o) mc sty rh hro ht htro
    simp only [List.foldl_cons]
    obtain ⟨ihU, ihT, ihH, ihHs, ihM, ihR⟩ :=
      ih (copyTemplateRow s t (t + o) mc sty rh) (fun x hx => hoffs x (by simp [hx])) hnd'
    refine ⟨?_, ?_, ?_, ?_, ?_, ?_⟩
    · intro r' c' hr' hc' hall
      rw [ihU r' c' hr' hc' (fun x hx => hall x (by simp [hx]))]
      exact rU r' c' hr' hc' (hall o (by simp))
    · intro o0 ho0 c hc1 hc2
      rcases List.mem_cons.mp ho0 with rfl | ho0mem
      · have hnotrow : ∀ x ∈ offs, t + o0 ≠ t + x := by
          intro x hx hh
          have hxo : x = o0 := by omega
          rw [hxo] at hx
          exact homem hx
        rw [ihU (t + o0) c hro hc1 hnotrow]
        exact rT c hc1 hc2
      · have ho01 : 1 ≤ o0 := hoffs o0 (by simp [ho0mem])
        have hne : t + o0 ≠ t + o := by
          have : o0 ≠ o := fun hh => homem (hh ▸ ho0mem)
          omega
        rw [ihT o0 ho0mem c hc1 hc2]
        rw [rU (t + o0) c (by omega) hc1 hne]
        rw [rU t c ht hc1 htro]
    · intro r' hr' hall
      rw [ihH r' hr' (fun x hx => hall x (by simp [hx]))]
      exact rH r' hr' (hall o (by simp))
    · intro o0 ho0
      rcases List.mem_cons.mp ho0 with rfl | ho0mem
      · have hnotrow : ∀ x ∈ offs, t + o0 ≠ t + x := by
          intro x hx hh
          have hxo : x = o0 := by omega
          rw [hxo] at hx
          exact homem hx
        rw [ihH (t + o0) hro hnotrow]
        exact rHs
      · have ho01 : 1 ≤ o0 := hoffs o0 (by simp [ho0mem])
        have hne : t + o0 ≠ t + o := by
          have : o0 ≠ o := fun hh => homem (hh ▸ ho0mem)
          omega
        rw [ihHs o0 ho0mem]
        cases rh with
        | some h => rfl
        | none => exact rH (t + o0) (by omega) hne
    · rw [ihM, rM]
    · intro hall
      have hle : t + o ≤ rowCount s := hall o (by simp)
      rw [ihR (fun x hx => by rw [rR hle]; exact hall x (by simp [hx]))]
      exact rR hle

theorem insertAndBlankRows_props (ws : Sheet) (t k mc : Nat) (sty : List (Option Nat))
    (rh : Option ℚ) (ht : 1 ≤ t) (htb : t ≤ rowCount ws) :
    (∀ r c, 1 ≤ r → r ≤ t → 1 ≤ c →
      getCell (insertAndBlankRows ws t k mc sty rh) r c = getCell ws r c) ∧
    (∀ i c, 1 ≤ i → i ≤ k → 1 ≤ c → c ≤ mc →
      getCell (insertAndBlankRows ws t k mc sty rh) (t + i) c
        = Cell.mk PyVal.vNone (styRes sty c none)) ∧
    (∀ r c, t < r → 1 ≤ c →
      getCell (insertAndBlankRows ws t k mc sty rh) (r + k) c = getCell ws r c) ∧
    (∀ r', 1 ≤ r' → (r' ≤ t ∨ t + k < r') →
      getHeightS (insertAndBlankRows ws t k mc sty rh) r' = getHeightS ws r') ∧
    (∀ i, 1 ≤ i → i ≤ k →
      getHeightS (insertAndBlankRows ws t k mc sty rh) (t + i)
        = match rh with
          | some h => some h
          | none => getHeightS ws (t + i)) ∧
    (insertAndBlankRows ws t k mc sty rh).merges = ws.merges ∧
    rowCount (insertAndBlankRows ws t k mc sty rh) = rowCount ws + k := by
  by_cases hk : 0 < k
  · simp only [insertAndBlankRows, if_pos hk]
    have hidx : (t + 1) - 1 ≤ rowCount ws := by omega
    obtain ⟨fU, fT, fH, fHs, fM, fR⟩ := foldOffs_blank t mc sty rh (rangeList 1 k)
      (insertRowsAt ws (t + 1) k) (fun o ho => (mem_rangeList ho).1) (rangeList_nodup 1 k)
    refine ⟨?_, ?_, ?_, ?_, ?_, ?_, ?_⟩
    · intro r c hr hrt hc
      rw [fU r c hr hc (fun o ho => by have := mem_rangeList ho; omega)]
      exact getCell_insertRowsAt_above ws (t + 1) k r c hr (by omega) hidx
    · intro i c hi1 hi2 hc1 hc2
      rw [fT i (rangeList_mem hi1 hi2) c hc1 hc2,
        getCell_insertRowsAt_new ws (t + 1) k (t + i) c (by omega) (by omega) hidx (by omega)]
      rfl
    · intro r c hrt hc
      rw [fU (r + k) c (by omega) hc (fun o ho => by have := mem_rangeList ho; omega)]
      exact getCell_insertRowsAt_below ws (t + 1) k r c (by omega) hidx (by omega)
    · intro r' hr' hcase
      rw [fH r' hr' (fun o ho => by have := mem_rangeList ho; omega)]
      rfl
    · intro i hi1 hi2
      rw [fHs i (rangeList_mem hi1 hi2)]
      cases rh with
      | some h => rfl
      | none => rfl
    · rw [fM]
      rfl
    · rw [fR (fun o ho => by
        have := mem_rangeList ho
        rw [rowCount_insertRowsAt ws (t + 1) k hidx]
        omega)]
      exact rowCount_insertRowsAt ws (t + 1) k hidx
  · have hk0 : k = 0 := by omega
    subst hk0
    have hid : insertAndBlankRows ws t 0 mc sty rh = ws := rfl
    rw [hid]
    exact ⟨fun _ _ _ _ _ => rfl, fun i c hi1 hi2 _ _ => by omega,
      fun r c _ _ => rfl, fun _ _ _ => rfl, fun i hi1 hi2 => by omega, rfl, rfl⟩

theorem insertAndCopyRows_props (ws : Sheet) (t k mc : Nat) (sty : List (Option Nat))
    (rh : Option ℚ) (ht : 1 ≤ t) (htb : t ≤ rowCount ws) :
    (∀ r c, 1 ≤ r → r ≤ t → 1 ≤ c →
      getCell (insertAndCopyRows ws t k mc sty rh) r c = getCell ws r c) ∧
    (∀ i c, 1 ≤ i → i ≤ k → 1 ≤ c → c ≤ mc →
      getCell (insertAndCopyRows ws t k mc sty rh) (t + i) c
        = Cell.mk (getCell ws t c).v (styRes sty c none)) ∧
    (∀ r c, t < r → 1 ≤ c →
      getCell (insertAndCopyRows ws t k mc sty rh) (r + k) c = getCell ws r c) ∧
    (∀ r', 1 ≤ r' → (r' ≤ t ∨ t + k < r') →
      getHeightS (insertAndCopyRows ws t k mc sty rh) r' = getHeightS ws r') ∧
    (∀ i, 1 ≤ i → i ≤ k →
      getHeightS (insertAndCopyRows ws t k mc sty rh) (t + i)
        = match rh with
          | some h => some h
          | none => getHeightS ws (t + i)) ∧
    (insertAndCopyRows ws t k mc sty rh).merges = ws.merges ∧
    rowCount (insertAndCopyRows ws t k mc sty rh) = rowCount ws + k := by
  by_cases hk : 0 < k
  · simp only [insertAndCopyRows, if_pos hk]
    have hidx : (t + 1) - 1 ≤ rowCount ws := by omega
    obtain ⟨fU, fT, fH, fHs, fM, fR⟩ := foldOffs_copy t mc sty rh ht (rangeList 1 k)
      (insertRowsAt ws (t + 1) k) (fun o ho => (mem_rangeList ho).1) (rangeList_nodup 1 k)
    refine ⟨?_, ?_, ?_, ?_, ?_, ?_, ?_⟩
    · intro r c hr hrt hc
      rw [fU r c hr hc (fun o ho => by have := mem_rangeList ho; omega)]
      exact getCell_insertRowsAt_above ws (t + 1) k r c hr (by omega) hidx
    · intro i c hi1 hi2 hc1 hc2
      rw [fT i (rangeList_mem hi1 hi2) c hc1 hc2,
        getCell_insertRowsAt_new ws (t + 1) k (t + i) c (by omega) (by omega) hidx (by omega),
        getCell_insertRowsAt_above ws (t + 1) k t c ht (by omega) hidx]
      rfl
    · intro r c hrt hc
      rw [fU (r + k) c (by omega) hc (fun o ho => by have := mem_rangeList ho; omega)]
      exact getCell_insertRowsAt_below ws (t + 1) k r c (by omega) hidx (by omega)
    · intro r' hr' hcase
      rw [fH r' hr' (fun o ho => by have := mem_rangeList ho; omega)]
      rfl
    · intro i hi1 hi2
      rw [fHs i (rangeList_mem hi1 hi2)]
      cases rh with
      | some h => rfl
      | none => rfl
    · rw [fM]
      rfl
    · rw [fR (fun o ho => by
        have := mem_rangeList ho
        rw [rowCount_insertRowsAt ws (t + 1) k hidx]
        omega)]
      exact rowCount_insertRowsAt ws (t + 1) k hidx
  · have hk0 : k = 0 := by omega
    subst hk0
    have hid : insertAndCopyRows ws t 0 mc sty rh = ws := rfl
    rw [hid]
    exact ⟨fun _ _ _ _ _ => rfl, fun i c hi1 hi2 _ _ => by omega,
      fun r c _ _ => rfl, fun _ _ _ => rfl, fun i hi1 hi2 => by omega, rfl, rfl⟩

theorem fillCellStep_props (tagS tagE : List Char) (record : List (String × PyVal))
    (ws : Sheet) (r c : Nat) (hr : 1 ≤ r) (hc : 1 ≤ c) :
    (∀ r' c', 1 ≤ r' → 1 ≤ c' → (r' ≠ r ∨ c' ≠ c) →
      getCell (fillCellStep tagS tagE record ws r c) r' c' = getCell ws r' c') ∧
    (∀ r' c', 1 ≤ r' → 1 ≤ c' →
      (getCell (fillCellStep tagS tagE record ws r c) r' c').st = (getCell ws r' c').st) ∧
    (fillCellStep tagS tagE record ws r c).heights = ws.heights ∧
    (fillCellStep tagS tagE record ws r c).merges = ws.merges ∧
    (r ≤ rowCount ws → rowCount (fillCellStep tagS tagE record ws r c) = rowCount ws) := by
  cases hv : (getCell ws r c).v with
  | vStr s0 =>
    by_cases he : s0.isEmpty
    · simp only [fillCellStep, hv, if_pos he]
      simp
    · simp only [fillCellStep, hv, if_neg he]
      refine ⟨?_, ?_, rfl, rfl, ?_⟩
      · intro r' c' hr' hc' hne
        apply getCell_setCellV_other ws r c r' c' _ hr hc hr' hc'
        rcases hne with h | h
        · exact Or.inl (fun hh => h hh.symm)
        · exact Or.inr (fun hh => h hh.symm)
      · intro r' c' hr' hc'
        by_cases hcase : r' = r ∧ c' = c
        · obtain ⟨rfl, rfl⟩ := hcase
          rw [getCell_setCellV_self ws r' c' _ hr hc]
        · push_neg at hcase
          rw [getCell_setCellV_other ws r c r' c' _ hr hc hr' hc' (by
            by_cases hrr : r' = r
            · exact Or.inr (fun hh => hcase hrr hh.symm)
            · exact Or.inl (fun hh => hrr hh.symm))]
      · intro hle
        simp only [setCellV]
        exact rowCount_modifyCell ws r c _ hr hle
  | vNone =>
    simp only [fillCellStep, hv]
    simp
  | vInt n =>
    simp only [fillCellStep, hv]
    simp
  | vDec m e =>
    simp only [fillCellStep, hv]
    simp

theorem fillRowCols_props (tagS tagE : List Char) (record : List (String × PyVal)) (r : Nat)
    (hr : 1 ≤ r) :
    ∀ (cols : List Nat) (s : Sheet), (∀ c ∈ cols, 1 ≤ c) →
    (∀ r' c', 1 ≤ r' → 1 ≤ c' → r' ≠ r →
      getCell (cols.foldl (fun ws2 c => fillCellStep tagS tagE record ws2 r c) s) r' c'
        = getCell s r' c') ∧
    (∀ r' c', 1 ≤ r' → 1 ≤ c' →
      (getCell (cols.foldl (fun ws2 c => fillCellStep tagS tagE record ws2 r c) s) r' c').st
        = (getCell s r' c').st) ∧
    (cols.foldl (fun ws2 c => fillCellStep tagS tagE record ws2 r c) s).heights = s.heights ∧
    (cols.foldl (fun ws2 c => fillCellStep tagS tagE record ws2 r c) s).merges = s.merges ∧
    (r ≤ rowCount s →
      rowCount (cols.foldl (fun ws2 c => fillCellStep tagS tagE record ws2 r c) s)
        = rowCount s) := by
  intro cols
  induction cols with
  | nil => exact fun s _ => ⟨fun _ _ _ _ _ => rfl, fun _ _ _ _ => rfl, rfl, rfl, fun _ => rfl⟩
  | cons c cols ih =>
    intro s hcols
    have hc1 : 1 ≤ c := hcols c (by simp)
    simp only [List.foldl_cons]
    obtain ⟨sU, sS, sH, sM, sR⟩ := fillCellStep_props tagS tagE record s r c hr hc1
    obtain ⟨ihU, ihS, ihH, ihM, ihR⟩ :=
      ih (fillCellStep tagS tagE record s r c) (fun x hx => hcols x (by simp [hx]))
    refine ⟨?_, ?_, ?_, ?_, ?_⟩
    · intro r' c' hr' hc' hne
      rw [ihU r' c' hr' hc' hne, sU r' c' hr' hc' (Or.inl hne)]
    · intro r' c' hr' hc'
      rw [ihS r' c' hr' hc', sS r' c' hr' hc']
    · rw [ihH, sH]
    · rw [ihM, sM]
    · intro hle
      rw [ihR (by rw [sR hle]; exact hle), sR hle]

theorem fillRows_fold (tagS tagE : List Char) (t mc N : Nat) (ht : 1 ≤ t) :
    ∀ (ps : List (Nat × List (String × PyVal))) (s : Sheet), (∀ p ∈ ps, p.1 < N) →
    (∀ r' c', 1 ≤ r' → 1 ≤ c' → (r' < t ∨ t + N ≤ r') →
      getCell (ps.foldl (fun ws1 p =>
        (rangeList 1 mc).foldl (fun ws2 c => fillCellStep tagS tagE p.2 ws2 (t + p.1) c) ws1) s)
        r' c' = getCell s r' c') ∧
    (∀ r' c', 1 ≤ r' → 1 ≤ c' →
      (getCell (ps.foldl (fun ws1 p =>
        (rangeList 1 mc).foldl (fun ws2 c => fillCellStep tagS tagE p.2 ws2 (t + p.1) c) ws1) s)
        r' c').st = (getCell s r' c').st) ∧
    (ps.foldl (fun ws1 p =>
        (rangeList 1 mc).foldl (fun ws2 c => fillCellStep tagS tagE p.2 ws2 (t + p.1) c) ws1) s).heights
      = s.heights ∧
    (ps.foldl (fun ws1 p =>
        (rangeList 1 mc).foldl (fun ws2 c => fillCellStep tagS tagE p.2 ws2 (t + p.1) c) ws1) s).merges
      = s.merges ∧
    ((∀ p ∈ ps, t + p.1 ≤ rowCount s) →
      rowCount (ps.foldl (fun ws1 p =>
        (rangeList 1 mc).foldl (fun ws2 c => fillCellStep tagS tagE p.2 ws2 (t + p.1) c) ws1) s)
        = rowCount s) := by
  intro ps
  induction ps with
  | nil => exact fun s _ => ⟨fun _ _ _ _ _ => rfl, fun _ _ _ _ => rfl, rfl, rfl, fun _ => rfl⟩
  | cons p ps ih =>
    intro s hps
    have hp1 : p.1 < N := hps p (by simp)
    have hrp : 1 ≤ t + p.1 := by omega
    simp only [List.foldl_cons]
    obtain ⟨rU, rS, rH, rM, rR⟩ := fillRowCols_props tagS tagE p.2 (t + p.1) hrp
      (rangeList 1 mc) s (fun c hc => (mem_rangeList hc).1)
    obtain ⟨ihU, ihS, ihH, ihM, ihR⟩ :=
      ih ((rangeList 1 mc).foldl (fun ws2 c => fillCellStep tagS tagE p.2 ws2 (t + p.1) c) s)
        (fun x hx => hps x (by simp [hx]))
    refine ⟨?_, ?_, ?_, ?_, ?_⟩
    · intro r' c' hr' hc' hcase
      rw [ihU r' c' hr' hc' hcase, rU r' c' hr' hc' (by omega)]
    · intro r' c' hr' hc'
      rw [ihS r' c' hr' hc', rS r' c' hr' hc']
    · rw [ihH, rH]
    · rw [ihM, rM]
    · intro hall
      have hle : t + p.1 ≤ rowCount s := hall p (by simp)
      rw [ihR (fun x hx => by rw [rR hle]; exact hall x (by simp [hx])), rR hle]

theorem fillDataRows_props (ws : Sheet) (t : Nat) (tagS tagE : List Char)
    (data : List (List (String × PyVal))) (ht : 1 ≤ t) :
    (∀ r' c', 1 ≤ r' → 1 ≤ c' → (r' < t ∨ t + data.length ≤ r') →
      getCell (fillDataRows ws t tagS tagE data) r' c' = getCell ws r' c') ∧
    (∀ r' c', 1 ≤ r' → 1 ≤ c' →
      (getCell (fillDataRows ws t tagS tagE data) r' c').st = (getCell ws r' c').st) ∧
    (fillDataRows ws t tagS tagE data).heights = ws.heights ∧
    (fillDataRows ws t tagS tagE data).merges = ws.merges ∧
    (t + data.length - 1 ≤ rowCount ws →
      rowCount (fillDataRows ws t tagS tagE data) = rowCount ws) := by
  have hmem : ∀ p ∈ data.enum, p.1 < data.length := by
    intro p hp
    rw [List.mem_enum_iff_getElem?] at hp
    exact (List.getElem?_eq_some.mp hp).1
  obtain ⟨fU, fS, fH, fM, fR⟩ := fillRows_fold tagS tagE t (maxColS ws) data.length ht
    data.enum ws hmem
  refine ⟨fU, fS, fH, fM, ?_⟩
  intro hle
  apply fR
  intro p hp
  have := hmem p hp
  omega

theorem getAt_eq_get? {α : Type} (l : List α) (i : Nat) (d : α) :
    getAt l i d = (l.get? i).getD d := by
  induction l generalizing i with
  | nil => cases i <;> rfl
  | cons x t ih => cases i <;> simp [getAt, ih]

theorem captureRowStyles_get (ws : Sheet) (t mc c : Nat) (hc1 : 1 ≤ c) (hc2 : c ≤ mc) :
    getAt (captureRowStyles ws t mc) (c - 1) none = (getCell ws t c).st := by
  rw [captureRowStyles, getAt_eq_get?, List.get?_map, rangeList, List.get?_map,
    List.get?_range (by omega)]
  simp only [Option.map_some', Option.getD_some]
  have : 1 + (c - 1) = c := by omega
  rw [this]

theorem findTagRowAux_bounds (tag : List Char) (r0 : Nat) (rows : List (List Cell)) (t : Nat)
    (h : findTagRowAux tag r0 rows = some t) : r0 ≤ t ∧ t < r0 + rows.length := by
  induction rows generalizing r0 with
  | nil => simp [findTagRowAux] at h
  | cons row rest ih =>
    have hlen : (row :: rest).length = rest.length + 1 := rfl
    by_cases hrow : row.any (fun cl => cellHasTagStr cl tag)
    · simp only [findTagRowAux, hrow, if_pos] at h
      cases h
      omega
    · simp only [findTagRowAux, hrow, Bool.false_eq_true, if_neg, not_false_iff] at h
      have := ih (r0 + 1) h
      omega

theorem findTagRow_bounds (ws : Sheet) (tag : List Char) (t : Nat)
    (h : findTagRow ws tag = some t) : 1 ≤ t ∧ t ≤ rowCount ws := by
  have := findTagRowAux_bounds tag 1 ws.cells t h
  simp only [rowCount]
  omega

theorem findTagRowAux_none (tag : List Char) (r0 : Nat) (rows : List (List Cell))
    (h : ∀ row ∈ rows, row.all (fun cl => !cellHasTagStr cl tag) = true) :
    findTagRowAux tag r0 rows = none := by
  induction rows generalizing r0 with
  | nil => rfl
  | cons row rest ih =>
    have hrow : row.any (fun cl => cellHasTagStr cl tag) = false := by
      have := h row (by simp)
      simp only [List.all_eq_true] at this
      simp only [List.any_eq_false]
      intro cl hcl
      have := this cl hcl
      simp at this
      simp [this]
    simp only [findTagRowAux, hrow, Bool.false_eq_true, if_neg, not_false_iff]
    exact ih (r0 + 1) (fun row hr => h row (by simp [hr]))

/-- When no cell matches, the `expand_table_by_tag` search fails. -/
theorem findTagRow_of_noCell (ws : Sheet) (tag : List Char)
    (h : noCellHasTag ws tag = true) : findTagRow ws tag = none := by
  simp only [noCellHasTag, List.all_eq_true] at h
  exact findTagRowAux_none tag 1 ws.cells (fun row hr => by
    simp only [List.all_eq_true]
    exact fun cl hcl => h row hr cl hcl)

theorem findTotalRow_props (ws : Sheet) (t tr : Nat) (h : findTotalRow ws t = some tr) :
    t < tr ∧ tr ≤ rowCount ws ∧ (getCell ws tr 1).v = PyVal.vStr "Total" := by
  have hp := List.find?_some h
  have hm := List.mem_of_find?_eq_some h
  have hb := mem_rangeList hm
  refine ⟨by omega, by omega, ?_⟩
  simpa using hp

/-- Structural well-formedness of a sheet: every merged range lies within
the grid's rows and its non-top-left cells are blank (openpyxl guarantees
this for any sheet it produced, since merging blanks those cells). -/
def wellFormedB (s : Sheet) : Bool :=
  s.merges.all (fun m =>
    decide (1 ≤ m.minRow) && decide (m.minRow ≤ m.maxRow) && decide (1 ≤ m.minCol) &&
    decide (m.minCol ≤ m.maxCol) && decide (m.maxRow ≤ rowCount s) &&
    (rangeList m.minRow m.maxRow).all (fun r =>
      (rangeList m.minCol m.maxCol).all (fun c =>
        decide (r = m.minRow ∧ c = m.minCol) || ((getCell s r c).v == PyVal.vNone))))

theorem wellFormedB_spec (s : Sheet) (h : wellFormedB s = true) (m : MRange)
    (hm : m ∈ s.merges) :
    1 ≤ m.minRow ∧ m.minRow ≤ m.maxRow ∧ 1 ≤ m.minCol ∧ m.minCol ≤ m.maxCol ∧
    m.maxRow ≤ rowCount s ∧
    (∀ r c, m.minRow ≤ r → r ≤ m.maxRow → m.minCol ≤ c → c ≤ m.maxCol →
      ¬(r = m.minRow ∧ c = m.minCol) → (getCell s r c).v = PyVal.vNone) := by
  simp only [wellFormedB, List.all_eq_true] at h
  have := h m hm
  simp only [Bool.and_eq_true, decide_eq_true_eq, List.all_eq_true] at this
  obtain ⟨⟨⟨⟨⟨h1, h2⟩, h3⟩, h4⟩, h5⟩, h6⟩ := this
  refine ⟨h1, h2, h3, h4, h5, ?_⟩
  intro r c hr1 hr2 hc1 hc2 hne
  have := h6 r (rangeList_mem hr1 hr2) c (rangeList_mem hc1 hc2)
  simp only [Bool.or_eq_true, decide_eq_true_eq, beq_iff_eq] at this
  rcases this with hcase | hcase
  · exact absurd hcase hne
  · exact hcase

theorem styRes_none (sty : List (Option Nat)) (c : Nat) :
    styRes sty c none = getAt sty (c - 1) none := by
  simp only [styRes]
  cases getAt sty (c - 1) none <;> rfl

theorem mem_mergesToShift (ws : Sheet) (t : Nat) (m : MRange)
    (h : m ∈ mergesToShift ws t) : m ∈ ws.merges ∧ t < m.minRow := by
  simp only [mergesToShift, List.mem_filter, decide_eq_true_eq] at h
  exact h

/-- Everything the claims need about the shared row-expansion pipeline, on
the `expand_invoice_items_table` instance (the other two expanders build
the same intermediate sheet). -/
theorem expandInvoiceItemsTable_props (ws : Sheet) (t n : Nat)
    (hwf : wellFormedB ws = true) (ht : 1 ≤ t) (htb : t ≤ rowCount ws) :
    rowCount (expandInvoiceItemsTable ws t n) = rowCount ws + (n - 1) ∧
    (∀ i c, 1 ≤ i → i ≤ n - 1 → 1 ≤ c → c ≤ maxColS ws →
      getCell (expandInvoiceItemsTable ws t n) (t + i) c
        = Cell.mk PyVal.vNone (getCell ws t c).st) ∧
    (∀ i, 1 ≤ i → i ≤ n - 1 → ∀ h0, getHeightS ws t = some h0 →
      getHeightS (expandInvoiceItemsTable ws t n) (t + i) = some h0) ∧
    (∀ r c, t < r → 1 ≤ c →
      getCell (expandInvoiceItemsTable ws t n) (r + (n - 1)) c = getCell ws r c) ∧
    (∀ r c, 1 ≤ r → r ≤ t → 1 ≤ c →
      getCell (expandInvoiceItemsTable ws t n) r c = getCell ws r c) ∧
    (expandInvoiceItemsTable ws t n).merges
      = ws.merges.filter (fun m => !decide (t < m.minRow))
        ++ (mergesToShift ws t).map (fun m => shiftRange m (n - 1)) := by
  have hdef : expandInvoiceItemsTable ws t n
      = remergeShifted (mergesToShift ws t) (n - 1)
          (insertAndBlankRows (unmergeAll (mergesToShift ws t) ws) t (n - 1) (maxColS ws)
            (captureRowStyles ws t (maxColS ws)) (getHeightS ws t)) := rfl
  obtain ⟨hc1, hh1, hm1⟩ := foldl_unmerge (mergesToShift ws t) ws
  have g1 : ∀ r c, getCell (unmergeAll (mergesToShift ws t) ws) r c = getCell ws r c := by
    intro r c
    simp only [getCell, unmergeAll, hc1]
  have rc1 : rowCount (unmergeAll (mergesToShift ws t) ws) = rowCount ws := by
    simp only [rowCount, unmergeAll, hc1]
  have hm1' : (unmergeAll (mergesToShift ws t) ws).merges
      = ws.merges.filter (fun m => !decide (t < m.minRow)) := by
    have h0 : (unmergeAll (mergesToShift ws t) ws).merges
        = List.foldl (fun l m => l.erase m) ws.merges (mergesToShift ws t) := hm1
    rw [h0]
    simp only [mergesToShift]
    exact foldl_erase_filter (fun m => decide (t < m.minRow)) ws.merges
  obtain ⟨iA, iB, iC, iD, iE, iF, iG⟩ :=
    insertAndBlankRows_props (unmergeAll (mergesToShift ws t) ws) t (n - 1) (maxColS ws)
      (captureRowStyles ws t (maxColS ws)) (getHeightS ws t) ht (by omega)
  have hok : ∀ m' ∈ (mergesToShift ws t).map (fun m => shiftRange m (n - 1)),
      1 ≤ m'.minRow ∧ 1 ≤ m'.minCol ∧
      m'.maxRow ≤ rowCount (insertAndBlankRows (unmergeAll (mergesToShift ws t) ws) t (n - 1)
        (maxColS ws) (captureRowStyles ws t (maxColS ws)) (getHeightS ws t)) ∧
      (∀ r c, m'.minRow ≤ r → r ≤ m'.maxRow → m'.minCol ≤ c → c ≤ m'.maxCol →
        ¬(r = m'.minRow ∧ c = m'.minCol) →
        (getCell (insertAndBlankRows (unmergeAll (mergesToShift ws t) ws) t (n - 1)
          (maxColS ws) (captureRowStyles ws t (maxColS ws)) (getHeightS ws t)) r c).v
          = PyVal.vNone) := by
    intro m' hm'
    obtain ⟨m, hmmem, rfl⟩ := List.mem_map.mp hm'
    obtain ⟨hmem, hmt⟩ := mem_mergesToShift ws t m hmmem
    obtain ⟨w1, w2, w3, w4, w5, w6⟩ := wellFormedB_spec ws hwf m hmem
    refine ⟨?_, ?_, ?_, ?_⟩
    · simp only [shiftRange]
      omega
    · simp only [shiftRange]
      omega
    · simp only [shiftRange]
      rw [iG, rc1]
      omega
    · intro r c hr1 hr2 hc1' hc2' hne
      simp only [shiftRange] at hr1 hr2 hc1' hc2' hne
      have hr0 : r = (r - (n - 1)) + (n - 1) := by omega
      rw [hr0, iC (r - (n - 1)) c (by omega) (by omega), g1]
      have := w6 (r - (n - 1)) c (by omega) (by omega) hc1' hc2' (by
        intro hcon
        exact hne ⟨by omega, hcon.2⟩)
      exact this
  have hremap : remergeShifted (mergesToShift ws t) (n - 1)
      (insertAndBlankRows (unmergeAll (mergesToShift ws t) ws) t (n - 1) (maxColS ws)
        (captureRowStyles ws t (maxColS ws)) (getHeightS ws t))
      = ((mergesToShift ws t).map (fun m => shiftRange m (n - 1))).foldl
          (fun s1 m => mergeCellsM m s1)
          (insertAndBlankRows (unmergeAll (mergesToShift ws t) ws) t (n - 1) (maxColS ws)
            (captureRowStyles ws t (maxColS ws)) (getHeightS ws t)) := by
    rw [remergeShifted, List.foldl_map]
  obtain ⟨mU, mH, mR, mM⟩ := foldl_merge_obs
    ((mergesToShift ws t).map (fun m => shiftRange m (n - 1)))
    (insertAndBlankRows (unmergeAll (mergesToShift ws t) ws) t (n - 1) (maxColS ws)
      (captureRowStyles ws t (maxColS ws)) (getHeightS ws t))
    (insertAndBlankRows (unmergeAll (mergesToShift ws t) ws) t (n - 1) (maxColS ws)
      (captureRowStyles ws t (maxColS ws)) (getHeightS ws t))
    (fun _ _ _ _ => rfl) rfl rfl hok
  rw [hdef, hremap]
  refine ⟨?_, ?_, ?_, ?_, ?_, ?_⟩
  · rw [mR, iG, rc1]
  · intro i c hi1 hi2 hc1' hc2'
    rw [mU (t + i) c (by omega) (by omega), iB i c hi1 hi2 hc1' hc2', styRes_none,
      captureRowStyles_get ws t (maxColS ws) c hc1' hc2']
  · intro i hi1 hi2 h0 hh0
    have hh : getHeightS (((mergesToShift ws t).map (fun m => shiftRange m (n - 1))).foldl
        (fun s1 m => mergeCellsM m s1)
        (insertAndBlankRows (unmergeAll (mergesToShift ws t) ws) t (n - 1) (maxColS ws)
          (captureRowStyles ws t (maxColS ws)) (getHeightS ws t))) (t + i)
        = getHeightS (insertAndBlankRows (unmergeAll (mergesToShift ws t) ws) t (n - 1)
            (maxColS ws) (captureRowStyles ws t (maxColS ws)) (getHeightS ws t)) (t + i) :=
      congrArg (fun hl => getAt hl (t + i - 1) none) mH
    rw [hh, iE i hi1 hi2, hh0]
  · intro r c hrt hc
    rw [mU (r + (n - 1)) c (by omega) (by omega), iC r c hrt (by omega), g1]
  · intro r c hr1 hr2 hc
    rw [mU r c (by omega) (by omega), iA r c hr1 hr2 (by omega), g1]
  · rw [mM, iF, hm1']

/-- Same pipeline facts for the `expand_table_by_tag` copy variant
(values on inserted rows come from the template row). -/
theorem byTagCore_props (ws : Sheet) (t n : Nat)
    (hwf : wellFormedB ws = true) (ht : 1 ≤ t) (htb : t ≤ rowCount ws) :
    rowCount (remergeShifted (mergesToShift ws t) (n - 1)
      (insertAndCopyRows (unmergeAll (mergesToShift ws t) ws) t (n - 1) (maxColS ws)
        (captureRowStyles ws t (maxColS ws)) (getHeightS ws t))) = rowCount ws + (n - 1) ∧
    (∀ i c, 1 ≤ i → i ≤ n - 1 → 1 ≤ c → c ≤ maxColS ws →
      getCell (remergeShifted (mergesToShift ws t) (n - 1)
        (insertAndCopyRows (unmergeAll (mergesToShift ws t) ws) t (n - 1) (maxColS ws)
          (captureRowStyles ws t (maxColS ws)) (getHeightS ws t))) (t + i) c
        = Cell.mk (getCell ws t c).v (getCell ws t c).st) ∧
    (∀ i, 1 ≤ i → i ≤ n - 1 → ∀ h0, getHeightS ws t = some h0 →
      getHeightS (remergeShifted (mergesToShift ws t) (n - 1)
        (insertAndCopyRows (unmergeAll (mergesToShift ws t) ws) t (n - 1) (maxColS ws)
          (captureRowStyles ws t (maxColS ws)) (getHeightS ws t))) (t + i) = some h0) ∧
    (∀ r c, t < r → 1 ≤ c →
      getCell (remergeShifted (mergesToShift ws t) (n - 1)
        (insertAndCopyRows (unmergeAll (mergesToShift ws t) ws) t (n - 1) (maxColS ws)
          (captureRowStyles ws t (maxColS ws)) (getHeightS ws t))) (r + (n - 1)) c
        = getCell ws r c) ∧
    (∀ r c, 1 ≤ r → r ≤ t → 1 ≤ c →
      getCell (remergeShifted (mergesToShift ws t) (n - 1)
        (insertAndCopyRows (unmergeAll (mergesToShift ws t) ws) t (n - 1) (maxColS ws)
          (captureRowStyles ws t (maxColS ws)) (getHeightS ws t))) r c = getCell ws r c) ∧
    (remergeShifted (mergesToShift ws t) (n - 1)
      (insertAndCopyRows (unmergeAll (mergesToShift ws t) ws) t (n - 1) (maxColS ws)
        (captureRowStyles ws t (maxColS ws)) (getHeightS ws t))).merges
      = ws.merges.filter (fun m => !decide (t < m.minRow))
        ++ (mergesToShift ws t).map (fun m => shiftRange m (n - 1)) := by
  obtain ⟨hc1, hh1, hm1⟩ := foldl_unmerge (mergesToShift ws t) ws
  have g1 : ∀ r c, getCell (unmergeAll (mergesToShift ws t) ws) r c = getCell ws r c := by
    intro r c
    simp only [getCell, unmergeAll, hc1]
  have rc1 : rowCount (unmergeAll (mergesToShift ws t) ws) = rowCount ws := by
    simp only [rowCount, unmergeAll, hc1]
  have hm1' : (unmergeAll (mergesToShift ws t) ws).merges
      = ws.merges.filter (fun m => !decide (t < m.minRow)) := by
    have h0 : (unmergeAll (mergesToShift ws t) ws).merges
        = List.foldl (fun l m => l.erase m) ws.merges (mergesToShift ws t) := hm1
    rw [h0]
    simp only [mergesToShift]
    exact foldl_erase_filter (fun m => decide (t < m.minRow)) ws.merges
  obtain ⟨iA, iB, iC, iD, iE, iF, iG⟩ :=
    insertAndCopyRows_props (unmergeAll (mergesToShift ws t) ws) t (n - 1) (maxColS ws)
      (captureRowStyles ws t (maxColS ws)) (getHeightS ws t) ht (by omega)
  have hok : ∀ m' ∈ (mergesToShift ws t).map (fun m => shiftRange m (n - 1)),
      1 ≤ m'.minRow ∧ 1 ≤ m'.minCol ∧
      m'.maxRow ≤ rowCount (insertAndCopyRows (unmergeAll (mergesToShift ws t) ws) t (n - 1)
        (maxColS ws) (captureRowStyles ws t (maxColS ws)) (getHeightS ws t)) ∧
      (∀ r c, m'.minRow ≤ r → r ≤ m'.maxRow → m'.minCol ≤ c → c ≤ m'.maxCol →
        ¬(r = m'.minRow ∧ c = m'.minCol) →
        (getCell (insertAndCopyRows (unmergeAll (mergesToShift ws t) ws) t (n - 1)
          (maxColS ws) (captureRowStyles ws t (maxColS ws)) (getHeightS ws t)) r c).v
          = PyVal.vNone) := by
    intro m' hm'
    obtain ⟨m, hmmem, rfl⟩ := List.mem_map.mp hm'
    obtain ⟨hmem, hmt⟩ := mem_mergesToShift ws t m hmmem
    obtain ⟨w1, w2, w3, w4, w5, w6⟩ := wellFormedB_spec ws hwf m hmem
    refine ⟨?_, ?_, ?_, ?_⟩
    · simp only [shiftRange]
      omega
    · simp only [shiftRange]
      omega
    · simp only [shiftRange]
      rw [iG, rc1]
      omega
    · intro r c hr1 hr2 hc1' hc2' hne
      simp only [shiftRange] at hr1 hr2 hc1' hc2' hne
      have hr0 : r = (r - (n - 1)) + (n - 1) := by omega
      rw [hr0, iC (r - (n - 1)) c (by omega) (by omega), g1]
      exact w6 (r - (n - 1)) c (by omega) (by omega) hc1' hc2' (by
        intro hcon
        exact hne ⟨by omega, hcon.2⟩)
  have hremap : remergeShifted (mergesToShift ws t) (n - 1)
      (insertAndCopyRows (unmergeAll (mergesToShift ws t) ws) t (n - 1) (maxColS ws)
        (captureRowStyles ws t (maxColS ws)) (getHeightS ws t))
      = ((mergesToShift ws t).map (fun m => shiftRange m (n - 1))).foldl
          (fun s1 m => mergeCellsM m s1)
          (insertAndCopyRows (unmergeAll (mergesToShift ws t) ws) t (n - 1) (maxColS ws)
            (captureRowStyles ws t (maxColS ws)) (getHeightS ws t)) := by
    rw [remergeShifted, List.foldl_map]
  obtain ⟨mU, mH, mR, mM⟩ := foldl_merge_obs
    ((mergesToShift ws t).map (fun m => shiftRange m (n - 1)))
    (insertAndCopyRows (unmergeAll (mergesToShift ws t) ws) t (n - 1) (maxColS ws)
      (captureRowStyles ws t (maxColS ws)) (getHeightS ws t))
    (insertAndCopyRows (unmergeAll (mergesToShift ws t) ws) t (n - 1) (maxColS ws)
      (captureRowStyles ws t (maxColS ws)) (getHeightS ws t))
    (fun _ _ _ _ => rfl) rfl rfl hok
  rw [hremap]
  refine ⟨?_, ?_, ?_, ?_, ?_, ?_⟩
  · rw [mR, iG, rc1]
  · intro i c hi1 hi2 hc1' hc2'
    rw [mU (t + i) c (by omega) (by omega), iB i c hi1 hi2 hc1' hc2', styRes_none,
      captureRowStyles_get ws t (maxColS ws) c hc1' hc2', g1]
  · intro i hi1 hi2 h0 hh0
    have hh : getHeightS (((mergesToShift ws t).map (fun m => shiftRange m (n - 1))).foldl
        (fun s1 m => mergeCellsM m s1)
        (insertAndCopyRows (unmergeAll (mergesToShift ws t) ws) t (n - 1) (maxColS ws)
          (captureRowStyles ws t (maxColS ws)) (getHeightS ws t))) (t + i)
        = getHeightS (insertAndCopyRows (unmergeAll (mergesToShift ws t) ws) t (n - 1)
            (maxColS ws) (captureRowStyles ws t (maxColS ws)) (getHeightS ws t)) (t + i) :=
      congrArg (fun hl => getAt hl (t + i - 1) none) mH
    rw [hh, iE i hi1 hi2, hh0]
  · intro r c hrt hc
    rw [mU (r + (n - 1)) c (by omega) (by omega), iC r c hrt (by omega), g1]
  · intro r c hr1 hr2 hc
    rw [mU r c (by omega) (by omega), iA r c hr1 hr2 (by omega), g1]
  · rw [mM, iF, hm1']

/-- Facts about `expand_table_by_tag` in the expanding case (marker found,
non-empty record set), combining the pipeline facts with the fill loop. -/
theorem expandTableByTag_expand_props (ws : Sheet) (tagS tagE : List Char)
    (data : List (List (String × PyVal))) (t : Nat)
    (hfind : findTagRow ws tagS = some t) (hne : data ≠ [])
    (hwf : wellFormedB ws = true) :
    (expandTableByTag ws tagS tagE data).1 = some t ∧
    rowCount (expandTableByTag ws tagS tagE data).2 = rowCount ws + (data.length - 1) ∧
    (∀ i c, 1 ≤ i → i ≤ data.length - 1 → 1 ≤ c → c ≤ maxColS ws →
      (getCell (expandTableByTag ws tagS tagE data).2 (t + i) c).st = (getCell ws t c).st) ∧
    (∀ i, 1 ≤ i → i ≤ data.length - 1 → ∀ h0, getHeightS ws t = some h0 →
      getHeightS (expandTableByTag ws tagS tagE data).2 (t + i) = some h0) ∧
    (∀ r c, t < r → 1 ≤ c →
      getCell (expandTableByTag ws tagS tagE data).2 (r + (data.length - 1)) c
        = getCell ws r c) ∧
    (expandTableByTag ws tagS tagE data).2.merges
      = ws.merges.filter (fun m => !decide (t < m.minRow))
        ++ (mergesToShift ws t).map (fun m => shiftRange m (data.length - 1)) := by
  obtain ⟨ht, htb⟩ := findTagRow_bounds ws tagS t hfind
  have hde : data.isEmpty = false := by
    cases data with
    | nil => exact absurd rfl hne
    | cons a l => rfl
  have hout : expandTableByTag ws tagS tagE data
      = (some t, fillDataRows (remergeShifted (mergesToShift ws t) (data.length - 1)
          (insertAndCopyRows (unmergeAll (mergesToShift ws t) ws) t (data.length - 1)
            (maxColS ws) (captureRowStyles ws t (maxColS ws)) (getHeightS ws t)))
          t tagS tagE data) := by
    simp only [expandTableByTag, hfind, hde, Bool.false_eq_true, if_neg, not_false_iff]
  obtain ⟨cR, cT, cH, cS, cA, cM⟩ := byTagCore_props ws t data.length hwf ht htb
  obtain ⟨fU, fS, fH, fM, fR⟩ := fillDataRows_props
    (remergeShifted (mergesToShift ws t) (data.length - 1)
      (insertAndCopyRows (unmergeAll (mergesToShift ws t) ws) t (data.length - 1)
        (maxColS ws) (captureRowStyles ws t (maxColS ws)) (getHeightS ws t)))
    t tagS tagE data ht
  have hlen1 : 1 ≤ data.length := by
    cases data with
    | nil => exact absurd rfl hne
    | cons a l => simp
  rw [hout]
  refine ⟨rfl, ?_, ?_, ?_, ?_, ?_⟩
  · rw [fR (by rw [cR]; omega), cR]
  · intro i c hi1 hi2 hc1 hc2
    rw [fS (t + i) c (by omega) (by omega), cT i c hi1 hi2 hc1 hc2]
  · intro i hi1 hi2 h0 hh0
    have hhf : getHeightS (fillDataRows (remergeShifted (mergesToShift ws t) (data.length - 1)
        (insertAndCopyRows (unmergeAll (mergesToShift ws t) ws) t (data.length - 1)
          (maxColS ws) (captureRowStyles ws t (maxColS ws)) (getHeightS ws t)))
        t tagS tagE data) (t + i)
        = getHeightS (remergeShifted (mergesToShift ws t) (data.length - 1)
          (insertAndCopyRows (unmergeAll (mergesToShift ws t) ws) t (data.length - 1)
            (maxColS ws) (captureRowStyles ws t (maxColS ws)) (getHeightS ws t))) (t + i) :=
      congrArg (fun hl => getAt hl (t + i - 1) none) fH
    rw [hhf]
    exact cH i hi1 hi2 h0 hh0
  · intro r c hrt hc
    rw [fU (r + (data.length - 1)) c (by omega) (by omega) (Or.inr (by omega)),
      cS r c hrt hc]
  · rw [fM, cM]

theorem rowCount_setCellV (s : Sheet) (r c : Nat) (v : PyVal)
    (hr : 1 ≤ r) (hle : r ≤ rowCount s) :
    rowCount (setCellV s r c v) = rowCount s :=
  rowCount_modifyCell s r c _ hr hle

/-- Facts about `expand_items_table` on success: the pipeline facts plus
the location of the `Total` row and the rewritten aggregate formulas. -/
theorem expandItemsTable_props (ws : Sheet) (t n : Nat) (out : Sheet)
    (h : expandItemsTable ws t n = Except.ok out)
    (hwf : wellFormedB ws = true) (ht : 1 ≤ t) (htb : t ≤ rowCount ws)
    (hmc : 1 ≤ maxColS ws) :
    ∃ tr, t + (n - 1) < tr ∧ tr ≤ rowCount ws + (n - 1) ∧
      (getCell ws (tr - (n - 1)) 1).v = PyVal.vStr "Total" ∧
      rowCount out = rowCount ws + (n - 1) ∧
      (∀ i c, 1 ≤ i → i ≤ n - 1 → 1 ≤ c → c ≤ maxColS ws →
        getCell out (t + i) c = Cell.mk PyVal.vNone (getCell ws t c).st) ∧
      (∀ i, 1 ≤ i → i ≤ n - 1 → ∀ h0, getHeightS ws t = some h0 →
        getHeightS out (t + i) = some h0) ∧
      (∀ r c, t < r → 1 ≤ c → ¬(r + (n - 1) = tr ∧ (c = 8 ∨ c = 10 ∨ c = 11)) →
        getCell out (r + (n - 1)) c = getCell ws r c) ∧
      (getCell out tr 8).v = PyVal.vStr (sumFormula "H" t (t + n - 1)) ∧
      (getCell out tr 10).v = PyVal.vStr (sumFormula "J" t (t + n - 1)) ∧
      (getCell out tr 11).v = PyVal.vStr (countFormula "K" t (t + n - 1)) ∧
      out.merges = ws.merges.filter (fun m => !decide (t < m.minRow))
        ++ (mergesToShift ws t).map (fun m => shiftRange m (n - 1)) := by
  obtain ⟨eR, eB, eH, eC, eA, eM⟩ := expandInvoiceItemsTable_props ws t n hwf ht htb
  have hdef : expandItemsTable ws t n
      = (match findTotalRow (expandInvoiceItemsTable ws t n) t with
        | none => Except.error "Total row not found"
        | some totalRow =>
          Except.ok (setCellV (setCellV (setCellV (expandInvoiceItemsTable ws t n)
            totalRow 8 (PyVal.vStr (sumFormula "H" t (t + n - 1))))
            totalRow 10 (PyVal.vStr (sumFormula "J" t (t + n - 1))))
            totalRow 11 (PyVal.vStr (countFormula "K" t (t + n - 1))))) := rfl
  rw [hdef] at h
  cases hfind : findTotalRow (expandInvoiceItemsTable ws t n) t with
  | none =>
    rw [hfind] at h
    cases h
  | some tr =>
    rw [hfind] at h
    cases h
    obtain ⟨htr1, htr2, htr3⟩ := findTotalRow_props (expandInvoiceItemsTable ws t n) t tr hfind
    have htrgt : t + (n - 1) < tr := by
      by_contra hcon
      push_neg at hcon
      have hi : tr = t + (tr - t) := by omega
      have hiB := eB (tr - t) 1 (by omega) (by omega) (by omega) hmc
      rw [hi] at htr3
      rw [hiB] at htr3
      cases htr3
    have htr2' : tr ≤ rowCount ws + (n - 1) := by
      rw [eR] at htr2
      exact htr2
    have htrsrc : (getCell ws (tr - (n - 1)) 1).v = PyVal.vStr "Total" := by
      have hsplit : tr = (tr - (n - 1)) + (n - 1) := by omega
      rw [hsplit] at htr3
      rw [eC (tr - (n - 1)) 1 (by omega) (by omega)] at htr3
      exact htr3
    have htrb : tr ≤ rowCount (expandInvoiceItemsTable ws t n) := by
      rw [eR]
      omega
    have htr0 : 1 ≤ tr := by omega
    refine ⟨tr, htrgt, htr2', htrsrc, ?_, ?_, ?_, ?_, ?_, ?_, ?_, ?_⟩
    · have h8 : rowCount (setCellV (expandInvoiceItemsTable ws t n)
          tr 8 (PyVal.vStr (sumFormula "H" t (t + n - 1)))) = rowCount ws + (n - 1) := by
        rw [rowCount_setCellV _ tr 8 _ htr0 htrb]
        exact eR
      have h10 : rowCount (setCellV (setCellV (expandInvoiceItemsTable ws t n)
          tr 8 (PyVal.vStr (sumFormula "H" t (t + n - 1))))
          tr 10 (PyVal.vStr (sumFormula "J" t (t + n - 1)))) = rowCount ws + (n - 1) := by
        rw [rowCount_setCellV _ tr 10 _ htr0 (by omega)]
        exact h8
      rw [rowCount_setCellV _ tr 11 _ htr0 (by omega)]
      exact h10
    · intro i c hi1 hi2 hc1 hc2
      have hrow : t + i ≠ tr := by omega
      rw [getCell_setCellV_other _ tr 11 (t + i) c _ htr0 (by omega) (by omega) hc1
          (Or.inl (fun hh => hrow hh.symm)),
        getCell_setCellV_other _ tr 10 (t + i) c _ htr0 (by omega) (by omega) hc1
          (Or.inl (fun hh => hrow hh.symm)),
        getCell_setCellV_other _ tr 8 (t + i) c _ htr0 (by omega) (by omega) hc1
          (Or.inl (fun hh => hrow hh.symm))]
      exact eB i c hi1 hi2 hc1 hc2
    · intro i hi1 hi2 h0 hh0
      have : getHeightS (setCellV (setCellV (setCellV (expandInvoiceItemsTable ws t n)
          tr 8 (PyVal.vStr (sumFormula "H" t (t + n - 1))))
          tr 10 (PyVal.vStr (sumFormula "J" t (t + n - 1))))
          tr 11 (PyVal.vStr (countFormula "K" t (t + n - 1)))) (t + i)
          = getHeightS (expandInvoiceItemsTable ws t n) (t + i) := rfl
      rw [this]
      exact eH i hi1 hi2 h0 hh0
    · intro r c hrt hc hguard
      push_neg at hguard
      by_cases hrow : r + (n - 1) = tr
      · have hcols := hguard hrow
        push_neg at hcols
        rw [getCell_setCellV_other _ tr 11 (r + (n - 1)) c _ htr0 (by omega) (by omega) hc
            (Or.inr (fun hh => hcols.2.2 hh.symm)),
          getCell_setCellV_other _ tr 10 (r + (n - 1)) c _ htr0 (by omega) (by omega) hc
            (Or.inr (fun hh => hcols.2.1 hh.symm)),
          getCell_setCellV_other _ tr 8 (r + (n - 1)) c _ htr0 (by omega) (by omega) hc
            (Or.inr (fun hh => hcols.1 hh.symm))]
        exact eC r c hrt hc
      · rw [getCell_setCellV_other _ tr 11 (r + (n - 1)) c _ htr0 (by omega) (by omega) hc
            (Or.inl (fun hh => hrow hh.symm)),
          getCell_setCellV_other _ tr 10 (r + (n - 1)) c _ htr0 (by omega) (by omega) hc
            (Or.inl (fun hh => hrow hh.symm)),
          getCell_setCellV_other _ tr 8 (r + (n - 1)) c _ htr0 (by omega) (by omega) hc
            (Or.inl (fun hh => hrow hh.symm))]
        exact eC r c hrt hc
    · rw [getCell_setCellV_other _ tr 11 tr 8 _ htr0 (by omega) htr0 (by omega)
          (Or.inr (by omega)),
        getCell_setCellV_other _ tr 10 tr 8 _ htr0 (by omega) htr0 (by omega)
          (Or.inr (by omega)),
        getCell_setCellV_self _ tr 8 _ htr0 (by omega)]
    · rw [getCell_setCellV_other _ tr 11 tr 10 _ htr0 (by omega) htr0 (by omega)
          (Or.inr (by omega)),
        getCell_setCellV_self _ tr 10 _ htr0 (by omega)]
    · rw [getCell_setCellV_self _ tr 11 _ htr0 (by omega)]
    · have hmg : (setCellV (setCellV (setCellV (expandInvoiceItemsTable ws t n)
          tr 8 (PyVal.vStr (sumFormula "H" t (t + n - 1))))
          tr 10 (PyVal.vStr (sumFormula "J" t (t + n - 1))))
          tr 11 (PyVal.vStr (countFormula "K" t (t + n - 1)))).merges
          = (expandInvoiceItemsTable ws t n).merges := rfl
      rw [hmg]
      exact eM

/-! ### Concrete fixtures used by the claim witnesses -/

def tagSW : List Char := "\x7b\x7bTableStart:X\x7d\x7d".data

def tagEW : List Char := "\x7b\x7bTableEnd:X\x7d\x7d".data

def wsW : Sheet := Sheet.mk
  [[Cell.mk (PyVal.vStr "Header") (some 1)],
   [Cell.mk (PyVal.vStr "\x7b\x7bTableStart:X\x7d\x7d\x7b\x7bName\x7d\x7d\x7b\x7bTableEnd:X\x7d\x7d") (some 2)],
   [Cell.mk (PyVal.vStr "Total") (some 3)]]
  [none, some 15, none]
  []

def dataW : List (List (String × PyVal)) :=
  [[("Name", PyVal.vStr "A")], [("Name", PyVal.vStr "B")]]

/-- C1: for a record set of size `n ≥ 1`, each of the three table
expanders grows the sheet by exactly `n - 1` rows inserted immediately
below the template row `t`; each inserted row `t + i` carries the template
row's per-column style and (when the template row has an explicit height)
its row height, and every row that was below the template row ends up
exactly `n - 1` rows further down — cell for cell, except for the three
aggregate-formula cells that `expand_items_table` rewrites in the shifted
`Total` row. -/
theorem C1_table_expansion (ws : Sheet) (t n : Nat)
    (tagS tagE : List Char) (data : List (List (String × PyVal)))
    (hwf : wellFormedB ws = true) (ht : 1 ≤ t) (htb : t ≤ rowCount ws)
    (hmc : 1 ≤ maxColS ws) (hn : 1 ≤ n)
    (hdata : data.length = n) (hfind : findTagRow ws tagS = some t) :
    (rowCount (expandInvoiceItemsTable ws t n) = rowCount ws + (n - 1) ∧
     (∀ i c, 1 ≤ i → i ≤ n - 1 → 1 ≤ c → c ≤ maxColS ws →
       (getCell (expandInvoiceItemsTable ws t n) (t + i) c).st = (getCell ws t c).st) ∧
     (∀ i, 1 ≤ i → i ≤ n - 1 → ∀ h0, getHeightS ws t = some h0 →
       getHeightS (expandInvoiceItemsTable ws t n) (t + i) = some h0) ∧
     (∀ r c, t < r → 1 ≤ c →
       getCell (expandInvoiceItemsTable ws t n) (r + (n - 1)) c = getCell ws r c)) ∧
    (∀ out, expandItemsTable ws t n = Except.ok out →
      ∃ tr, t + (n - 1) < tr ∧
        rowCount out = rowCount ws + (n - 1) ∧
        (∀ i c, 1 ≤ i → i ≤ n - 1 → 1 ≤ c → c ≤ maxColS ws →
          (getCell out (t + i) c).st = (getCell ws t c).st) ∧
        (∀ i, 1 ≤ i → i ≤ n - 1 → ∀ h0, getHeightS ws t = some h0 →
          getHeightS out (t + i) = some h0) ∧
        (∀ r c, t < r → 1 ≤ c → ¬(r + (n - 1) = tr ∧ (c = 8 ∨ c = 10 ∨ c = 11)) →
          getCell out (r + (n - 1)) c = getCell ws r c)) ∧
    (rowCount (expandTableByTag ws tagS tagE data).2 = rowCount ws + (n - 1) ∧
     (∀ i c, 1 ≤ i → i ≤ n - 1 → 1 ≤ c → c ≤ maxColS ws →
       (getCell (expandTableByTag ws tagS tagE data).2 (t + i) c).st = (getCell ws t c).st) ∧
     (∀ i, 1 ≤ i → i ≤ n - 1 → ∀ h0, getHeightS ws t = some h0 →
       getHeightS (expandTableByTag ws tagS tagE data).2 (t + i) = some h0) ∧
     (∀ r c, t < r → 1 ≤ c →
       getCell (expandTableByTag ws tagS tagE data).2 (r + (n - 1)) c = getCell ws r c)) := by
  obtain ⟨eR, eB, eH, eC, eA, eM⟩ := expandInvoiceItemsTable_props ws t n hwf ht htb
  have hne : data ≠ [] := by
    intro hcon
    rw [hcon] at hdata
    simp at hdata
    omega
  obtain ⟨bF, bR, bT, bH, bS, bM⟩ :=
    expandTableByTag_expand_props ws tagS tagE data t hfind hne hwf
  rw [hdata] at bR bT bH bS
  refine ⟨⟨eR, ?_, eH, eC⟩, ?_, bR, bT, bH, bS⟩
  · intro i c hi1 hi2 hc1 hc2
    rw [eB i c hi1 hi2 hc1 hc2]
  · intro out hout
    obtain ⟨tr, p1, _, _, p4, p5, p6, p7, _⟩ :=
      expandItemsTable_props ws t n out hout hwf ht htb hmc
    refine ⟨tr, p1, p4, ?_, p6, p7⟩
    intro i c hi1 hi2 hc1 hc2
    rw [p5 i c hi1 hi2 hc1 hc2]

/-- Witness for C1 at a concrete three-row sheet with a two-record data
set: the hypotheses hold by evaluation and the invoice-items expander
grows the sheet by one row. -/
theorem C1_table_expansion_witness :
    wellFormedB wsW = true ∧
    findTagRow wsW tagSW = some 2 ∧
    rowCount (expandInvoiceItemsTable wsW 2 2) = rowCount wsW + (2 - 1) :=
  ⟨by decide, by decide,
    (C1_table_expansion wsW 2 2 tagSW tagEW dataW (by decide) (by decide) (by decide)
      (by decide) (by decide) rfl (by decide)).1.1⟩

def wsM : Sheet := Sheet.mk
  [[Cell.mk (PyVal.vStr "Header") none],
   [Cell.mk (PyVal.vStr "T") none],
   [Cell.mk (PyVal.vStr "Footer") none, Cell.mk PyVal.vNone none]]
  [none, none, none]
  [MRange.mk 3 3 1 2]

/-- C2: every merged range lying strictly below the template row survives
table expansion shifted down by exactly `k = n - 1` in both of its row
bounds, with its columns — and hence also its row span — unchanged; for
`n = 1` the remove/re-add round trip leaves the merge list a permutation
of the original.  `expand_items_table` keeps exactly the merge list of the
shared expansion pipeline. -/
theorem C2_merge_shift (ws : Sheet) (t n : Nat)
    (hwf : wellFormedB ws = true) (ht : 1 ≤ t) (htb : t ≤ rowCount ws) :
    (∀ m ∈ ws.merges, t < m.minRow →
      shiftRange m (n - 1) ∈ (expandInvoiceItemsTable ws t n).merges ∧
      (shiftRange m (n - 1)).minRow = m.minRow + (n - 1) ∧
      (shiftRange m (n - 1)).maxRow = m.maxRow + (n - 1) ∧
      (shiftRange m (n - 1)).minCol = m.minCol ∧
      (shiftRange m (n - 1)).maxCol = m.maxCol ∧
      (shiftRange m (n - 1)).maxRow - (shiftRange m (n - 1)).minRow
        = m.maxRow - m.minRow) ∧
    (n = 1 → ((expandInvoiceItemsTable ws t n).merges).Perm ws.merges) ∧
    (∀ out, expandItemsTable ws t n = Except.ok out →
      out.merges = (expandInvoiceItemsTable ws t n).merges) ∧
    (∀ tagS tagE data, findTagRow ws tagS = some t → data ≠ [] →
      ∀ m ∈ ws.merges, t < m.minRow →
        shiftRange m (data.length - 1) ∈ (expandTableByTag ws tagS tagE data).2.merges) := by
  obtain ⟨eR, eB, eH, eC, eA, eM⟩ := expandInvoiceItemsTable_props ws t n hwf ht htb
  refine ⟨?_, ?_, ?_, ?_⟩
  · intro m hm hmt
    refine ⟨?_, rfl, rfl, rfl, rfl, by simp only [shiftRange]; omega⟩
    rw [eM]
    apply List.mem_append_right
    apply List.mem_map_of_mem
    simp only [mergesToShift, List.mem_filter, decide_eq_true_eq]
    exact ⟨hm, hmt⟩
  · intro h1
    subst h1
    rw [eM]
    have hz : (fun m => shiftRange m (1 - 1)) = (fun m : MRange => m) := by
      funext m
      rfl
    simp only [mergesToShift, hz, List.map_id']
    have hperm := List.filter_append_perm (fun m => !decide (t < m.minRow)) ws.merges
    have hnn : (fun m : MRange => !!decide (t < m.minRow))
        = (fun m : MRange => decide (t < m.minRow)) := by
      funext m
      rw [Bool.not_not]
    rw [hnn] at hperm
    exact hperm
  · intro out hout
    have hdef : expandItemsTable ws t n
        = (match findTotalRow (expandInvoiceItemsTable ws t n) t with
          | none => Except.error "Total row not found"
          | some totalRow =>
            Except.ok (setCellV (setCellV (setCellV (expandInvoiceItemsTable ws t n)
              totalRow 8 (PyVal.vStr (sumFormula "H" t (t + n - 1))))
              totalRow 10 (PyVal.vStr (sumFormula "J" t (t + n - 1))))
              totalRow 11 (PyVal.vStr (countFormula "K" t (t + n - 1))))) := rfl
    rw [hdef] at hout
    cases hfind2 : findTotalRow (expandInvoiceItemsTable ws t n) t with
    | none =>
      rw [hfind2] at hout
      cases hout
    | some tr =>
      rw [hfind2] at hout
      cases hout
      rfl
  · intro tagS tagE data hfind hne m hm hmt
    obtain ⟨_, _, _, _, _, bM⟩ :=
      expandTableByTag_expand_props ws tagS tagE data t hfind hne hwf
    rw [bM]
    apply List.mem_append_right
    apply List.mem_map_of_mem
    simp only [mergesToShift, List.mem_filter, decide_eq_true_eq]
    exact ⟨hm, hmt⟩

/-- Witness for C2 on a concrete sheet with one merged range below the
template row: expanding by one row carries the `3:3` merge to `4:4` with
its columns intact. -/
theorem C2_merge_shift_witness :
    wellFormedB wsM = true ∧
    MRange.mk 3 3 1 2 ∈ wsM.merges ∧ 2 < (MRange.mk 3 3 1 2).minRow ∧
    shiftRange (MRange.mk 3 3 1 2) (2 - 1) ∈ (expandInvoiceItemsTable wsM 2 2).merges :=
  ⟨by decide, by decide, by decide,
    ((C2_merge_shift wsM 2 2 (by decide) (by decide) (by decide)).1
      (MRange.mk 3 3 1 2) (by decide) (by decide)).1⟩

theorem findPackingAux_none (tag : List Char) (r0 : Nat) (rows : List (List Cell))
    (h : ∀ row ∈ rows, (row.take 13).all (fun cl => !cellHasTagPacking cl tag) = true) :
    findPackingAux tag r0 rows = none := by
  induction rows generalizing r0 with
  | nil => rfl
  | cons row rest ih =>
    have hrow : (row.take 13).any (fun cl => cellHasTagPacking cl tag) = false := by
      have := h row (by simp)
      simp only [List.all_eq_true] at this
      simp only [List.any_eq_false]
      intro cl hcl
      have := this cl hcl
      simp at this
      simp [this]
    simp only [findPackingAux, hrow, Bool.false_eq_true, if_neg, not_false_iff]
    exact ih (r0 + 1) (fun row hr => h row (by simp [hr]))

theorem findInvoiceAux_none (tag : List Char) (r0 : Nat) (rows : List (List Cell))
    (h : ∀ row ∈ rows, row.all (fun cl => !cellHasTagStrict cl tag) = true) :
    findInvoiceAux tag r0 rows = none := by
  induction rows generalizing r0 with
  | nil => rfl
  | cons row rest ih =>
    have hrow : row.any (fun cl => cellHasTagStrict cl tag) = false := by
      have := h row (by simp)
      simp only [List.all_eq_true] at this
      simp only [List.any_eq_false]
      intro cl hcl
      have := this cl hcl
      simp at this
      simp [this]
    simp only [findInvoiceAux, hrow, Bool.false_eq_true, if_neg, not_false_iff]
    exact ih (r0 + 1) (fun row hr => h row (by simp [hr]))

/-- A one-row template that carries no table-start marker of any kind. -/
def wsQ : Sheet := Sheet.mk
  [[Cell.mk (PyVal.vStr "Quote for \x7b\x7bName\x7d\x7d") none]]
  [none]
  []

/-- C3 counterexample: on a template without the quote line-items start
marker, the quote generator does not abort — `expand_table_by_tag` merely
reports `None` — and a complete document is still produced (here: the
sheet after the main fill, returned untouched by the expander). -/
theorem C3_missing_marker_counterexample :
    noCellHasTag wsQ quoteStartTag = true ∧
    quoteGenerateDoc wsQ [("Name", PyVal.vStr "Acme")] [[("X", PyVal.vInt 1)]]
      = Except.ok (quoteMainFill wsQ [("Name", PyVal.vStr "Acme")]) := by
  constructor
  · decide
  · rfl

/-- C3 (amended): when the table start marker is absent the behaviour
depends on the generator.  The packing-list and invoice searches do abort
with a "marker not found" `ValueError`; but `expand_table_by_tag` — and
with it the quote, PI and PO generators — only prints a warning, returns
`None` and leaves the sheet untouched, so the quote generator still
returns a complete document. -/
theorem C3_missing_marker (ws : Sheet) (tagS tagE : List Char)
    (data : List (List (String × PyVal))) (fullData : List (String × PyVal))
    (quoteItems : List (List (String × PyVal))) :
    (noCellHasTagPacking ws = true →
      findPackingTableStart ws
        = Except.error "No table start marker found in template") ∧
    (noCellHasTagStrict ws containerItemsTag = true →
      findInvoiceTableStart ws
        = Except.error "No ContainerItems table start marker found in template") ∧
    (noCellHasTag ws tagS = true →
      expandTableByTag ws tagS tagE data = (none, ws)) ∧
    (noCellHasTag (quoteMainFill ws fullData) quoteStartTag = true →
      quoteGenerateDoc ws fullData quoteItems
        = Except.ok (quoteMainFill ws fullData)) := by
  refine ⟨?_, ?_, ?_, ?_⟩
  · intro h
    simp only [noCellHasTagPacking, List.all_eq_true] at h
    have haux : findPackingAux containerItemsTag 1 ws.cells = none :=
      findPackingAux_none containerItemsTag 1 ws.cells (fun row hr => by
        simp only [List.all_eq_true]
        exact fun cl hcl => h row hr cl hcl)
    simp only [findPackingTableStart, haux]
  · intro h
    simp only [noCellHasTagStrict, List.all_eq_true] at h
    have haux : findInvoiceAux containerItemsTag 1 ws.cells = none :=
      findInvoiceAux_none containerItemsTag 1 ws.cells (fun row hr => by
        simp only [List.all_eq_true]
        exact fun cl hcl => h row hr cl hcl)
    simp only [findInvoiceTableStart, haux]
  · intro h
    simp only [expandTableByTag, findTagRow_of_noCell ws tagS h]
  · intro h
    simp only [quoteGenerateDoc, expandTableByTag,
      findTagRow_of_noCell (quoteMainFill ws fullData) quoteStartTag h]

/-- Witness for C3 on the concrete marker-less template: the packing-list
search does raise its marker error there. -/
theorem C3_missing_marker_witness :
    noCellHasTagPacking wsQ = true ∧
    findPackingTableStart wsQ
      = Except.error "No table start marker found in template" :=
  ⟨by decide,
    (C3_missing_marker wsQ quoteStartTag quoteEndTag [] [] []).1 (by decide)⟩

/-- Named form of the per-cell body of the empty-data strip loop of
`expand_table_by_tag` (src/main.py lines 1380-1390). -/
def stripCellStep (t : Nat) (tagS tagE : List Char) (ws1 : Sheet) (c : Nat) : Sheet :=
  match (getCell ws1 t c).v with
  | PyVal.vStr s0 =>
    if s0.isEmpty then ws1
    else setCellV ws1 t c (PyVal.vStr (String.mk (stripTagsCellText tagS tagE s0.data)))
  | _ => ws1

theorem stripTableRow_eq_fold (ws : Sheet) (t : Nat) (tagS tagE : List Char) :
    stripTableRow ws t tagS tagE
      = (rangeList 1 (maxColS ws)).foldl (stripCellStep t tagS tagE) ws := rfl

theorem stripCellStep_props (t : Nat) (tagS tagE : List Char) (ws : Sheet) (c : Nat)
    (ht : 1 ≤ t) (hc : 1 ≤ c) :
    (∀ r' c', 1 ≤ r' → 1 ≤ c' → (r' ≠ t ∨ c' ≠ c) →
      getCell (stripCellStep t tagS tagE ws c) r' c' = getCell ws r' c') ∧
    (∀ s0 : String, (getCell ws t c).v = PyVal.vStr s0 → s0.isEmpty = false →
      getCell (stripCellStep t tagS tagE ws c) t c
        = Cell.mk (PyVal.vStr (String.mk (stripTagsCellText tagS tagE s0.data)))
            (getCell ws t c).st) ∧
    (stripCellStep t tagS tagE ws c).heights = ws.heights ∧
    (stripCellStep t tagS tagE ws c).merges = ws.merges ∧
    (t ≤ rowCount ws → rowCount (stripCellStep t tagS tagE ws c) = rowCount ws) := by
  cases hv : (getCell ws t c).v with
  | vStr s0 =>
    by_cases he : s0.isEmpty
    · have hstep : stripCellStep t tagS tagE ws c = ws := by
        simp only [stripCellStep, hv, if_pos he]
      rw [hstep]
      refine ⟨fun _ _ _ _ _ => rfl, ?_, rfl, rfl, fun _ => rfl⟩
      intro s1 hs1 hs1e
      have h12 : s0 = s1 := by injection hs1
      subst h12
      rw [he] at hs1e
      cases hs1e
    · have hstep : stripCellStep t tagS tagE ws c
          = setCellV ws t c
              (PyVal.vStr (String.mk (stripTagsCellText tagS tagE s0.data))) := by
        simp only [stripCellStep, hv, if_neg he]
      rw [hstep]
      refine ⟨?_, ?_, rfl, rfl, ?_⟩
      · intro r' c' hr' hc' hne
        apply getCell_setCellV_other ws t c r' c' _ ht hc hr' hc'
        rcases hne with h | h
        · exact Or.inl (fun hh => h hh.symm)
        · exact Or.inr (fun hh => h hh.symm)
      · intro s1 hs1 _
        have h12 : s0 = s1 := by injection hs1
        subst h12
        rw [getCell_setCellV_self ws t c _ ht hc]
      · intro hle
        simp only [setCellV]
        exact rowCount_modifyCell ws t c _ ht hle
  | vNone =>
    have hstep : stripCellStep t tagS tagE ws c = ws := by
      simp only [stripCellStep, hv]
    rw [hstep]
    refine ⟨fun _ _ _ _ _ => rfl, ?_, rfl, rfl, fun _ => rfl⟩
    intro s1 hs1 hs1e
    cases hs1
  | vInt n =>
    have hstep : stripCellStep t tagS tagE ws c = ws := by
      simp only [stripCellStep, hv]
    rw [hstep]
    refine ⟨fun _ _ _ _ _ => rfl, ?_, rfl, rfl, fun _ => rfl⟩
    intro s1 hs1 hs1e
    cases hs1
  | vDec m e =>
    have hstep : stripCellStep t tagS tagE ws c = ws := by
      simp only [stripCellStep, hv]
    rw [hstep]
    refine ⟨fun _ _ _ _ _ => rfl, ?_, rfl, rfl, fun _ => rfl⟩
    intro s1 hs1 hs1e
    cases hs1

theorem foldCols_strip (t : Nat) (tagS tagE : List Char) (ht : 1 ≤ t) :
    ∀ (cols : List Nat) (s : Sheet), (∀ c ∈ cols, 1 ≤ c) → cols.Nodup →
    (∀ r' c', 1 ≤ r' → 1 ≤ c' → (r' ≠ t ∨ c' ∉ cols) →
      getCell (cols.foldl (stripCellStep t tagS tagE) s) r' c' = getCell s r' c') ∧
    (∀ c ∈ cols, ∀ s0 : String, (getCell s t c).v = PyVal.vStr s0 → s0.isEmpty = false →
      getCell (cols.foldl (stripCellStep t tagS tagE) s) t c
        = Cell.mk (PyVal.vStr (String.mk (stripTagsCellText tagS tagE s0.data)))
            (getCell s t c).st) ∧
    (cols.foldl (stripCellStep t tagS tagE) s).heights = s.heights ∧
    (cols.foldl (stripCellStep t tagS tagE) s).merges = s.merges ∧
    (t ≤ rowCount s → rowCount (cols.foldl (stripCellStep t tagS tagE) s) = rowCount s) := by
  intro cols
  induction cols with
  | nil =>
    intro s _ _
    exact ⟨fun _ _ _ _ _ => rfl, fun c hc => absurd hc (List.not_mem_nil c), rfl, rfl,
      fun _ => rfl⟩
  | cons c cols ih =>
    intro s hcols hnd
    have hc1 : 1 ≤ c := hcols c (by simp)
    have hnd' : cols.Nodup := (List.nodup_cons.mp hnd).2
    have hcmem : c ∉ cols := (List.nodup_cons.mp hnd).1
    simp only [List.foldl_cons]
    obtain ⟨sU, sT, sH, sM, sR⟩ := stripCellStep_props t tagS tagE s c ht hc1
    obtain ⟨ihU, ihT, ihH, ihM, ihR⟩ :=
      ih (stripCellStep t tagS tagE s c) (fun x hx => hcols x (by simp [hx])) hnd'
    refine ⟨?_, ?_, ?_, ?_, ?_⟩
    · intro r' c' hr' hc' hcase
      rcases hcase with h | h
      · rw [ihU r' c' hr' hc' (Or.inl h)]
        exact sU r' c' hr' hc' (Or.inl h)
      · have h1 : c' ∉ cols := fun hm => h (by simp [hm])
        have h2 : c' ≠ c := fun hm => h (by simp [hm])
        rw [ihU r' c' hr' hc' (Or.inr h1)]
        exact sU r' c' hr' hc' (Or.inr h2)
    · intro c0 hc0 s0 hs0 hs0e
      rcases List.mem_cons.mp hc0 with rfl | hc0mem
      · rw [ihU t c0 ht hc1 (Or.inr hcmem)]
        exact sT s0 hs0 hs0e
      · have hc01 : 1 ≤ c0 := hcols c0 (by simp [hc0mem])
        have hcc0 : c ≠ c0 := fun hh => hcmem (hh ▸ hc0mem)
        rw [ihT c0 hc0mem s0 (by
            rw [sU t c0 ht hc01 (Or.inr (fun hh => hcc0 hh.symm))]
            exact hs0) hs0e,
          sU t c0 ht hc01 (Or.inr (fun hh => hcc0 hh.symm))]
    · rw [ihH, sH]
    · rw [ihM, sM]
    · intro hle
      rw [ihR (by rw [sR hle]; exact hle), sR hle]

/-- A lone leftover placeholder token is erased entirely by the
`re.sub` cleanup, provided its body has no closing brace and no newline. -/
theorem pySubTokens_single (a : List Char)
    (ha : ∀ c ∈ a, c ≠ braceC ∧ c ≠ nlChar) :
    pySubTokens (obrace2 ++ a ++ cbrace2) = [] := by
  have hseek : seekStop cbrace2 (a ++ cbrace2) = some (a, []) := by
    have := seekStop_concat braceC [braceC] a [] ha
    simpa [cbrace2] using this
  have hshape : obrace2 ++ a ++ cbrace2 = braceO :: braceO :: (a ++ cbrace2) := by
    simp [obrace2]
  have hlen : (obrace2 ++ a ++ cbrace2).length + 1 = a.length + 5 := by
    simp [obrace2, cbrace2]
  show subTokensF ((obrace2 ++ a ++ cbrace2).length + 1) (obrace2 ++ a ++ cbrace2) = []
  rw [hlen, hshape]
  have hpre : hasPrefixL obrace2 (braceO :: braceO :: (a ++ cbrace2)) = true := by
    have := hasPrefixL_append obrace2 (a ++ cbrace2)
    simpa [obrace2] using this
  have hdrop : List.drop 1 (braceO :: (a ++ cbrace2)) = a ++ cbrace2 := rfl
  show subTokensF (a.length + 4 + 1) (braceO :: (braceO :: (a ++ cbrace2))) = []
  simp only [subTokensF, hpre, if_pos, hdrop, hseek]

theorem stripTableRow_props (ws : Sheet) (t : Nat) (tagS tagE : List Char)
    (ht : 1 ≤ t) (htb : t ≤ rowCount ws) :
    rowCount (stripTableRow ws t tagS tagE) = rowCount ws ∧
    (stripTableRow ws t tagS tagE).heights = ws.heights ∧
    (stripTableRow ws t tagS tagE).merges = ws.merges ∧
    (∀ r c, 1 ≤ r → 1 ≤ c → r ≠ t →
      getCell (stripTableRow ws t tagS tagE) r c = getCell ws r c) ∧
    (∀ c, 1 ≤ c → c ≤ maxColS ws → ∀ s0 : String,
      (getCell ws t c).v = PyVal.vStr s0 → s0.isEmpty = false →
      getCell (stripTableRow ws t tagS tagE) t c
        = Cell.mk (PyVal.vStr (String.mk (stripTagsCellText tagS tagE s0.data)))
            (getCell ws t c).st) := by
  rw [stripTableRow_eq_fold]
  obtain ⟨fU, fT, fH, fM, fR⟩ := foldCols_strip t tagS tagE ht (rangeList 1 (maxColS ws)) ws
    (fun c hc => (mem_rangeList hc).1) (rangeList_nodup 1 (maxColS ws))
  refine ⟨fR htb, fH, fM, ?_, ?_⟩
  · intro r c hr hc hrt
    exact fU r c hr hc (Or.inl hrt)
  · intro c hc1 hc2 s0 hs0 hs0e
    exact fT c (rangeList_mem hc1 hc2) s0 hs0 hs0e

/-- C4: when the record set is empty, `expand_table_by_tag` inserts no
rows — row count, heights and merges are untouched and every other row is
left cell-for-cell intact — and collapses the template row in place: each
of its non-empty string cells has the start/end tag markers removed and
every leftover `\x7b\x7b...\x7d\x7d` token erased by the `re.sub` pass;
the function returns the template row's index. -/
theorem C4_empty_collapse (ws : Sheet) (tagS tagE : List Char) (t : Nat)
    (hfind : findTagRow ws tagS = some t) :
    expandTableByTag ws tagS tagE [] = (some t, stripTableRow ws t tagS tagE) ∧
    rowCount (stripTableRow ws t tagS tagE) = rowCount ws ∧
    (stripTableRow ws t tagS tagE).heights = ws.heights ∧
    (stripTableRow ws t tagS tagE).merges = ws.merges ∧
    (∀ r c, 1 ≤ r → 1 ≤ c → r ≠ t →
      getCell (stripTableRow ws t tagS tagE) r c = getCell ws r c) ∧
    (∀ c, 1 ≤ c → c ≤ maxColS ws → ∀ s0 : String,
      (getCell ws t c).v = PyVal.vStr s0 → s0.isEmpty = false →
      getCell (stripTableRow ws t tagS tagE) t c
        = Cell.mk (PyVal.vStr (String.mk (pySubTokens
            (listReplace (listReplace s0.data tagS []) tagE []))))
            (getCell ws t c).st) ∧
    (∀ a : List Char, (∀ ch ∈ a, ch ≠ braceC ∧ ch ≠ nlChar) →
      pySubTokens (obrace2 ++ a ++ cbrace2) = []) := by
  obtain ⟨ht, htb⟩ := findTagRow_bounds ws tagS t hfind
  obtain ⟨pR, pH, pM, pU, pT⟩ := stripTableRow_props ws t tagS tagE ht htb
  refine ⟨?_, pR, pH, pM, pU, pT, pySubTokens_single⟩
  simp only [expandTableByTag, hfind, List.isEmpty_nil, if_pos]

/-- Witness for C4 on the concrete template `wsW`: the empty-data call
returns the tag row index 2 and leaves the row count at 3. -/
theorem C4_empty_collapse_witness :
    findTagRow wsW tagSW = some 2 ∧
    expandTableByTag wsW tagSW tagEW [] = (some 2, stripTableRow wsW 2 tagSW tagEW) ∧
    rowCount (stripTableRow wsW 2 tagSW tagEW) = rowCount wsW :=
  ⟨by decide, (C4_empty_collapse wsW tagSW tagEW 2 (by decide)).1,
    (C4_empty_collapse wsW tagSW tagEW 2 (by decide)).2.1⟩

theorem digitChar_isDigit (d : Nat) (h : d < 10) : (digitChar d).isDigit = true := by
  interval_cases d <;> decide

/-- `"\x7b:,.2f\x7d".format` output always ends in a dot followed by
exactly two digits. -/
theorem fmtCents_shape (c : Int) :
    ∃ l d1 d2, (fmtCents c).data = l ++ ['.', d1, d2] ∧
      d1.isDigit = true ∧ d2.isDigit = true := by
  refine ⟨(if c < 0 then "-" else "").data ++ groupDigits (natDigits (c.natAbs / 100)),
    digitChar (c.natAbs % 100 / 10), digitChar (c.natAbs % 10), ?_, ?_, ?_⟩
  · simp only [fmtCents, String.data_append]
    simp [List.append_assoc]
  · exact digitChar_isDigit _ (by omega)
  · exact digitChar_isDigit _ (by omega)

/-- C5 counterexample: the invoice header pass substitutes the
`\# #,##0.##` subtotal placeholder with plain `str(value)` — the numeric
subtotal `1234.5` becomes `"1234.5"`, not the claimed two-decimal
comma-grouped rendering `"1,234.50"` — and an absent subtotal is
substituted with `"0"`, not the claimed empty string. -/
theorem C5_format_counterexample :
    applyReplacements (invoiceReplacements [("Subtotal_USD__c", PyVal.vDec 12345 1)] [])
      subtotalPlaceholder.data = (pyStr (PyVal.vDec 12345 1)).data ∧
    (pyStr (PyVal.vDec 12345 1)).data ≠ (formatComma2 (PyVal.vDec 12345 1)).data ∧
    formatComma2 (PyVal.vDec 12345 1) = "1,234.50" ∧
    applyReplacements (invoiceReplacements [] []) subtotalPlaceholder.data = ['0'] :=
  ⟨by decide, by decide, by decide, by decide⟩

/-- C5 (amended): the PI/PO general replacement does implement the claim —
a numeric value under a format containing `#,##0.##` is rendered by
`"\x7b:,.2f\x7d".format` (two decimal places, thousands separators) and
`None` renders as the empty string regardless of format — but the invoice
header pass substitutes its `\# #,##0.##` placeholders with plain
`str(value)`, and its values are fetched with `or 0`, so an absent value
substitutes `"0"`, not the empty string. -/
theorem C5_format_substitution (fmt : List Char) (n m : Int) (e : Nat)
    (hfmt : hasSubL fmtMarker fmt = true) :
    fmtReplacement (PyVal.vInt n) fmt = (formatComma2 (PyVal.vInt n)).data ∧
    fmtReplacement (PyVal.vDec m e) fmt = (formatComma2 (PyVal.vDec m e)).data ∧
    fmtReplacement PyVal.vNone fmt = [] ∧
    (∃ l d1 d2, (formatComma2 (PyVal.vDec m e)).data = l ++ ['.', d1, d2] ∧
      d1.isDigit = true ∧ d2.isDigit = true) ∧
    applyReplacements (invoiceReplacements [("Subtotal_USD__c", PyVal.vDec 12345 1)] [])
      subtotalPlaceholder.data = (pyStr (PyVal.vDec 12345 1)).data ∧
    applyReplacements (invoiceReplacements [] []) subtotalPlaceholder.data = ['0'] := by
  refine ⟨?_, ?_, rfl, fmtCents_shape (roundHalfEvenCents m e), by decide, by decide⟩
  · simp only [fmtReplacement, hfmt, if_pos]
  · simp only [fmtReplacement, hfmt, if_pos]

/-- Witness for C5: the format marker itself contains `#,##0.##`, and the
integer 2 under it renders as the `\x7b:,.2f\x7d` text `"2.00"`. -/
theorem C5_format_substitution_witness :
    hasSubL fmtMarker fmtMarker = true ∧
    fmtReplacement (PyVal.vInt 2) fmtMarker = (formatComma2 (PyVal.vInt 2)).data :=
  ⟨by decide, (C5_format_substitution fmtMarker 2 0 0 (by decide)).1⟩

theorem takeWhile_append_all {α : Type} (p : α → Bool) (l r : List α)
    (h : ∀ c ∈ l, p c = true) :
    (l ++ r).takeWhile p = l ++ r.takeWhile p := by
  induction l with
  | nil => rfl
  | cons x xs ih =>
    have hx : p x = true := h x (by simp)
    simp only [List.cons_append, List.takeWhile_cons, hx, if_pos]
    rw [ih (fun c hc => h c (by simp [hc]))]

theorem dropWhile_append_all_pos {α : Type} (p : α → Bool) (l r : List α)
    (h : ∀ c ∈ l, p c = true) :
    (l ++ r).dropWhile p = r.dropWhile p := by
  induction l with
  | nil => rfl
  | cons x xs ih =>
    have hx : p x = true := h x (by simp)
    simp only [List.cons_append, List.dropWhile_cons, hx, if_pos]
    exact ih (fun c hc => h c (by simp [hc]))

theorem takeWhile_cons_false {α : Type} (p : α → Bool) (x : α) (xs : List α)
    (h : p x = false) : (x :: xs).takeWhile p = [] := by
  simp [List.takeWhile_cons, h]

theorem dropWhile_cons_false {α : Type} (p : α → Bool) (x : α) (xs : List α)
    (h : p x = false) : (x :: xs).dropWhile p = x :: xs := by
  simp [List.dropWhile_cons, h]

theorem isWordDot_not_ws (c : Char) (h : isWordDot c = true) : isPyWs c = false := by
  by_contra hc
  rw [Bool.not_eq_false] at hc
  simp only [isPyWs, Bool.or_eq_true, decide_eq_true_eq] at hc
  have hcv : c = ' ' ∨ c = Char.ofNat 9 ∨ c = Char.ofNat 10 ∨ c = Char.ofNat 11 ∨
      c = Char.ofNat 12 ∨ c = Char.ofNat 13 := by
    rcases hc with ((((h0 | h0) | h0) | h0) | h0) | h0
    · exact Or.inl h0
    · refine Or.inr (Or.inl ?_)
      apply Char.ext
      apply UInt32.toNat.inj
      simpa [Char.toNat, Char.ofNat, UInt32.toNat_ofNat] using h0
    · refine Or.inr (Or.inr (Or.inl ?_))
      apply Char.ext
      apply UInt32.toNat.inj
      simpa [Char.toNat, Char.ofNat, UInt32.toNat_ofNat] using h0
    · refine Or.inr (Or.inr (Or.inr (Or.inl ?_)))
      apply Char.ext
      apply UInt32.toNat.inj
      simpa [Char.toNat, Char.ofNat, UInt32.toNat_ofNat] using h0
    · refine Or.inr (Or.inr (Or.inr (Or.inr (Or.inl ?_))))
      apply Char.ext
      apply UInt32.toNat.inj
      simpa [Char.toNat, Char.ofNat, UInt32.toNat_ofNat] using h0
    · refine Or.inr (Or.inr (Or.inr (Or.inr (Or.inr ?_))))
      apply Char.ext
      apply UInt32.toNat.inj
      simpa [Char.toNat, Char.ofNat, UInt32.toNat_ofNat] using h0
  rcases hcv with rfl | rfl | rfl | rfl | rfl | rfl <;> simp [isWordDot] at h

theorem dropExpect_append (pat r : List Char) : dropExpect pat (pat ++ r) = some r := by
  simp [dropExpect, hasPrefixL_append, List.drop_left]

theorem takeWs1_space (rest : List Char) :
    takeWs1 (' ' :: rest) = some (rest.dropWhile isPyWs) := by
  have hws : isPyWs ' ' = true := by decide
  simp [takeWs1, List.takeWhile_cons, List.dropWhile_cons, hws]

theorem optSomeBind {α β : Type} (a : α) (f : α → Option β) :
    Option.bind (some a) f = f a := rfl

theorem matchIfAt_build (g : IfMatch)
    (hK : g.key ≠ []) (hKw : ∀ c ∈ g.key, isWordDot c = true)
    (hL : g.lit ≠ []) (hLa : ∀ c ∈ g.lit, c ≠ apos)
    (hT : ∀ c ∈ g.tTrue, c ≠ braceO ∧ c ≠ nlChar)
    (hF : ∀ c ∈ g.tFalse, c ≠ braceO ∧ c ≠ nlChar) :
    matchIfAt (buildIfBlock g) = some (g, []) := by
  have hKe : g.key.isEmpty = false := by
    cases hk : g.key with
    | nil => exact absurd hk hK
    | cons a l => rfl
  have hLe : g.lit.isEmpty = false := by
    cases hl : g.lit with
    | nil => exact absurd hl hL
    | cons a l => rfl
  have hblock : buildIfBlock g
      = ifOpenTok ++ (' ' :: (g.key ++ (' ' :: (eqTok ++ (' ' :: (apos :: (g.lit ++
          (litCloseTok ++ (g.tTrue ++ (elseTok ++ (g.tFalse ++ endifTok))))))))))) := by
    simp [buildIfBlock, List.append_assoc]
  have hkd : List.dropWhile isPyWs (g.key ++ (' ' :: (eqTok ++ (' ' :: (apos :: (g.lit ++
      (litCloseTok ++ (g.tTrue ++ (elseTok ++ (g.tFalse ++ endifTok)))))))))) 
      = g.key ++ (' ' :: (eqTok ++ (' ' :: (apos :: (g.lit ++
        (litCloseTok ++ (g.tTrue ++ (elseTok ++ (g.tFalse ++ endifTok))))))))) := by
    cases hk : g.key with
    | nil => exact absurd hk hK
    | cons k0 ks =>
      simp only [List.cons_append]
      exact dropWhile_cons_false isPyWs k0 _
        (isWordDot_not_ws k0 (hKw k0 (by rw [hk]; simp)))
  have htk : List.takeWhile isWordDot (g.key ++ (' ' :: (eqTok ++ (' ' :: (apos :: (g.lit ++
      (litCloseTok ++ (g.tTrue ++ (elseTok ++ (g.tFalse ++ endifTok))))))))))
      = g.key := by
    rw [takeWhile_append_all isWordDot g.key _ hKw,
      takeWhile_cons_false isWordDot ' ' _ (by decide)]
    simp
  have hdk : List.dropWhile isWordDot (g.key ++ (' ' :: (eqTok ++ (' ' :: (apos :: (g.lit ++
      (litCloseTok ++ (g.tTrue ++ (elseTok ++ (g.tFalse ++ endifTok))))))))))
      = ' ' :: (eqTok ++ (' ' :: (apos :: (g.lit ++
        (litCloseTok ++ (g.tTrue ++ (elseTok ++ (g.tFalse ++ endifTok)))))))) := by
    rw [dropWhile_append_all_pos isWordDot g.key _ hKw,
      dropWhile_cons_false isWordDot ' ' _ (by decide)]
  have heqd : List.dropWhile isPyWs (eqTok ++ (' ' :: (apos :: (g.lit ++
      (litCloseTok ++ (g.tTrue ++ (elseTok ++ (g.tFalse ++ endifTok))))))))
      = eqTok ++ (' ' :: (apos :: (g.lit ++
        (litCloseTok ++ (g.tTrue ++ (elseTok ++ (g.tFalse ++ endifTok))))))) := by
    show List.dropWhile isPyWs (apos :: (['=', '=', apos] ++ (' ' :: (apos :: (g.lit ++
        (litCloseTok ++ (g.tTrue ++ (elseTok ++ (g.tFalse ++ endifTok))))))))) = _
    exact dropWhile_cons_false isPyWs apos _ (by decide)
  have hapd : List.dropWhile isPyWs (apos :: (g.lit ++
      (litCloseTok ++ (g.tTrue ++ (elseTok ++ (g.tFalse ++ endifTok))))))
      = apos :: (g.lit ++
        (litCloseTok ++ (g.tTrue ++ (elseTok ++ (g.tFalse ++ endifTok))))) :=
    dropWhile_cons_false isPyWs apos _ (by decide)
  have hapdrop : dropExpect [apos] (apos :: (g.lit ++
      (litCloseTok ++ (g.tTrue ++ (elseTok ++ (g.tFalse ++ endifTok))))))
      = some (g.lit ++ (litCloseTok ++ (g.tTrue ++ (elseTok ++ (g.tFalse ++ endifTok))))) := by
    have := dropExpect_append [apos]
      (g.lit ++ (litCloseTok ++ (g.tTrue ++ (elseTok ++ (g.tFalse ++ endifTok)))))
    simpa using this
  have hltw : List.takeWhile (fun c => decide ¬(c = apos)) (g.lit ++
      (litCloseTok ++ (g.tTrue ++ (elseTok ++ (g.tFalse ++ endifTok)))))
      = g.lit := by
    rw [takeWhile_append_all _ g.lit _ (fun c hc => by simp [hLa c hc])]
    have hlc : litCloseTok ++ (g.tTrue ++ (elseTok ++ (g.tFalse ++ endifTok)))
        = apos :: (cbrace2 ++ (g.tTrue ++ (elseTok ++ (g.tFalse ++ endifTok)))) := rfl
    rw [hlc, takeWhile_cons_false _ apos _ (by simp)]
    simp
  have hldw : List.dropWhile (fun c => decide ¬(c = apos)) (g.lit ++
      (litCloseTok ++ (g.tTrue ++ (elseTok ++ (g.tFalse ++ endifTok)))))
      = litCloseTok ++ (g.tTrue ++ (elseTok ++ (g.tFalse ++ endifTok))) := by
    rw [dropWhile_append_all_pos _ g.lit _ (fun c hc => by simp [hLa c hc])]
    have hlc : litCloseTok ++ (g.tTrue ++ (elseTok ++ (g.tFalse ++ endifTok)))
        = apos :: (cbrace2 ++ (g.tTrue ++ (elseTok ++ (g.tFalse ++ endifTok)))) := rfl
    rw [hlc, dropWhile_cons_false _ apos _ (by simp)]
  have hseek1 : seekStop elseTok (g.tTrue ++ (elseTok ++ (g.tFalse ++ endifTok)))
      = some (g.tTrue, g.tFalse ++ endifTok) := by
    have := seekStop_concat braceO [braceO, 'e', 'l', 's', 'e', braceC, braceC]
      g.tTrue (g.tFalse ++ endifTok) hT
    simpa [elseTok, obrace2, cbrace2, List.append_assoc] using this
  have hseek2 : seekStop endifTok (g.tFalse ++ endifTok) = some (g.tFalse, []) := by
    have := seekStop_concat braceO [braceO, '/', 'i', 'f', braceC, braceC]
      g.tFalse [] hF
    simpa [endifTok, obrace2, cbrace2, List.append_assoc] using this
  rw [hblock]
  simp only [matchIfAt]
  rw [dropExpect_append]
  simp only [optSomeBind]
  rw [takeWs1_space, hkd]
  simp only [optSomeBind]
  rw [htk, hKe]
  simp only [Bool.false_eq_true, if_false]
  rw [hdk, takeWs1_space, heqd]
  simp only [optSomeBind]
  rw [dropExpect_append]
  simp only [optSomeBind]
  rw [takeWs1_space, hapd]
  simp only [optSomeBind]
  rw [hapdrop]
  simp only [optSomeBind]
  rw [hltw, hLe]
  simp only [Bool.false_eq_true, if_false]
  rw [hldw]
  rw [dropExpect_append]
  simp only [optSomeBind]
  rw [hseek1]
  simp only [optSomeBind]
  rw [hseek2]
  simp only [optSomeBind]

theorem findIfMatchesF_nil (fuel : Nat) : findIfMatchesF fuel [] = [] := by
  cases fuel with
  | zero => rfl
  | succ f => rfl

theorem findIfMatches_build (g : IfMatch)
    (hK : g.key ≠ []) (hKw : ∀ c ∈ g.key, isWordDot c = true)
    (hL : g.lit ≠ []) (hLa : ∀ c ∈ g.lit, c ≠ apos)
    (hT : ∀ c ∈ g.tTrue, c ≠ braceO ∧ c ≠ nlChar)
    (hF : ∀ c ∈ g.tFalse, c ≠ braceO ∧ c ≠ nlChar) :
    findIfMatches (buildIfBlock g) = [g] := by
  have hm := matchIfAt_build g hK hKw hL hLa hT hF
  show findIfMatchesF ((buildIfBlock g).length + 1) (buildIfBlock g) = [g]
  cases hb : buildIfBlock g with
  | nil =>
    rw [hb] at hm
    have hnone : matchIfAt [] = none := rfl
    rw [hnone] at hm
    cases hm
  | cons c t =>
    rw [hb] at hm
    simp only [findIfMatchesF, hm, findIfMatchesF_nil]

/-- The claim's grammar form with a bare `==`:
`\x7b\x7b#if Name == ...A...\x7d\x7dYES\x7b\x7belse\x7d\x7dNO\x7b\x7b/if\x7d\x7d`
(the literal quoted, the operator not). -/
def bareIfBlock : List Char :=
  "\x7b\x7b#if Name == ".data ++ [apos] ++ "A".data ++ [apos]
    ++ "\x7d\x7dYES\x7b\x7belse\x7d\x7dNO\x7b\x7b/if\x7d\x7d".data

/-- C6 counterexample: a conditional block written with a bare `==` — the
exact grammar the claim states — is not matched by the generator's
pattern (which demands a quoted `==` token) and is left in the output
verbatim, even though its key resolves equal to its literal, where the
claim requires the block to be replaced by `YES`. -/
theorem C6_conditional_counterexample :
    resolveConditionals [("Name", PyVal.vStr "A")] bareIfBlock = bareIfBlock ∧
    bareIfBlock ≠ "YES".data :=
  ⟨by decide, by decide⟩

/-- C6 (amended): the conditional pattern requires the operator written as
`==` wrapped in single quotes; a block in that concrete syntax —
reconstructed exactly as the source rebuilds `full_match_str` — is matched
whole and replaced, as one unit, by its TRUE text exactly when
`str(full_data.get(key, ""))` equals the literal case-insensitively, and
by its FALSE text otherwise.  A block written with a bare `==`, the
grammar the claim quotes, never matches and is left unchanged. -/
theorem C6_conditional_resolution (fullData : List (String × PyVal)) (g : IfMatch)
    (hK : g.key ≠ []) (hKw : ∀ c ∈ g.key, isWordDot c = true)
    (hL : g.lit ≠ []) (hLa : ∀ c ∈ g.lit, c ≠ apos)
    (hT : ∀ c ∈ g.tTrue, c ≠ braceO ∧ c ≠ nlChar)
    (hF : ∀ c ∈ g.tFalse, c ≠ braceO ∧ c ≠ nlChar) :
    findIfMatches (buildIfBlock g) = [g] ∧
    resolveConditionals fullData (buildIfBlock g)
      = (if (pyStr (pyGet fullData (String.mk g.key) (PyVal.vStr ""))).data.map Char.toLower
          = g.lit.map Char.toLower then g.tTrue else g.tFalse) := by
  have hfind := findIfMatches_build g hK hKw hL hLa hT hF
  have hne : buildIfBlock g ≠ [] := by
    intro hc
    have := congrArg List.length hc
    simp [buildIfBlock, ifOpenTok, obrace2] at this
  refine ⟨hfind, ?_⟩
  simp only [resolveConditionals, hfind, List.foldl_cons, List.foldl_nil]
  exact listReplace_self (buildIfBlock g) _ hne

/-- Witness for C6 at a concrete block: key `Name` resolving to `"A"`
against literal `a` picks the TRUE branch case-insensitively. -/
theorem C6_conditional_resolution_witness :
    resolveConditionals [("Name", PyVal.vStr "A")]
      (buildIfBlock (IfMatch.mk "Name".data "a".data "YES".data "NO".data))
      = "YES".data := by
  have h := (C6_conditional_resolution [("Name", PyVal.vStr "A")]
    (IfMatch.mk "Name".data "a".data "YES".data "NO".data)
    (by decide) (by decide) (by decide) (by decide) (by decide) (by decide)).2
  rw [h]
  decide

/-- C7: the numeric coercion applied to resolved table-row strings turns
the clean numeric literal `"1,234.50"` into the number `1234.5`
(`vDec 12345 1`, whose `str` is `"1234.5"`), and leaves `"0123"` — longer
than one character, starting with `'0'` but not with `"0."` — as a
string; the table fill loop writes exactly the coerced value. -/
theorem C7_numeric_coercion :
    coerceCellVal (PyVal.vStr "1,234.50") = PyVal.vDec 12345 1 ∧
    decRepr 12345 1 = "1234.5" ∧
    coerceCellVal (PyVal.vStr "0123") = PyVal.vStr "0123" ∧
    "0123".length > 1 ∧ "0123".data.head? = some '0' ∧
    hasPrefixL ['0', '.'] "0123".data = false ∧
    getCell (fillCellStep tagSW tagEW []
        (Sheet.mk [[Cell.mk (PyVal.vStr "1,234.50") none]] [none] []) 1 1) 1 1
      = Cell.mk (PyVal.vDec 12345 1) none ∧
    getCell (fillCellStep tagSW tagEW []
        (Sheet.mk [[Cell.mk (PyVal.vStr "0123") none]] [none] []) 1 1) 1 1
      = Cell.mk (PyVal.vStr "0123") none := by
  decide

/-- C8 counterexample: a missing contract in the PI endpoint surfaces as
HTTP 500 — the generic server-error category — not as the client-visible
404 category; the invoice endpoint does not map the missing-shipment
`ValueError` at all and lets it propagate unhandled. -/
theorem C8_not_found_counterexample :
    piEndpoint true (piGuard "c1" [] (Except.ok ()))
      = HttpOutcome.httpError 500 "No contract found with ID: c1" ∧
    piEndpoint true (piGuard "c1" [] (Except.ok ()))
      ≠ HttpOutcome.httpError 404 "No contract found with ID: c1" ∧
    invoiceEndpoint (invoiceGuard "s1" [] (Except.ok ()))
      = HttpOutcome.unhandled (PyErr.valueError "No Shipment found with ID: s1") :=
  ⟨rfl, by decide, rfl⟩

/-- C8 (amended): only the packing-list endpoints (ValueError mapped to
404) and the combined-export endpoint (HTTPException 404 raised directly)
surface a missing primary record in the 404 category.  The invoice
endpoint has no handler, so the ValueError propagates unhandled, and the
PI, production-order and quote endpoints catch every exception as HTTP
500 — the same category as any other internal error.  Generation is
aborted in every case. -/
theorem C8_not_found_endpoints (id : String) (rest : Except PyErr Unit) :
    packingListGetEndpoint true (packingListGuard id [] rest)
      = HttpOutcome.httpError 404 ("No Shipment found with ID: " ++ id) ∧
    packingListPostEndpoint true (packingListGuard id [] rest)
      = HttpOutcome.httpError 404 ("No Shipment found with ID: " ++ id) ∧
    combinedExportEndpoint (combinedExportGuard id [] rest)
      = HttpOutcome.httpError 404 ("No Shipment found with ID: " ++ id) ∧
    invoiceEndpoint (invoiceGuard id [] rest)
      = HttpOutcome.unhandled (PyErr.valueError ("No Shipment found with ID: " ++ id)) ∧
    piEndpoint true (piGuard id [] rest)
      = HttpOutcome.httpError 500 ("No contract found with ID: " ++ id) ∧
    poEndpoint true (poGuard id [] rest)
      = HttpOutcome.httpError 500 ("Contract not found: " ++ id) ∧
    quoteEndpoint true (quoteGuard [] rest)
      = HttpOutcome.httpError 500 "Quote not found" :=
  ⟨rfl, rfl, rfl, rfl, rfl, rfl, rfl⟩

theorem foldl_replace_id (reps : List (String × PyVal)) (s : List Char)
    (hk : ∀ kv ∈ reps, hasSubL kv.1.data s = false) :
    reps.foldl (fun acc pv => listReplace acc pv.1.data (pyStr pv.2).data) s = s := by
  induction reps with
  | nil => rfl
  | cons kv rest ih =>
    rw [List.foldl_cons, listReplace_not_contains s kv.1.data _ (hk kv (by simp))]
    exact ih (fun kv2 h2 => hk kv2 (by simp [h2]))

theorem applyReplacements_id (reps : List (String × PyVal)) (s : List Char)
    (hk : ∀ kv ∈ reps, hasSubL kv.1.data s = false) :
    applyReplacements reps s = s :=
  foldl_replace_id reps s hk

/-- C9 counterexample: the cell text `"NoNonene"` is already fully
resolved (it contains no placeholder), yet one pass of the invoice
resolution turns it into `"None"` — removing the inner `"None"` joins the
surrounding characters into a new occurrence — and a second pass turns
that into `""`.  Resolution is not idempotent. -/
theorem C9_idempotence_counterexample :
    invoiceResolveCell (invoiceReplacements [] []) (PyVal.vStr "NoNonene")
      = PyVal.vStr "None" ∧
    invoiceResolveCell (invoiceReplacements [] [])
        (invoiceResolveCell (invoiceReplacements [] []) (PyVal.vStr "NoNonene"))
      = PyVal.vStr "" ∧
    PyVal.vStr "None" ≠ PyVal.vStr "" :=
  ⟨by decide, by decide, by decide⟩

/-- C9 (amended): the invoice resolution pass is the identity — and hence
idempotent — on a string cell only when the text contains none of the
placeholder literals and no occurrence of the substring `"None"`; it is
always the identity on non-string cells.  Without the `"None"`-freedom
hypothesis a second pass can differ, because deleting `"None"` can create
a fresh `"None"` occurrence out of the surrounding characters. -/
theorem C9_resolution_idempotence (reps : List (String × PyVal)) (s : String) (v : PyVal)
    (hk : ∀ kv ∈ reps, hasSubL kv.1.data s.data = false)
    (hn : hasSubL noneTok s.data = false)
    (hv : ∀ t : String, v ≠ PyVal.vStr t) :
    invoiceResolveCell reps (PyVal.vStr s) = PyVal.vStr s ∧
    invoiceResolveCell reps (invoiceResolveCell reps (PyVal.vStr s))
      = invoiceResolveCell reps (PyVal.vStr s) ∧
    invoiceResolveCell reps v = v := by
  have h1 : invoiceResolveCell reps (PyVal.vStr s) = PyVal.vStr s := by
    simp only [invoiceResolveCell, invoiceHeaderPassCell]
    rw [applyReplacements_id reps s.data hk]
    simp [invoiceCleanupCell, noneCleanup, hn]
  refine ⟨h1, by rw [h1]; exact h1, ?_⟩
  cases v with
  | vStr t => exact absurd rfl (hv t)
  | vNone => rfl
  | vInt n => rfl
  | vDec m e => rfl

/-- Witness for C9: a placeholder-free, `"None"`-free text is fixed by
the invoice resolution pass. -/
theorem C9_resolution_idempotence_witness :
    invoiceResolveCell (invoiceReplacements [] []) (PyVal.vStr "Hello")
      = PyVal.vStr "Hello" :=
  (C9_resolution_idempotence (invoiceReplacements [] []) "Hello" (PyVal.vInt 0)
    (by decide) (by decide) (fun t h => by cases h)).1

theorem hasSubL_of_prefix (pat l : List Char) (h : hasPrefixL pat l = true) :
    hasSubL pat l = true := by
  cases l with
  | nil => exact h
  | cons c t => simp [hasSubL, h]

/-- Deleting a leading `"None"` keeps the remainder when the remainder is
`"None"`-free. -/
theorem noneCleanup_leading (r : List Char) (hr : hasSubL noneTok r = false) :
    noneCleanup (noneTok ++ r) = r := by
  have hsub : hasSubL noneTok (noneTok ++ r) = true :=
    hasSubL_of_prefix noneTok (noneTok ++ r) (hasPrefixL_append noneTok r)
  simp only [noneCleanup, hsub, if_pos]
  show replaceF noneTok [] ((noneTok ++ r).length + 1) (noneTok ++ r) = r
  have hsh : noneTok ++ r = 'N' :: ('o' :: ('n' :: ('e' :: r))) := rfl
  have hpre2 : hasPrefixL noneTok ('N' :: ('o' :: ('n' :: ('e' :: r)))) = true := by
    rw [← hsh]
    exact hasPrefixL_append noneTok r
  rw [hsh]
  simp only [replaceF, hpre2, if_pos]
  have hdrop : List.drop (noneTok.length - 1) ('o' :: ('n' :: ('e' :: r))) = r := rfl
  rw [hdrop, replaceF_not_contains noneTok [] _ r (by simp; omega) hr]
  simp

/-- C10 counterexample: the cleanup turns `"Nonexistent"` into
`"xistent"` — not the `"existent"` the claim's own example requires — and
after the pass a string cell can still contain `"None"`: `"XNoNonene"`
becomes `"XNone"`. -/
theorem C10_none_cleanup_counterexample :
    noneCleanup "Nonexistent".data = "xistent".data ∧
    "xistent".data ≠ "existent".data ∧
    noneCleanup "XNoNonene".data = "XNone".data ∧
    hasSubL noneTok (noneCleanup "XNoNonene".data) = true :=
  ⟨by decide, by decide, by decide, by decide⟩

/-- C10 (amended): the cleanup is one `str.replace("None", "")` — it
deletes the non-overlapping occurrences of `"None"` found left to right
in the original text, also inside legitimate literal text (a leading
`"None"` of `"Nonexistent"` is deleted, leaving `"xistent"`, not
`"existent"`), it is the identity on `"None"`-free text, and it does not
guarantee a `"None"`-free result: deleting an occurrence can splice a new
`"None"` together from the surrounding characters, as in
`"XNoNonene" ↦ "XNone"`. -/
theorem C10_none_cleanup (s r : List Char)
    (hs : hasSubL noneTok s = false) (hr : hasSubL noneTok r = false) :
    noneCleanup s = s ∧
    noneCleanup (noneTok ++ r) = r ∧
    invoiceCleanupCell (PyVal.vStr (String.mk (noneTok ++ r)))
      = PyVal.vStr (String.mk r) ∧
    noneCleanup "XNoNonene".data = "XNone".data ∧
    hasSubL noneTok (noneCleanup "XNoNonene".data) = true := by
  refine ⟨by simp [noneCleanup, hs], noneCleanup_leading r hr, ?_, by decide, by decide⟩
  simp only [invoiceCleanupCell]
  rw [noneCleanup_leading r hr]

/-- Witness for C10: deleting the leading `"None"` of `"Nonexistent"`
leaves `"xistent"`. -/
theorem C10_none_cleanup_witness :
    noneCleanup (noneTok ++ "xistent".data) = "xistent".data :=
  (C10_none_cleanup [] "xistent".data (by decide) (by decide)).2.1
